import Mathlib

/-!
# Verification of the minibit wire-protocol codec

A shallow embedding of the minibit Rust crate (frame header, CRC32C engine,
LEB128 varint codec, frame encoder/decoder with body cursor, and the
trade/quote message schema layer), together with theorems settling the
specification claims.

Modelling conventions:
* Byte buffers are `List Nat`; a well-formed buffer has every element `< 256`.
* Machine integers are `Nat` (with explicit `% 2 ^ w` where Rust truncates)
  and `i64` values are `Int` restricted to the two's-complement range.
* Fallible Rust operations returning `Result<T, Error>` become `MRes T`:
  `MRes.ok`, `MRes.err` mirror `Ok`/`Err`, and the extra outcome
  `MRes.panic` marks control paths on which the Rust code would panic
  (an out-of-bounds slice or index).  Totality claims are then the
  statement that an operation never produces `MRes.panic`.
* A Rust method mutating `&mut self` becomes a function returning the
  updated value.
-/

namespace Minibit

set_option maxRecDepth 100000

/-- The `Error` enum of `src/error.rs`. -/
inductive Err where
  | shortBuffer
  | crcMismatch
  | invalidMagic
  | unsupportedVersion
  | unexpectedEof
  | overflow
  | flagConflict
  | decodeInvariant
  | unsupportedMsgType
  | invalidVarint
deriving DecidableEq, Repr

/-- Outcome of a fallible operation: `Ok`, `Err`, or a Rust panic
(out-of-bounds access).  `Result<T, Error>` maps to the first two
constructors; `panic` never corresponds to a returned value. -/
inductive MRes (α : Type) where
  | ok : α → MRes α
  | err : Err → MRes α
  | panic : MRes α
deriving DecidableEq, Repr

namespace MRes

/-- Sequencing of fallible operations (Rust's `?` operator); `err` and
`panic` outcomes propagate. -/
def bind {α β : Type} (x : MRes α) (f : α → MRes β) : MRes β :=
  match x with
  | .ok a => f a
  | .err e => .err e
  | .panic => .panic

@[simp] theorem bind_ok {α β : Type} (a : α) (f : α → MRes β) :
    bind (.ok a) f = f a := rfl

@[simp] theorem bind_err {α β : Type} (e : Err) (f : α → MRes β) :
    bind (.err e) f = .err e := rfl

@[simp] theorem bind_panic {α β : Type} (f : α → MRes β) :
    bind (.panic : MRes α) f = .panic := rfl

/-- Lift a pure `Result` (an operation that cannot panic) into `MRes`. -/
def ofExcept {α : Type} : Except Err α → MRes α
  | .ok a => .ok a
  | .error e => .err e

@[simp] theorem ofExcept_ok {α : Type} (a : α) :
    ofExcept (.ok a : Except Err α) = .ok a := rfl

@[simp] theorem ofExcept_error {α : Type} (e : Err) :
    ofExcept (.error e : Except Err α) = .err e := rfl

end MRes

instance {ε α : Type} [DecidableEq ε] [DecidableEq α] : DecidableEq (Except ε α) :=
  fun x y =>
    match x, y with
    | .ok a, .ok b => if h : a = b then isTrue (by rw [h]) else isFalse (by simp [h])
    | .error e, .error f => if h : e = f then isTrue (by rw [h]) else isFalse (by simp [h])
    | .ok _, .error _ => isFalse (by simp)
    | .error _, .ok _ => isFalse (by simp)

/-! ## Little-endian byte strings -/

/-- Value of a little-endian byte string (`uN::from_le_bytes`). -/
def leVal : List Nat → Nat
  | [] => 0
  | b :: rest => b + 256 * leVal rest

/-- The `w` little-endian bytes of `v` (`uN::to_le_bytes`; truncates `v`
to `w` bytes exactly as a Rust cast would). -/
def leBytes : Nat → Nat → List Nat
  | 0, _ => []
  | w + 1, v => v % 256 :: leBytes w (v / 256)

@[simp] theorem length_leBytes (w v : Nat) : (leBytes w v).length = w := by
  induction w generalizing v with
  | zero => rfl
  | succ w ih => simp [leBytes, ih]

theorem leVal_leBytes {w v : Nat} (h : v < 2 ^ (8 * w)) :
    leVal (leBytes w v) = v := by
  induction w generalizing v with
  | zero => simpa [leBytes, leVal] using (Nat.lt_one_iff.mp (by simpa using h)).symm
  | succ w ih =>
      have hv : v / 256 < 2 ^ (8 * w) := by
        apply Nat.div_lt_of_lt_mul
        calc v < 2 ^ (8 * (w + 1)) := h
        _ = 2 ^ (8 * w) * 256 := by ring
        _ = 256 * 2 ^ (8 * w) := by ring
      simp [leBytes, leVal, ih hv, Nat.mod_add_div']
      omega

theorem leBytes_lt (w v : Nat) : ∀ b ∈ leBytes w v, b < 256 := by
  induction w generalizing v with
  | zero => simp [leBytes]
  | succ w ih =>
      intro b hb
      simp only [leBytes, List.mem_cons] at hb
      rcases hb with h | h
      · omega
      · exact ih _ b h

/-- Rust slice `buf[off..en]`. -/
def sliceL (buf : List Nat) (off en : Nat) : List Nat :=
  (buf.drop off).take (en - off)

/-- Rust slice `buf[off..en]` with its panic behaviour: panics when the
range is invalid or extends past the end of the buffer. -/
def sliceP (buf : List Nat) (off en : Nat) : MRes (List Nat) :=
  if off ≤ en ∧ en ≤ buf.length then .ok (sliceL buf off en) else .panic

/-- Rust index `buf[i]` with its panic behaviour. -/
def byteP (buf : List Nat) (i : Nat) : MRes Nat :=
  match buf.get? i with
  | some b => .ok b
  | none => .panic

/-! ## Protocol constants (`src/lib.rs`, `src/messages.rs`) -/

def FRAME_MAGIC : Nat := 0xFEED
def PROTOCOL_VERSION : Nat := 1
def MIN_FRAME_SIZE : Nat := 18
def MAX_FRAME_SIZE : Nat := 16 * 1024 * 1024
def TRADE_V1 : Nat := 1
def QUOTE_V1 : Nat := 2

/-! ## CRC32C engine (`src/crc32c.rs`)

The crate's hardware-acceleration entry points fall back to the software
table implementation, so `crc32c` is exactly `crc32c_sw`.  The 256-entry
lookup table is modelled as the function `crc32cTable`; `crc32cTable i`
is precisely what `generate_crc32c_table` stores at index `i`. -/

def CRC32C_POLYNOMIAL : Nat := 0x82F63B78

/-- One iteration of the inner `while j < 8` loop of
`generate_crc32c_table`. -/
def crcEntryStep (crc : Nat) : Nat :=
  if crc &&& 1 ≠ 0 then (crc >>> 1) ^^^ CRC32C_POLYNOMIAL else crc >>> 1

/-- `j` iterations of `crcEntryStep`. -/
def crcEntryIter : Nat → Nat → Nat
  | 0, crc => crc
  | j + 1, crc => crcEntryIter j (crcEntryStep crc)

/-- Entry `i` of the CRC32C lookup table (`CRC32C_TABLE[i]`). -/
def crc32cTable (i : Nat) : Nat := crcEntryIter 8 i

/-- One iteration of the `for &byte in data` loop of `crc32c_sw`. -/
def crcStep (crc byte : Nat) : Nat :=
  (crc >>> 8) ^^^ crc32cTable ((crc ^^^ byte) &&& 0xFF)

/-- The accumulator loop of `crc32c_sw`. -/
def crcFold : Nat → List Nat → Nat
  | crc, [] => crc
  | crc, byte :: rest => crcFold (crcStep crc byte) rest

/-- `crc32c_sw`: initialise to all-ones, fold, complement (32-bit `!`). -/
def crc32c_sw (data : List Nat) : Nat :=
  crcFold 0xFFFFFFFF data ^^^ 0xFFFFFFFF

/-- `crc32c::crc32c`: both hardware paths fall back to the software
implementation, so this is `crc32c_sw`. -/
def crc32c (data : List Nat) : Nat := crc32c_sw data

/-- `crc32c::verify_crc32c`. -/
def crc32cVerify (data : List Nat) (expected : Nat) : Bool :=
  crc32c data == expected

/-! ## Varint codec (`src/varint.rs`)

`encode_u32` and `encode_u64` are textually identical loops in the
source (the operand width only matters through the value's range), so
both are modelled by `varintEncodeLoop`.  The loop consumes one byte of
remaining buffer capacity per iteration, so recursion on the capacity is
exact: the `pos >= buf.len()` check is `cap = 0`. -/

def varintEncodeLoop : Nat → Nat → MRes (List Nat)
  | _, 0 => .err .shortBuffer
  | value, cap + 1 =>
      if value < 0x80 then .ok [value]
      else
        match varintEncodeLoop (value >>> 7) cap with
        | .ok rest => .ok (((value % 256) ||| 0x80) :: rest)
        | .err e => .err e
        | .panic => .panic

/-- `varint::encode_u32` (returns the bytes written; the byte count of the
source is their length). -/
def varintEncodeU32 (value cap : Nat) : MRes (List Nat) :=
  varintEncodeLoop value cap

/-- `varint::encode_u64`. -/
def varintEncodeU64 (value cap : Nat) : MRes (List Nat) :=
  varintEncodeLoop value cap

/-- The decode loop shared by `decode_u32` (`width = 32`) and `decode_u64`
(`width = 64`), recursing on the unread suffix of the buffer.  The
`pos >= buf.len()` check is the `[]` case and is made before the shift
check, exactly as in the source; `((byte & 0x7F) as uN) << shift`
truncates to the target width, hence the `% 2 ^ width`. -/
def varintDecodeLoop (width : Nat) : List Nat → Nat → Nat → Nat → Except Err (Nat × Nat)
  | [], _, _, _ => .error .unexpectedEof
  | byte :: rest, result, shift, pos =>
      if shift ≥ width then .error .overflow
      else
        let result := result ||| ((byte &&& 0x7F) <<< shift) % 2 ^ width
        if byte &&& 0x80 = 0 then .ok (result, pos + 1)
        else varintDecodeLoop width rest result (shift + 7) (pos + 1)

/-- `varint::decode_u32`. -/
def varintDecodeU32 (buf : List Nat) : Except Err (Nat × Nat) :=
  varintDecodeLoop 32 buf 0 0 0

/-- `varint::decode_u64`. -/
def varintDecodeU64 (buf : List Nat) : Except Err (Nat × Nat) :=
  varintDecodeLoop 64 buf 0 0 0

/-! ## Frame header (`src/frame.rs`) -/

/-- `FrameHeader`.  Field values are `Nat`; a header obtained from real
bytes has `magic, msg_type < 2 ^ 16`, `ver, flags < 2 ^ 8` and
`seq, len < 2 ^ 32`. -/
structure FrameHeader where
  magic : Nat
  ver : Nat
  flags : Nat
  msg_type : Nat
  seq : Nat
  len : Nat
deriving DecidableEq, Repr

namespace FrameHeader

/-- `FrameHeader::SIZE`. -/
def SIZE : Nat := 16

/-- `FrameHeader::new`. -/
def new (msg_type seq len : Nat) : FrameHeader :=
  { magic := FRAME_MAGIC, ver := 1, flags := 0, msg_type := msg_type, seq := seq, len := len }

/-- `FrameHeader::set_flag`. -/
def set_flag (h : FrameHeader) (flag : Nat) : FrameHeader :=
  { h with flags := h.flags ||| flag }

/-- `FrameHeader::clear_flag` (`flags &= !flag`, with `!` the 8-bit
complement). -/
def clear_flag (h : FrameHeader) (flag : Nat) : FrameHeader :=
  { h with flags := h.flags &&& (flag ^^^ 0xFF) }

/-- `FrameHeader::has_flag`. -/
def has_flag (h : FrameHeader) (flag : Nat) : Bool :=
  h.flags &&& flag != 0

/-- `FrameHeader::validate`.  On a 64-bit host the
`checked_add` chain `len + SIZE + 4` cannot overflow (`len < 2 ^ 32`),
so the `Overflow` early return for the additions themselves is dead
code; in `Nat` the sum is exact. -/
def validate (h : FrameHeader) : Except Err Unit :=
  if h.magic ≠ FRAME_MAGIC then .error .invalidMagic
  else if h.ver ≠ 1 then .error .unsupportedVersion
  else if h.flags &&& 0xF8 ≠ 0 then .error .flagConflict
  else
    let total_size := h.len + SIZE + 4
    if total_size < MIN_FRAME_SIZE ∨ total_size > MAX_FRAME_SIZE then .error .overflow
    else .ok ()

/-- The 16 bytes written by `FrameHeader::encode` into `buf[0..16]`. -/
def headerBytes (h : FrameHeader) : List Nat :=
  leBytes 2 h.magic ++ leBytes 1 h.ver ++ leBytes 1 h.flags ++
    leBytes 2 h.msg_type ++ leBytes 4 h.seq ++ leBytes 4 h.len ++ [0, 0]

/-- `FrameHeader::encode`: fails `ShortBuffer` on a buffer of fewer than
16 bytes, otherwise overwrites `buf[0..16]` (bytes `14..16` are filled
with zero) and leaves the rest of the buffer unchanged. -/
def encode (h : FrameHeader) (buf : List Nat) : Except Err (List Nat) :=
  if buf.length < SIZE then .error .shortBuffer
  else .ok (headerBytes h ++ buf.drop SIZE)

/-- `FrameHeader::decode`: requires 16 bytes, reads the fields (skipping
the reserved bytes `14..16`), validates, and returns the header. -/
def decode (buf : List Nat) : Except Err FrameHeader :=
  if buf.length < SIZE then .error .unexpectedEof
  else
    let h : FrameHeader :=
      { magic := leVal (sliceL buf 0 2)
        ver := buf.getD 2 0
        flags := buf.getD 3 0
        msg_type := leVal (sliceL buf 4 6)
        seq := leVal (sliceL buf 6 10)
        len := leVal (sliceL buf 10 14) }
    match h.validate with
    | .error e => .error e
    | .ok _ => .ok h

/-- `FrameHeader::total_size`. -/
def total_size (h : FrameHeader) : Nat := SIZE + h.len + 4

end FrameHeader

/-! ## Frame decoder and body cursor (`src/decoder.rs`)

`FrameDecoder` is just a borrowed buffer, so each method is a function
of the buffer. -/

/-- `BodyCursor`. -/
structure BodyCursor where
  buf : List Nat
  pos : Nat
deriving DecidableEq, Repr

namespace FrameDecoder

/-- `FrameDecoder::header`. -/
def header (buf : List Nat) : MRes FrameHeader :=
  MRes.ofExcept (FrameHeader.decode buf)

/-- The shared tail of `FrameDecoder::verify_crc32c` once a tentative
total size is known (from a valid header or from the raw `len` field):
bounds check, CRC comparison against the trailer, then the tie-break on
the original header result. -/
def verifyWithTotal (buf : List Nat) (headerResult : Except Err FrameHeader)
    (total_size : Nat) : MRes Unit :=
  if buf.length < total_size then .err .unexpectedEof
  else
    MRes.bind (sliceP buf 0 (total_size - 4)) fun frame_data =>
    MRes.bind (sliceP buf (total_size - 4) total_size) fun crc_bytes =>
    if ¬ crc32cVerify frame_data (leVal crc_bytes) then .err .crcMismatch
    else
      match headerResult with
      | .error e => .err e
      | .ok _ => .ok ()

/-- `FrameDecoder::verify_crc32c` (the tie-break policy).  On header
failure the raw `len` field is read from bytes `10..14`; if
`16 + len + 4` would exceed `MAX_FRAME_SIZE` the original header error
is returned, otherwise the CRC is still checked. -/
def verify_crc32c (buf : List Nat) : MRes Unit :=
  match FrameHeader.decode buf with
  | .ok h => verifyWithTotal buf (.ok h) h.total_size
  | .error e =>
      if buf.length < FrameHeader.SIZE then .err .unexpectedEof
      else
        MRes.bind (sliceP buf 10 14) fun len_bytes =>
        if leVal len_bytes > MAX_FRAME_SIZE - FrameHeader.SIZE - 4 then .err e
        else verifyWithTotal buf (.error e) (FrameHeader.SIZE + leVal len_bytes + 4)

/-- `FrameDecoder::body`. -/
def body (buf : List Nat) : MRes BodyCursor :=
  MRes.bind (header buf) fun h =>
  if buf.length < FrameHeader.SIZE + h.len then .err .unexpectedEof
  else
    MRes.bind (sliceP buf FrameHeader.SIZE (FrameHeader.SIZE + h.len)) fun b =>
    .ok { buf := b, pos := 0 }

/-- `FrameDecoder::frame_buffer`. -/
def frame_buffer (buf : List Nat) : MRes (List Nat) :=
  MRes.bind (header buf) fun h =>
  if buf.length < h.total_size then .err .unexpectedEof
  else sliceP buf 0 h.total_size

end FrameDecoder

namespace BodyCursor

/-- `BodyCursor::remaining`. -/
def remaining (c : BodyCursor) : Nat := c.buf.length - c.pos

/-- `BodyCursor::is_at_end`. -/
def is_at_end (c : BodyCursor) : Bool := c.buf.length ≤ c.pos

/-- `BodyCursor::skip`. -/
def skip (c : BodyCursor) (n : Nat) : MRes BodyCursor :=
  if c.pos + n > c.buf.length then .err .unexpectedEof
  else .ok { c with pos := c.pos + n }

/-- `BodyCursor::get_u8`. -/
def get_u8 (c : BodyCursor) : MRes (Nat × BodyCursor) :=
  if c.pos ≥ c.buf.length then .err .unexpectedEof
  else
    MRes.bind (byteP c.buf c.pos) fun value =>
    .ok (value, { c with pos := c.pos + 1 })

/-- The common shape of `get_u16`/`get_u32`/`get_u64`: check
`pos + w > len`, read `w` bytes little-endian, advance. -/
def getLE (c : BodyCursor) (w : Nat) : MRes (Nat × BodyCursor) :=
  if c.pos + w > c.buf.length then .err .unexpectedEof
  else
    MRes.bind (sliceP c.buf c.pos (c.pos + w)) fun bytes =>
    .ok (leVal bytes, { c with pos := c.pos + w })

/-- `BodyCursor::get_u16`. -/
def get_u16 (c : BodyCursor) : MRes (Nat × BodyCursor) := getLE c 2

/-- `BodyCursor::get_u32`. -/
def get_u32 (c : BodyCursor) : MRes (Nat × BodyCursor) := getLE c 4

/-- `BodyCursor::get_u64`. -/
def get_u64 (c : BodyCursor) : MRes (Nat × BodyCursor) := getLE c 8

/-- Two's-complement reinterpretation `u32 -> i32`. -/
def toI32 (v : Nat) : Int := if v < 2 ^ 31 then (v : Int) else (v : Int) - 2 ^ 32

/-- Two's-complement reinterpretation `u64 -> i64`. -/
def toI64 (v : Nat) : Int := if v < 2 ^ 63 then (v : Int) else (v : Int) - 2 ^ 64

/-- `BodyCursor::get_i32` (`get_u32()? as i32`). -/
def get_i32 (c : BodyCursor) : MRes (Int × BodyCursor) :=
  MRes.bind (get_u32 c) fun vc => .ok (toI32 vc.1, vc.2)

/-- `BodyCursor::get_i64` (`get_u64()? as i64`). -/
def get_i64 (c : BodyCursor) : MRes (Int × BodyCursor) :=
  MRes.bind (get_u64 c) fun vc => .ok (toI64 vc.1, vc.2)

/-- `BodyCursor::get_bitmap`. -/
def get_bitmap (c : BodyCursor) : MRes (Nat × BodyCursor) := get_u16 c

/-- `BodyCursor::get_varbytes`: varint length prefix, then that many raw
bytes.  `&self.buf[self.pos..]` panics when `pos > len`, hence the
`sliceP`. -/
def get_varbytes (c : BodyCursor) : MRes (List Nat × BodyCursor) :=
  MRes.bind (sliceP c.buf c.pos c.buf.length) fun remaining_buf =>
  MRes.bind (MRes.ofExcept (varintDecodeU32 remaining_buf)) fun lv =>
  let pos := c.pos + lv.2
  let len := lv.1
  if pos + len > c.buf.length then .err .unexpectedEof
  else
    MRes.bind (sliceP c.buf pos (pos + len)) fun bytes =>
    .ok (bytes, { c with pos := pos + len })

/-- `BodyCursor::get_bytes`. -/
def get_bytes (c : BodyCursor) (len : Nat) : MRes (List Nat × BodyCursor) :=
  if c.pos + len > c.buf.length then .err .unexpectedEof
  else
    MRes.bind (sliceP c.buf c.pos (c.pos + len)) fun bytes =>
    .ok (bytes, { c with pos := c.pos + len })

/-- `BodyCursor::get_varint_u32`. -/
def get_varint_u32 (c : BodyCursor) : MRes (Nat × BodyCursor) :=
  MRes.bind (sliceP c.buf c.pos c.buf.length) fun remaining_buf =>
  MRes.bind (MRes.ofExcept (varintDecodeU32 remaining_buf)) fun lv =>
  .ok (lv.1, { c with pos := c.pos + lv.2 })

/-- `BodyCursor::get_varint_u64`. -/
def get_varint_u64 (c : BodyCursor) : MRes (Nat × BodyCursor) :=
  MRes.bind (sliceP c.buf c.pos c.buf.length) fun remaining_buf =>
  MRes.bind (MRes.ofExcept (varintDecodeU64 remaining_buf)) fun lv =>
  .ok (lv.1, { c with pos := c.pos + lv.2 })

/-- `BodyCursor::peek_bytes` (does not advance). -/
def peek_bytes (c : BodyCursor) (len : Nat) : MRes (List Nat) :=
  if c.pos + len > c.buf.length then .err .unexpectedEof
  else sliceP c.buf c.pos (c.pos + len)

end BodyCursor

/-! ## Frame encoder (`src/encoder.rs`) -/

/-- `FrameEncoder`: the caller buffer plus write position and the frame
start markers. -/
structure FrameEncoder where
  buf : List Nat
  pos : Nat
  header_start : Nat
  body_start : Nat
deriving DecidableEq, Repr

/-- Overwrite `buf[i .. i + chunk.length]` with `chunk` (the effect of
`copy_from_slice` into that range; meaningful when
`i + chunk.length ≤ buf.length`). -/
def writeAt (buf : List Nat) (i : Nat) (chunk : List Nat) : List Nat :=
  buf.take i ++ chunk ++ buf.drop (i + chunk.length)

namespace FrameEncoder

/-- `FrameEncoder::new`. -/
def new (buf : List Nat) : FrameEncoder :=
  { buf := buf, pos := 0, header_start := 0, body_start := 0 }

/-- `FrameEncoder::begin`.  The guard only checks `buf.len() >= 16`; the
subsequent slice `buf[pos..pos + 16]` panics when `pos + 16 > buf.len()`
(on that 16-byte slice `FrameHeader::encode` itself cannot fail). -/
def begin (st : FrameEncoder) (header : FrameHeader) : MRes FrameEncoder :=
  if st.buf.length < FrameHeader.SIZE then .err .shortBuffer
  else if st.pos + FrameHeader.SIZE > st.buf.length then .panic
  else
    .ok { st with
          buf := writeAt st.buf st.pos header.headerBytes
          pos := st.pos + FrameHeader.SIZE
          header_start := st.pos
          body_start := st.pos + FrameHeader.SIZE }

/-- The common shape of the fixed-width `put` operations: bounds check
against the remaining capacity, then write the chunk at `pos`. -/
def putChunk (st : FrameEncoder) (chunk : List Nat) : MRes FrameEncoder :=
  if st.pos + chunk.length > st.buf.length then .err .shortBuffer
  else .ok { st with buf := writeAt st.buf st.pos chunk, pos := st.pos + chunk.length }

/-- `FrameEncoder::put_u8` (the check `pos >= len` is
`pos + 1 > len`). -/
def put_u8 (st : FrameEncoder) (value : Nat) : MRes FrameEncoder :=
  putChunk st (leBytes 1 value)

/-- `FrameEncoder::put_u16`. -/
def put_u16 (st : FrameEncoder) (value : Nat) : MRes FrameEncoder :=
  putChunk st (leBytes 2 value)

/-- `FrameEncoder::put_u32`. -/
def put_u32 (st : FrameEncoder) (value : Nat) : MRes FrameEncoder :=
  putChunk st (leBytes 4 value)

/-- `FrameEncoder::put_u64`. -/
def put_u64 (st : FrameEncoder) (value : Nat) : MRes FrameEncoder :=
  putChunk st (leBytes 8 value)

/-- `FrameEncoder::put_i32` (`value as u32`). -/
def put_i32 (st : FrameEncoder) (value : Int) : MRes FrameEncoder :=
  put_u32 st (value % 2 ^ 32).toNat

/-- `FrameEncoder::put_i64` (`value as u64`). -/
def put_i64 (st : FrameEncoder) (value : Int) : MRes FrameEncoder :=
  put_u64 st (value % 2 ^ 64).toNat

/-- `FrameEncoder::put_bitmap` (always the 16-bit format). -/
def put_bitmap (st : FrameEncoder) (bitmap : Nat) : MRes FrameEncoder :=
  put_u16 st bitmap

/-- `FrameEncoder::put_bytes`. -/
def put_bytes (st : FrameEncoder) (bytes : List Nat) : MRes FrameEncoder :=
  putChunk st bytes

/-- `FrameEncoder::put_varbytes`: varint length prefix into the
remaining buffer (`&mut self.buf[self.pos..]` panics when `pos > len`),
then the raw bytes. -/
def put_varbytes (st : FrameEncoder) (bytes : List Nat) : MRes FrameEncoder :=
  if st.pos > st.buf.length then .panic
  else
    MRes.bind (varintEncodeU32 bytes.length (st.buf.length - st.pos)) fun vb =>
    let st1 : FrameEncoder := { st with buf := writeAt st.buf st.pos vb, pos := st.pos + vb.length }
    if st1.pos + bytes.length > st1.buf.length then .err .shortBuffer
    else .ok { st1 with buf := writeAt st1.buf st1.pos bytes, pos := st1.pos + bytes.length }

/-- `FrameEncoder::put_varint_u32`. -/
def put_varint_u32 (st : FrameEncoder) (value : Nat) : MRes FrameEncoder :=
  if st.pos > st.buf.length then .panic
  else
    MRes.bind (varintEncodeU32 value (st.buf.length - st.pos)) fun vb =>
    .ok { st with buf := writeAt st.buf st.pos vb, pos := st.pos + vb.length }

/-- `FrameEncoder::put_varint_u64`. -/
def put_varint_u64 (st : FrameEncoder) (value : Nat) : MRes FrameEncoder :=
  if st.pos > st.buf.length then .panic
  else
    MRes.bind (varintEncodeU64 value (st.buf.length - st.pos)) fun vb =>
    .ok { st with buf := writeAt st.buf st.pos vb, pos := st.pos + vb.length }

/-- `FrameEncoder::position`. -/
def position (st : FrameEncoder) : Nat := st.pos

/-- `FrameEncoder::remaining`. -/
def remaining (st : FrameEncoder) : Nat := st.buf.length - st.pos

/-- `FrameEncoder::finish_crc32c`: back-patch the header's `len` field at
`header_start + 10`, CRC the header+body span, append the 4-byte
trailer, return the total frame size together with the updated encoder.
The unguarded subtraction `pos - body_start` and the unguarded slices
panic exactly where the Rust would. -/
def finish_crc32c (st : FrameEncoder) : MRes (Nat × FrameEncoder) :=
  if st.pos < st.body_start then .panic
  else if st.header_start + 10 + 4 > st.buf.length then .panic
  else
    MRes.bind
      (sliceP (writeAt st.buf (st.header_start + 10) (leBytes 4 (st.pos - st.body_start)))
        st.header_start st.pos) fun frame_data =>
    if st.pos + 4 >
        (writeAt st.buf (st.header_start + 10) (leBytes 4 (st.pos - st.body_start))).length then
      .err .shortBuffer
    else
      .ok (st.pos + 4 - st.header_start,
        { st with
          buf := writeAt
            (writeAt st.buf (st.header_start + 10) (leBytes 4 (st.pos - st.body_start)))
            st.pos (leBytes 4 (crc32c frame_data))
          pos := st.pos + 4 })

/-- `FrameEncoder::reset`. -/
def reset (st : FrameEncoder) : FrameEncoder :=
  { st with pos := 0, header_start := 0, body_start := 0 }

/-- `FrameEncoder::as_slice`. -/
def as_slice (st : FrameEncoder) : List Nat :=
  sliceL st.buf st.header_start st.pos

end FrameEncoder

/-! ## Message schema layer (`src/messages.rs`)

The Rust functions mutate the caller's buffer and return the frame
size; the model returns the size together with the final buffer. -/

namespace trade

/-- `trade::fields::SYMBOL`. -/
def SYMBOL : Nat := 0
/-- `trade::fields::NOTE`. -/
def NOTE : Nat := 1

/-- `trade::encode`. -/
def encode (buf : List Nat) (seq ts_ns : Nat) (price : Int) (qty : Nat)
    (symbol note : Option (List Nat)) : MRes (Nat × List Nat) :=
  let st := FrameEncoder.new buf
  let header0 := FrameHeader.new TRADE_V1 seq 0
  let header :=
    if symbol.isSome || note.isSome then header0.set_flag 0x01 else header0
  MRes.bind (st.begin header) fun st =>
  MRes.bind (st.put_u64 ts_ns) fun st =>
  MRes.bind (st.put_i64 price) fun st =>
  MRes.bind (st.put_u32 qty) fun st =>
  MRes.bind
    (if symbol.isSome || note.isSome then
      let bitmap :=
        (if symbol.isSome then 1 <<< SYMBOL else 0) |||
          (if note.isSome then 1 <<< NOTE else 0)
      MRes.bind (st.put_bitmap bitmap) fun st =>
      MRes.bind
        (match symbol with
         | some symbol_bytes => st.put_varbytes symbol_bytes
         | none => .ok st) fun st =>
      match note with
      | some note_bytes => st.put_varbytes note_bytes
      | none => .ok st
    else .ok st) fun st =>
  MRes.bind st.finish_crc32c fun res =>
  .ok (res.1, res.2.buf)

/-- `trade::decode`.  Returns
`(header, ts_ns, price, qty, symbol, note)`. -/
def decode (buf : List Nat) :
    MRes (FrameHeader × Nat × Int × Nat × Option (List Nat) × Option (List Nat)) :=
  MRes.bind (FrameDecoder.header buf) fun header =>
  if header.msg_type ≠ TRADE_V1 then .err .unsupportedMsgType
  else
    MRes.bind (FrameDecoder.verify_crc32c buf) fun _ =>
    MRes.bind (FrameDecoder.body buf) fun body =>
    MRes.bind body.get_u64 fun tc =>
    MRes.bind tc.2.get_i64 fun pc =>
    MRes.bind pc.2.get_u32 fun qc =>
    MRes.bind
      (if header.has_flag 0x01 then
        MRes.bind qc.2.get_bitmap fun bc =>
        MRes.bind
          (if bc.1 &&& (1 <<< SYMBOL) ≠ 0 then
            MRes.bind bc.2.get_varbytes fun sc => .ok (some sc.1, sc.2)
          else .ok (none, bc.2)) fun sc =>
        if bc.1 &&& (1 <<< NOTE) ≠ 0 then
          MRes.bind sc.2.get_varbytes fun nc => .ok (sc.1, some nc.1)
        else .ok (sc.1, none)
      else .ok (none, none)) fun sn =>
    .ok (header, tc.1, pc.1, qc.1, sn.1, sn.2)

end trade

namespace quote

/-- `quote::fields::SYMBOL`. -/
def SYMBOL : Nat := 0

/-- `quote::encode`. -/
def encode (buf : List Nat) (seq ts_ns : Nat) (bid ask : Int) (level : Nat)
    (symbol : Option (List Nat)) : MRes (Nat × List Nat) :=
  let st := FrameEncoder.new buf
  let header0 := FrameHeader.new QUOTE_V1 seq 0
  let header := if symbol.isSome then header0.set_flag 0x01 else header0
  MRes.bind (st.begin header) fun st =>
  MRes.bind (st.put_u64 ts_ns) fun st =>
  MRes.bind (st.put_i64 bid) fun st =>
  MRes.bind (st.put_i64 ask) fun st =>
  MRes.bind (st.put_u8 level) fun st =>
  MRes.bind
    (match symbol with
     | some symbol_bytes =>
        MRes.bind (st.put_bitmap (1 <<< SYMBOL)) fun st =>
        st.put_varbytes symbol_bytes
     | none => .ok st) fun st =>
  MRes.bind st.finish_crc32c fun res =>
  .ok (res.1, res.2.buf)

/-- `quote::decode`.  Returns `(header, ts_ns, bid, ask, level, symbol)`. -/
def decode (buf : List Nat) :
    MRes (FrameHeader × Nat × Int × Int × Nat × Option (List Nat)) :=
  MRes.bind (FrameDecoder.header buf) fun header =>
  if header.msg_type ≠ QUOTE_V1 then .err .unsupportedMsgType
  else
    MRes.bind (FrameDecoder.verify_crc32c buf) fun _ =>
    MRes.bind (FrameDecoder.body buf) fun body =>
    MRes.bind body.get_u64 fun tc =>
    MRes.bind tc.2.get_i64 fun bc =>
    MRes.bind bc.2.get_i64 fun ac =>
    MRes.bind ac.2.get_u8 fun lc =>
    MRes.bind
      (if header.has_flag 0x01 then
        MRes.bind lc.2.get_bitmap fun mc =>
        if mc.1 &&& (1 <<< SYMBOL) ≠ 0 then
          MRes.bind mc.2.get_varbytes fun sc => .ok (some sc.1)
        else .ok none
      else .ok none) fun symbol =>
    .ok (header, tc.1, bc.1, ac.1, lc.1, symbol)

end quote

/-! ## Generic list and slice lemmas -/

theorem sliceL_eq_drop_take (buf : List Nat) (off en : Nat) :
    sliceL buf off en = (buf.take en).drop off := by
  unfold sliceL
  rcases le_or_lt off en with h | h
  · rw [List.take_drop]
    have he : off + (en - off) = en := by omega
    rw [he]
  · have h1 : en - off = 0 := by omega
    rw [h1, List.take_zero]
    symm
    rw [List.drop_eq_nil_iff]
    calc (buf.take en).length ≤ en := by simp
    _ ≤ off := le_of_lt h

theorem sliceL_append_left {pre : List Nat} (l : List Nat) {off en : Nat}
    (h : en ≤ pre.length) : sliceL (pre ++ l) off en = sliceL pre off en := by
  rw [sliceL_eq_drop_take, sliceL_eq_drop_take, List.take_append_of_le_length h]

theorem getD_append_left {pre : List Nat} (l : List Nat) {i : Nat}
    (h : i < pre.length) : (pre ++ l).getD i 0 = pre.getD i 0 := by
  simp only [List.getD, List.get?_eq_getElem?]
  rw [List.getElem?_append_left h]

/-! ## Reserved flag bits -/

theorem testBit_f8 (i : Nat) :
    (0xF8 : Nat).testBit i = (decide (3 ≤ i) && decide (i < 8)) := by
  rcases lt_or_ge i 8 with h | h
  · interval_cases i <;> decide
  · have hlt : (0xF8 : Nat) < 2 ^ i :=
      lt_of_lt_of_le (by norm_num) (Nat.pow_le_pow_right (by norm_num) h)
    rw [Nat.testBit_lt_two_pow hlt]
    have : ¬ i < 8 := by omega
    simp [this]

/-- `flags & 0xF8 != 0` says exactly that one of flag bits 3–7 is set. -/
theorem and_f8_ne_zero (a : Nat) :
    a &&& 0xF8 ≠ 0 ↔ ∃ i, 3 ≤ i ∧ i < 8 ∧ a.testBit i := by
  constructor
  · intro hne
    by_contra hno
    push_neg at hno
    apply hne
    apply Nat.eq_of_testBit_eq
    intro i
    rw [Nat.testBit_and, testBit_f8, Nat.zero_testBit]
    rcases lt_or_ge i 3 with h3 | h3
    · simp [Nat.not_le.mpr h3]
    · rcases lt_or_ge i 8 with h8 | h8
      · have := hno i h3 h8
        simp [this]
      · simp [Nat.not_lt.mpr h8]
  · rintro ⟨i, h3, h8, hb⟩ h0
    have := congrArg (fun n => n.testBit i) h0
    simp only [Nat.testBit_and, testBit_f8, Nat.zero_testBit] at this
    rw [hb] at this
    simp [h3, h8] at this

/-! ## Claim C4 — header validation order and error mapping -/

/-- C4: `FrameHeader::validate` checks, in order: magic (`InvalidMagic`),
version (`UnsupportedVersion`), reserved flag bits 3–7 (`FlagConflict`),
and the total size bound `18 ≤ 16 + len + 4 ≤ 16 MiB` (`Overflow`,
which in `Nat` cannot arise from the addition itself); and
`FrameHeader::decode` fails `UnexpectedEof` on fewer than 16 bytes and
only returns headers that pass `validate`. -/
theorem claim_C4_header_validation :
    (∀ h : FrameHeader,
      (h.magic ≠ FRAME_MAGIC → h.validate = .error .invalidMagic) ∧
      (h.magic = FRAME_MAGIC → h.ver ≠ 1 → h.validate = .error .unsupportedVersion) ∧
      (h.magic = FRAME_MAGIC → h.ver = 1 →
        (∃ i, 3 ≤ i ∧ i < 8 ∧ h.flags.testBit i) → h.validate = .error .flagConflict) ∧
      (h.magic = FRAME_MAGIC → h.ver = 1 →
        (∀ i, 3 ≤ i → i < 8 → h.flags.testBit i = false) →
        ((16 + h.len + 4 < 18 ∨ 16 + h.len + 4 > 16 * 1024 * 1024) →
          h.validate = .error .overflow) ∧
        (18 ≤ 16 + h.len + 4 → 16 + h.len + 4 ≤ 16 * 1024 * 1024 →
          h.validate = .ok ()))) ∧
    (∀ buf : List Nat, buf.length < 16 → FrameHeader.decode buf = .error .unexpectedEof) ∧
    (∀ (buf : List Nat) (h : FrameHeader), FrameHeader.decode buf = .ok h →
      h.validate = .ok ()) := by
  refine ⟨fun h => ⟨?_, ?_, ?_, ?_⟩, ?_, ?_⟩
  · intro hm
    simp [FrameHeader.validate, hm]
  · intro hm hv
    simp [FrameHeader.validate, hm, hv]
  · intro hm hv hf
    have hne : h.flags &&& 0xF8 ≠ 0 := (and_f8_ne_zero h.flags).mpr hf
    simp [FrameHeader.validate, hm, hv, hne]
  · intro hm hv hf
    have hz : ¬ h.flags &&& 0xF8 ≠ 0 := by
      intro hne
      obtain ⟨i, h3, h8, hb⟩ := (and_f8_ne_zero h.flags).mp hne
      rw [hf i h3 h8] at hb
      exact Bool.false_ne_true hb
    constructor
    · intro hrange
      have : h.len + FrameHeader.SIZE + 4 < MIN_FRAME_SIZE ∨
          h.len + FrameHeader.SIZE + 4 > MAX_FRAME_SIZE := by
        unfold MIN_FRAME_SIZE MAX_FRAME_SIZE FrameHeader.SIZE
        omega
      simp [FrameHeader.validate, hm, hv, hz, this]
    · intro h1 h2
      have : ¬ (h.len + FrameHeader.SIZE + 4 < MIN_FRAME_SIZE ∨
          h.len + FrameHeader.SIZE + 4 > MAX_FRAME_SIZE) := by
        unfold MIN_FRAME_SIZE MAX_FRAME_SIZE FrameHeader.SIZE
        omega
      simp only [FrameHeader.validate, hm, hv, hz]
      simp [this, hz]
  · intro buf hlen
    have hlt : buf.length < FrameHeader.SIZE := hlen
    simp [FrameHeader.decode, hlt]
  · intro buf h hdec
    unfold FrameHeader.decode at hdec
    split at hdec
    · exact absurd hdec (by simp)
    · dsimp only at hdec
      split at hdec
      · exact absurd hdec (by simp)
      · rename_i h0 u hval
        cases hdec
        cases u
        exact hval

/-- C4 witness: the default header validates, and a short buffer fails. -/
theorem claim_C4_witness :
    FrameHeader.validate ⟨0xFEED, 1, 0, 7, 5, 3⟩ = .ok () ∧
    FrameHeader.decode [1, 2, 3] = .error .unexpectedEof := by
  constructor
  · exact ((claim_C4_header_validation.1 ⟨0xFEED, 1, 0, 7, 5, 3⟩).2.2.2 rfl rfl
      (by decide)).2 (by norm_num) (by norm_num)
  · exact claim_C4_header_validation.2.1 [1, 2, 3] (by norm_num)

/-! ## Claim C8 — reserved header bytes -/

/-- C8 counterexample: a 16-byte buffer with nonzero reserved bytes
`14..16` still decodes successfully — `FrameHeader::decode` does not
enforce the "must be 0" rule on the reserved bytes (it skips them). -/
theorem claim_C8_counterexample :
    FrameHeader.decode [0xED, 0xFE, 1, 0, 0, 0, 0, 0, 0, 0, 0, 0, 0, 0, 0xAB, 0xCD] =
      .ok ⟨0xFEED, 1, 0, 0, 0, 0⟩ := by
  decide

/-- C8 (amended): `FrameHeader::encode` always writes zero to bytes
`14..16`, but `FrameHeader::decode` ignores the reserved bytes entirely:
its result does not depend on bytes `14` and onwards. -/
theorem claim_C8_reserved_bytes :
    (∀ (h : FrameHeader) (buf out : List Nat), FrameHeader.encode h buf = .ok out →
      sliceL out 14 16 = [0, 0]) ∧
    (∀ (pre tail tail2 : List Nat) (a b a2 b2 : Nat), pre.length = 14 →
      FrameHeader.decode (pre ++ a :: b :: tail) =
        FrameHeader.decode (pre ++ a2 :: b2 :: tail2)) := by
  constructor
  · intro h buf out henc
    unfold FrameHeader.encode at henc
    split at henc
    · exact absurd henc (by simp)
    · cases henc
      show sliceL (FrameHeader.headerBytes h ++ buf.drop FrameHeader.SIZE) 14 16 = [0, 0]
      have h16 : (FrameHeader.headerBytes h).length = 16 := by
        simp [FrameHeader.headerBytes]
      rw [sliceL_append_left _ (by rw [h16])]
      unfold sliceL FrameHeader.headerBytes
      simp [leBytes]
  · intro pre tail tail2 a b a2 b2 hpre
    have hlen : ∀ (x y : Nat) (t : List Nat),
        ¬ ((pre ++ x :: y :: t).length < FrameHeader.SIZE) := by
      intro x y t
      simp only [List.length_append, List.length_cons, hpre]
      unfold FrameHeader.SIZE
      omega
    have hslice : ∀ (x y : Nat) (t : List Nat) (off en : Nat), en ≤ 14 →
        sliceL (pre ++ x :: y :: t) off en = sliceL pre off en := by
      intro x y t off en hen
      exact sliceL_append_left _ (by rw [hpre]; exact hen)
    have hgetD : ∀ (x y : Nat) (t : List Nat) (i : Nat), i < 14 →
        (pre ++ x :: y :: t).getD i 0 = pre.getD i 0 := by
      intro x y t i hi
      exact getD_append_left _ (by rw [hpre]; exact hi)
    unfold FrameHeader.decode
    rw [if_neg (hlen a b tail), if_neg (hlen a2 b2 tail2)]
    rw [hslice a b tail 0 2 (by norm_num), hslice a2 b2 tail2 0 2 (by norm_num),
        hslice a b tail 4 6 (by norm_num), hslice a2 b2 tail2 4 6 (by norm_num),
        hslice a b tail 6 10 (by norm_num), hslice a2 b2 tail2 6 10 (by norm_num),
        hslice a b tail 10 14 (by norm_num), hslice a2 b2 tail2 10 14 (by norm_num),
        hgetD a b tail 2 (by norm_num), hgetD a2 b2 tail2 2 (by norm_num),
        hgetD a b tail 3 (by norm_num), hgetD a2 b2 tail2 3 (by norm_num)]

/-- C8 witness: the amended theorem applied at a concrete header, buffer
and reserved-byte contents. -/
theorem claim_C8_witness :
    sliceL (FrameHeader.headerBytes ⟨0xFEED, 1, 0, 1, 2, 3⟩ ++ [9, 9]) 14 16 = [0, 0] ∧
    FrameHeader.decode ([237, 254, 1, 0, 0, 0, 0, 0, 0, 0, 0, 0, 0, 0] ++ 7 :: 8 :: []) =
      FrameHeader.decode ([237, 254, 1, 0, 0, 0, 0, 0, 0, 0, 0, 0, 0, 0] ++ 0 :: 0 :: []) := by
  constructor
  · apply claim_C8_reserved_bytes.1 ⟨0xFEED, 1, 0, 1, 2, 3⟩ (List.replicate 16 7 ++ [9, 9])
    decide
  · exact claim_C8_reserved_bytes.2 [237, 254, 1, 0, 0, 0, 0, 0, 0, 0, 0, 0, 0, 0]
      [] [] 7 8 0 0 (by decide)

/-! ## Claim C9 — encoder `begin` and prior position -/

/-- C9 counterexample: `begin` does not discard the prior position.
After one `begin` (position 16), a second `begin` writes the new header
at bytes `16..32` and leaves the write position at 32 — whereas
`reset` followed by `begin` writes at bytes `0..16` and leaves the
position at 16.  So `begin` alone is not equivalent to `reset` followed
by `begin`, and after it the header need not occupy bytes `0..16`. -/
theorem claim_C9_counterexample :
    (MRes.bind (FrameEncoder.begin (FrameEncoder.new (List.replicate 32 0))
        (FrameHeader.new 1 1 0)) fun st =>
      FrameEncoder.begin st (FrameHeader.new 2 2 0)) =
      .ok { buf := [237, 254, 1, 0, 1, 0, 1, 0, 0, 0, 0, 0, 0, 0, 0, 0,
                    237, 254, 1, 0, 2, 0, 2, 0, 0, 0, 0, 0, 0, 0, 0, 0],
            pos := 32, header_start := 16, body_start := 32 } ∧
    (MRes.bind (FrameEncoder.begin (FrameEncoder.new (List.replicate 32 0))
        (FrameHeader.new 1 1 0)) fun st =>
      FrameEncoder.begin (FrameEncoder.reset st) (FrameHeader.new 2 2 0)) =
      .ok { buf := [237, 254, 1, 0, 2, 0, 2, 0, 0, 0, 0, 0, 0, 0, 0, 0,
                    0, 0, 0, 0, 0, 0, 0, 0, 0, 0, 0, 0, 0, 0, 0, 0],
            pos := 16, header_start := 0, body_start := 16 } := by
  constructor
  · decide
  · decide

/-- C9 (amended): `begin` starts a frame at the *current* write
position: it writes the header at bytes `pos..pos+16` and moves the
position to `pos + 16` (it does not reset to the start of the buffer);
on a buffer that cannot hold the 16-byte header it fails
`ShortBuffer`. -/
theorem claim_C9_begin :
    (∀ (st : FrameEncoder) (h : FrameHeader), st.buf.length < 16 →
      st.begin h = .err .shortBuffer) ∧
    (∀ (st : FrameEncoder) (h : FrameHeader), st.pos + 16 ≤ st.buf.length →
      st.begin h = .ok { buf := writeAt st.buf st.pos h.headerBytes,
                         pos := st.pos + 16, header_start := st.pos,
                         body_start := st.pos + 16 }) := by
  constructor
  · intro st h hlen
    have : st.buf.length < FrameHeader.SIZE := hlen
    simp [FrameEncoder.begin, this]
  · intro st h hfit
    simp only [FrameEncoder.begin, FrameHeader.SIZE]
    rw [if_neg (show ¬ st.buf.length < 16 by omega),
        if_neg (show ¬ st.pos + 16 > st.buf.length by omega)]

/-- C9 witness: the amended theorem applied to a fresh encoder over a
20-byte buffer and to a 10-byte buffer. -/
theorem claim_C9_witness :
    FrameEncoder.begin (FrameEncoder.new (List.replicate 10 0)) (FrameHeader.new 1 1 0) =
      .err .shortBuffer ∧
    FrameEncoder.begin (FrameEncoder.new (List.replicate 20 0)) (FrameHeader.new 1 1 0) =
      .ok { buf := writeAt (List.replicate 20 0) 0 (FrameHeader.new 1 1 0).headerBytes,
            pos := 16, header_start := 0, body_start := 16 } := by
  constructor
  · exact claim_C9_begin.1 (FrameEncoder.new (List.replicate 10 0)) (FrameHeader.new 1 1 0)
      (by decide)
  · exact claim_C9_begin.2 (FrameEncoder.new (List.replicate 20 0)) (FrameHeader.new 1 1 0)
      (by decide)

/-! ## Claim C7 — varint decode rejection -/

/-- If every byte carries the continuation bit and the shift bound is
never reached, the decode loop runs off the end of the buffer. -/
theorem varint_loop_eof (width : Nat) (buf : List Nat) :
    ∀ (r s p : Nat), (∀ b ∈ buf, b &&& 0x80 ≠ 0) →
    (buf = [] ∨ s + 7 * (buf.length - 1) < width) →
    varintDecodeLoop width buf r s p = .error .unexpectedEof := by
  induction buf with
  | nil => intro r s p _ _; rfl
  | cons b rest ih =>
      intro r s p hcont hbound
      have hs : ¬ s ≥ width := by
        rcases hbound with h | h
        · exact absurd h (by simp)
        · simp only [List.length_cons] at h
          omega
      have hb : ¬ b &&& 0x80 = 0 := hcont b (List.mem_cons_self b rest)
      simp only [varintDecodeLoop, if_neg hs, if_neg hb]
      apply ih
      · intro x hx
        exact hcont x (List.mem_cons_of_mem b hx)
      · rcases rest with _ | ⟨c, rest2⟩
        · exact Or.inl rfl
        · right
          rcases hbound with h | h
          · exact absurd h (by simp)
          · simp only [List.length_cons] at h ⊢
            omega

/-- Once the accumulated shift reaches the target width, the next
iteration on a nonempty buffer fails `Overflow`. -/
theorem varint_loop_overflow_now (width b : Nat) (rest : List Nat) (r s p : Nat)
    (hs : s ≥ width) : varintDecodeLoop width (b :: rest) r s p = .error .overflow := by
  simp [varintDecodeLoop, hs]

/-- Running the decode loop over `n` continuation bytes (with the shift
bound never reached) advances the position and shift accordingly. -/
theorem varint_loop_steps (width : Nat) (n : Nat) :
    ∀ (buf : List Nat) (r s p : Nat), n ≤ buf.length →
    (∀ i, i < n → buf.getD i 0 &&& 0x80 ≠ 0) →
    (∀ i, i < n → s + 7 * i < width) →
    ∃ r2, varintDecodeLoop width buf r s p =
      varintDecodeLoop width (buf.drop n) r2 (s + 7 * n) (p + n) := by
  induction n with
  | zero =>
      intro buf r s p _ _ _
      exact ⟨r, by simp⟩
  | succ n ih =>
      intro buf r s p hlen hcont hshift
      obtain ⟨r2, h2⟩ := ih buf r s p (by omega) (fun i hi => hcont i (by omega))
        (fun i hi => hshift i (by omega))
      have hn : n < buf.length := by omega
      have hdrop : buf.drop n = buf[n] :: buf.drop (n + 1) := List.drop_eq_getElem_cons hn
      have hgetD : buf.getD n 0 = buf[n] := List.getD_eq_getElem buf 0 hn
      have hs : ¬ s + 7 * n ≥ width := by
        have := hshift n (by omega)
        omega
      have hb : ¬ buf[n] &&& 0x80 = 0 := by
        rw [← hgetD]
        exact hcont n (by omega)
      refine ⟨r2 ||| (buf[n] &&& 0x7F) <<< (s + 7 * n) % 2 ^ width, ?_⟩
      rw [h2, hdrop]
      simp only [varintDecodeLoop, if_neg hs, if_neg hb]
      have e1 : s + 7 * n + 7 = s + 7 * (n + 1) := by ring
      have e2 : p + n + 1 = p + (n + 1) := by ring
      rw [e1, e2]

/-- C7: the varint decoders reject, with `Overflow`, any varint whose
continuation bytes push the accumulated shift to the target width
(5 continuation bytes for `u32`, 10 for `u64`, with a byte still to
read), and reject with `UnexpectedEof` any buffer that ends while every
consumed byte still has the continuation bit set.  In particular every
well-formed varint of more than 5 (resp. 10) bytes — first 5 (resp. 10)
bytes with the continuation bit — is rejected with `Overflow`. -/
theorem claim_C7_varint_rejection :
    (∀ buf : List Nat, 6 ≤ buf.length → (∀ i, i < 5 → buf.getD i 0 &&& 0x80 ≠ 0) →
      varintDecodeU32 buf = .error .overflow) ∧
    (∀ buf : List Nat, buf.length ≤ 5 → (∀ b ∈ buf, b &&& 0x80 ≠ 0) →
      varintDecodeU32 buf = .error .unexpectedEof) ∧
    (∀ buf : List Nat, 11 ≤ buf.length → (∀ i, i < 10 → buf.getD i 0 &&& 0x80 ≠ 0) →
      varintDecodeU64 buf = .error .overflow) ∧
    (∀ buf : List Nat, buf.length ≤ 10 → (∀ b ∈ buf, b &&& 0x80 ≠ 0) →
      varintDecodeU64 buf = .error .unexpectedEof) := by
  refine ⟨?_, ?_, ?_, ?_⟩
  · intro buf hlen hcont
    obtain ⟨r2, h2⟩ := varint_loop_steps 32 5 buf 0 0 0 (by omega) hcont
      (fun i hi => by omega)
    unfold varintDecodeU32
    rw [h2]
    have h5 : 5 < buf.length := by omega
    rw [List.drop_eq_getElem_cons h5]
    exact varint_loop_overflow_now 32 _ _ _ _ _ (by omega)
  · intro buf hlen hcont
    unfold varintDecodeU32
    apply varint_loop_eof 32 buf 0 0 0 hcont
    rcases buf with _ | ⟨b, rest⟩
    · exact Or.inl rfl
    · right
      simp only [List.length_cons] at hlen ⊢
      omega
  · intro buf hlen hcont
    obtain ⟨r2, h2⟩ := varint_loop_steps 64 10 buf 0 0 0 (by omega) hcont
      (fun i hi => by omega)
    unfold varintDecodeU64
    rw [h2]
    have h10 : 10 < buf.length := by omega
    rw [List.drop_eq_getElem_cons h10]
    exact varint_loop_overflow_now 64 _ _ _ _ _ (by omega)
  · intro buf hlen hcont
    unfold varintDecodeU64
    apply varint_loop_eof 64 buf 0 0 0 hcont
    rcases buf with _ | ⟨b, rest⟩
    · exact Or.inl rfl
    · right
      simp only [List.length_cons] at hlen ⊢
      omega

/-- C7 witness: a 6-byte over-long varint overflows, a truncated varint
reports end of input, for both widths. -/
theorem claim_C7_witness :
    varintDecodeU32 [0x80, 0x80, 0x80, 0x80, 0x80, 0x01] = .error .overflow ∧
    varintDecodeU32 [0x80, 0x80] = .error .unexpectedEof ∧
    varintDecodeU64 [0x80, 0x80, 0x80, 0x80, 0x80, 0x80, 0x80, 0x80, 0x80, 0x80, 0x01] =
      .error .overflow ∧
    varintDecodeU64 [0x80] = .error .unexpectedEof := by
  refine ⟨?_, ?_, ?_, ?_⟩
  · exact claim_C7_varint_rejection.1 [0x80, 0x80, 0x80, 0x80, 0x80, 0x01]
      (by norm_num) (by decide)
  · exact claim_C7_varint_rejection.2.1 [0x80, 0x80] (by norm_num) (by decide)
  · exact claim_C7_varint_rejection.2.2.1
      [0x80, 0x80, 0x80, 0x80, 0x80, 0x80, 0x80, 0x80, 0x80, 0x80, 0x01]
      (by norm_num) (by decide)
  · exact claim_C7_varint_rejection.2.2.2 [0x80] (by norm_num) (by decide)

/-! ## Claim C2 — verify_crc32c tie-break -/

theorem sliceP_ok {buf : List Nat} {off en : Nat} (h1 : off ≤ en)
    (h2 : en ≤ buf.length) : sliceP buf off en = .ok (sliceL buf off en) := by
  simp [sliceP, h1, h2]

/-- Closed form of the shared tail of `verify_crc32c` when the buffer
covers the tentative total size. -/
theorem verifyWithTotal_eq (buf : List Nat) (hres : Except Err FrameHeader)
    (total : Nat) (h4 : 4 ≤ total) (hlen : total ≤ buf.length) :
    FrameDecoder.verifyWithTotal buf hres total =
      if crc32c (sliceL buf 0 (total - 4)) = leVal (sliceL buf (total - 4) total) then
        (match hres with
         | .ok _ => .ok ()
         | .error e => .err e)
      else .err .crcMismatch := by
  unfold FrameDecoder.verifyWithTotal
  rw [if_neg (by omega)]
  rw [sliceP_ok (by omega) (by omega), MRes.bind_ok,
      sliceP_ok (by omega) (by omega), MRes.bind_ok]
  by_cases hc : crc32c (sliceL buf 0 (total - 4)) = leVal (sliceL buf (total - 4) total)
  · rw [if_pos hc]
    have : crc32cVerify (sliceL buf 0 (total - 4)) (leVal (sliceL buf (total - 4) total)) =
        true := by
      simpa [crc32cVerify] using hc
    simp only [this]
    cases hres <;> rfl
  · rw [if_neg hc]
    have : crc32cVerify (sliceL buf 0 (total - 4)) (leVal (sliceL buf (total - 4) total)) =
        false := by
      simpa [crc32cVerify] using hc
    simp [this]

/-- C2: the `verify_crc32c` tie-break.  With a valid header, the total
size comes from the header; the CRC over the first `total - 4` bytes is
compared to the little-endian trailer, `CrcMismatch` on any difference
(even though the header was valid), `Ok` on a match.  With an invalid
header, the raw `len` field at bytes `10..14` supplies the tentative
total `16 + len + 4`; if that exceeds `MAX_FRAME_SIZE` the original
header error is returned at once, otherwise the same CRC comparison
runs, yielding `CrcMismatch` on a difference and the *original header
error* on a match. -/
theorem claim_C2_verify_tiebreak : ∀ buf : List Nat,
    (∀ h : FrameHeader, FrameHeader.decode buf = .ok h →
      (buf.length < h.total_size →
        FrameDecoder.verify_crc32c buf = .err .unexpectedEof) ∧
      (h.total_size ≤ buf.length →
        (crc32c (sliceL buf 0 (h.total_size - 4)) =
            leVal (sliceL buf (h.total_size - 4) h.total_size) →
          FrameDecoder.verify_crc32c buf = .ok ()) ∧
        (crc32c (sliceL buf 0 (h.total_size - 4)) ≠
            leVal (sliceL buf (h.total_size - 4) h.total_size) →
          FrameDecoder.verify_crc32c buf = .err .crcMismatch))) ∧
    (∀ e : Err, FrameHeader.decode buf = .error e → 16 ≤ buf.length →
      (16 + leVal (sliceL buf 10 14) + 4 > MAX_FRAME_SIZE →
        FrameDecoder.verify_crc32c buf = .err e) ∧
      (16 + leVal (sliceL buf 10 14) + 4 ≤ MAX_FRAME_SIZE →
        16 + leVal (sliceL buf 10 14) + 4 ≤ buf.length →
        (crc32c (sliceL buf 0 (16 + leVal (sliceL buf 10 14))) =
            leVal (sliceL buf (16 + leVal (sliceL buf 10 14))
              (16 + leVal (sliceL buf 10 14) + 4)) →
          FrameDecoder.verify_crc32c buf = .err e) ∧
        (crc32c (sliceL buf 0 (16 + leVal (sliceL buf 10 14))) ≠
            leVal (sliceL buf (16 + leVal (sliceL buf 10 14))
              (16 + leVal (sliceL buf 10 14) + 4)) →
          FrameDecoder.verify_crc32c buf = .err .crcMismatch))) := by
  intro buf
  constructor
  · intro h hdec
    have hver : FrameDecoder.verify_crc32c buf =
        FrameDecoder.verifyWithTotal buf (.ok h) h.total_size := by
      unfold FrameDecoder.verify_crc32c
      rw [hdec]
    have h20 : h.total_size = 16 + h.len + 4 := by
      unfold FrameHeader.total_size FrameHeader.SIZE
      omega
    constructor
    · intro hshort
      rw [hver]
      unfold FrameDecoder.verifyWithTotal
      rw [if_pos hshort]
    · intro hfit
      constructor
      · intro hc
        rw [hver, verifyWithTotal_eq buf _ _ (by omega) hfit, if_pos hc]
      · intro hc
        rw [hver, verifyWithTotal_eq buf _ _ (by omega) hfit, if_neg hc]
  · intro e hdec h16
    have hver : FrameDecoder.verify_crc32c buf =
        (if leVal (sliceL buf 10 14) > MAX_FRAME_SIZE - FrameHeader.SIZE - 4 then
          .err e
        else
          FrameDecoder.verifyWithTotal buf (.error e)
            (FrameHeader.SIZE + leVal (sliceL buf 10 14) + 4)) := by
      unfold FrameDecoder.verify_crc32c
      rw [hdec]
      dsimp only
      rw [if_neg (show ¬ buf.length < FrameHeader.SIZE from by
        unfold FrameHeader.SIZE; omega)]
      rw [sliceP_ok (by omega) (show 14 ≤ buf.length by omega), MRes.bind_ok]
    have hmax : MAX_FRAME_SIZE = 16777216 := by norm_num [MAX_FRAME_SIZE]
    constructor
    · intro hbig
      rw [hver, if_pos]
      unfold MAX_FRAME_SIZE FrameHeader.SIZE
      rw [hmax] at hbig
      omega
    · intro hsmall hfit
      have hcond : ¬ leVal (sliceL buf 10 14) > MAX_FRAME_SIZE - FrameHeader.SIZE - 4 := by
        unfold MAX_FRAME_SIZE FrameHeader.SIZE
        rw [hmax] at hsmall
        omega
      have hsz : FrameHeader.SIZE + leVal (sliceL buf 10 14) + 4 =
          16 + leVal (sliceL buf 10 14) + 4 := by
        unfold FrameHeader.SIZE
        omega
      constructor
      · intro hc
        rw [hver, if_neg hcond, hsz,
            verifyWithTotal_eq buf _ _ (by omega) hfit]
        rw [if_pos (by simpa using hc)]
      · intro hc
        rw [hver, if_neg hcond, hsz,
            verifyWithTotal_eq buf _ _ (by omega) hfit]
        rw [if_neg (by simpa using hc)]

/-- C2 witness: both paths at concrete buffers — a valid empty-body
frame (CRC match gives `Ok`), and the same frame with its magic
corrupted (CRC over unchanged bytes no longer matches the trailer
recomputed over the corrupted ones, so the branch outcomes are exercised
with concrete numbers). -/
theorem claim_C2_witness :
    FrameDecoder.verify_crc32c
      [237, 254, 1, 0, 1, 0, 0, 0, 0, 0, 0, 0, 0, 0, 0, 0, 232, 70, 248, 41] = .ok () ∧
    FrameDecoder.verify_crc32c
      [0, 254, 1, 0, 1, 0, 0, 0, 0, 0, 0, 0, 0, 0, 0, 0, 232, 70, 248, 41] =
      .err .crcMismatch := by
  constructor
  · exact (((claim_C2_verify_tiebreak _).1 ⟨0xFEED, 1, 0, 1, 0, 0⟩ (by decide)).2
      (by decide)).1 (by decide)
  · exact ((((claim_C2_verify_tiebreak _).2 Err.invalidMagic (by decide) (by decide)).2
      (by decide) (by decide)).2 (by decide))

/-! ## Claim C3 — totality on adversarial input

Every decode-path operation is guarded: on any buffer it returns `ok`
or `err`, never the `panic` outcome that models an out-of-bounds
access.  The body-cursor shape lemmas additionally show that every
successful read preserves `pos ≤ buf.length`, the invariant under which
the next read is again panic-free. -/

theorem byteP_ok {buf : List Nat} {i : Nat} (h : i < buf.length) :
    byteP buf i = .ok buf[i] := by
  simp [byteP, List.get?_eq_getElem?, List.getElem?_eq_getElem h]

theorem get_u8_shape (c : BodyCursor) (_hc : c.pos ≤ c.buf.length) :
    (∃ v c2, c.get_u8 = .ok (v, c2) ∧ c2.buf = c.buf ∧ c2.pos ≤ c2.buf.length) ∨
    (∃ e, c.get_u8 = .err e) := by
  by_cases hp : c.pos ≥ c.buf.length
  · right
    exact ⟨.unexpectedEof, by simp [BodyCursor.get_u8, hp]⟩
  · left
    have hlt : c.pos < c.buf.length := by omega
    refine ⟨c.buf[c.pos], { c with pos := c.pos + 1 }, ?_, rfl, by simp; omega⟩
    simp [BodyCursor.get_u8, hp, byteP_ok hlt]

theorem getLE_shape (c : BodyCursor) (w : Nat) :
    (∃ v c2, c.getLE w = .ok (v, c2) ∧ c2.buf = c.buf ∧ c2.pos ≤ c2.buf.length) ∨
    (∃ e, c.getLE w = .err e) := by
  by_cases hp : c.pos + w > c.buf.length
  · right
    exact ⟨.unexpectedEof, by simp [BodyCursor.getLE, hp]⟩
  · left
    refine ⟨leVal (sliceL c.buf c.pos (c.pos + w)), { c with pos := c.pos + w },
      ?_, rfl, by simp; omega⟩
    unfold BodyCursor.getLE
    rw [if_neg hp, sliceP_ok (show c.pos ≤ c.pos + w by omega)
      (show c.pos + w ≤ c.buf.length by omega), MRes.bind_ok]

theorem get_varbytes_shape (c : BodyCursor) (hc : c.pos ≤ c.buf.length) :
    (∃ v c2, c.get_varbytes = .ok (v, c2) ∧ c2.buf = c.buf ∧ c2.pos ≤ c2.buf.length) ∨
    (∃ e, c.get_varbytes = .err e) := by
  unfold BodyCursor.get_varbytes
  rw [sliceP_ok hc (le_refl _), MRes.bind_ok]
  cases hv : varintDecodeU32 (sliceL c.buf c.pos c.buf.length) with
  | error e =>
      right
      exact ⟨e, by simp⟩
  | ok lv =>
      rw [MRes.ofExcept_ok, MRes.bind_ok]
      by_cases hfit : c.pos + lv.2 + lv.1 > c.buf.length
      · right
        exact ⟨.unexpectedEof, by simp [hfit]⟩
      · left
        refine ⟨sliceL c.buf (c.pos + lv.2) (c.pos + lv.2 + lv.1),
          { c with pos := c.pos + lv.2 + lv.1 }, ?_, rfl, by simp; omega⟩
        simp only [if_neg hfit]
        rw [sliceP_ok (by omega) (by omega), MRes.bind_ok]

theorem get_bytes_shape (c : BodyCursor) (n : Nat) :
    (∃ v c2, c.get_bytes n = .ok (v, c2) ∧ c2.buf = c.buf ∧ c2.pos ≤ c2.buf.length) ∨
    (∃ e, c.get_bytes n = .err e) := by
  by_cases hp : c.pos + n > c.buf.length
  · right
    exact ⟨.unexpectedEof, by simp [BodyCursor.get_bytes, hp]⟩
  · left
    refine ⟨sliceL c.buf c.pos (c.pos + n), { c with pos := c.pos + n }, ?_, rfl,
      by simp; omega⟩
    unfold BodyCursor.get_bytes
    rw [if_neg hp, sliceP_ok (show c.pos ≤ c.pos + n by omega)
      (show c.pos + n ≤ c.buf.length by omega), MRes.bind_ok]

theorem verifyWithTotal_total (buf : List Nat) (hres : Except Err FrameHeader)
    (total : Nat) : FrameDecoder.verifyWithTotal buf hres total ≠ .panic := by
  unfold FrameDecoder.verifyWithTotal
  by_cases hl : buf.length < total
  · simp [hl]
  · rw [if_neg hl, sliceP_ok (by omega) (by omega), MRes.bind_ok,
        sliceP_ok (by omega) (by omega), MRes.bind_ok]
    split
    · simp
    · cases hres <;> simp

theorem header_total (buf : List Nat) : FrameDecoder.header buf ≠ .panic := by
  unfold FrameDecoder.header
  cases FrameHeader.decode buf <;> simp

theorem verify_crc32c_total (buf : List Nat) :
    FrameDecoder.verify_crc32c buf ≠ .panic := by
  unfold FrameDecoder.verify_crc32c
  cases hd : FrameHeader.decode buf with
  | ok h => exact verifyWithTotal_total buf _ _
  | error e =>
      dsimp only
      by_cases h16 : buf.length < FrameHeader.SIZE
      · simp [h16]
      · rw [if_neg h16, sliceP_ok (by omega) (show 14 ≤ buf.length from by
          unfold FrameHeader.SIZE at h16; omega), MRes.bind_ok]
        split
        · simp
        · exact verifyWithTotal_total buf _ _

theorem body_shape (buf : List Nat) :
    (∃ c : BodyCursor, FrameDecoder.body buf = .ok c ∧ c.pos = 0) ∨
    (∃ e, FrameDecoder.body buf = .err e) := by
  unfold FrameDecoder.body FrameDecoder.header
  cases hd : FrameHeader.decode buf with
  | error e => exact Or.inr ⟨e, by simp⟩
  | ok h =>
      rw [MRes.ofExcept_ok, MRes.bind_ok]
      by_cases hl : buf.length < FrameHeader.SIZE + h.len
      · exact Or.inr ⟨.unexpectedEof, by simp [hl]⟩
      · left
        refine ⟨BodyCursor.mk (sliceL buf FrameHeader.SIZE (FrameHeader.SIZE + h.len)) 0,
          ?_, rfl⟩
        rw [if_neg hl, sliceP_ok (show FrameHeader.SIZE ≤ FrameHeader.SIZE + h.len by omega)
          (show FrameHeader.SIZE + h.len ≤ buf.length by omega), MRes.bind_ok]

/-- C3: on every input buffer, the schema decoders, the frame-decoder
operations, and (under the cursor invariant `pos ≤ buf.length`, which
`FrameDecoder::body` establishes and every read preserves) every
body-cursor read operation return `ok` or an error value — none of them
reaches the `panic` outcome that models an out-of-bounds access. -/
theorem claim_C3_totality :
    (∀ buf : List Nat, trade.decode buf ≠ .panic) ∧
    (∀ buf : List Nat, quote.decode buf ≠ .panic) ∧
    (∀ buf : List Nat, FrameDecoder.header buf ≠ .panic) ∧
    (∀ buf : List Nat, FrameDecoder.verify_crc32c buf ≠ .panic) ∧
    (∀ buf : List Nat, FrameDecoder.body buf ≠ .panic) ∧
    (∀ c : BodyCursor, c.pos ≤ c.buf.length →
      c.get_u8 ≠ .panic ∧ c.get_u16 ≠ .panic ∧ c.get_u32 ≠ .panic ∧
      c.get_u64 ≠ .panic ∧ c.get_i32 ≠ .panic ∧ c.get_i64 ≠ .panic ∧
      c.get_bitmap ≠ .panic ∧ c.get_varbytes ≠ .panic ∧
      (∀ n, c.get_bytes n ≠ .panic) ∧ (∀ n, c.skip n ≠ .panic) ∧
      c.get_varint_u32 ≠ .panic ∧ c.get_varint_u64 ≠ .panic ∧
      (∀ n, c.peek_bytes n ≠ .panic)) := by
  have hu8 : ∀ c : BodyCursor, c.pos ≤ c.buf.length →
      (∃ v c2, c.get_u8 = .ok (v, c2) ∧ c2.buf = c.buf ∧ c2.pos ≤ c2.buf.length) ∨
      (∃ e, c.get_u8 = .err e) := get_u8_shape
  have hle : ∀ (c : BodyCursor) (w : Nat),
      (∃ v c2, c.getLE w = .ok (v, c2) ∧ c2.buf = c.buf ∧ c2.pos ≤ c2.buf.length) ∨
      (∃ e, c.getLE w = .err e) := getLE_shape
  have hvb : ∀ c : BodyCursor, c.pos ≤ c.buf.length →
      (∃ v c2, c.get_varbytes = .ok (v, c2) ∧ c2.buf = c.buf ∧ c2.pos ≤ c2.buf.length) ∨
      (∃ e, c.get_varbytes = .err e) := get_varbytes_shape
  have hi64 : ∀ c : BodyCursor,
      (∃ v c2, c.get_i64 = .ok (v, c2) ∧ c2.buf = c.buf ∧ c2.pos ≤ c2.buf.length) ∨
      (∃ e, c.get_i64 = .err e) := by
    intro c
    unfold BodyCursor.get_i64
    rcases hle c 8 with ⟨v, c2, heq, hbuf, hpos⟩ | ⟨e, heq⟩
    · exact Or.inl ⟨BodyCursor.toI64 v, c2, by rw [show c.get_u64 = c.getLE 8 from rfl, heq,
        MRes.bind_ok], hbuf, hpos⟩
    · exact Or.inr ⟨e, by rw [show c.get_u64 = c.getLE 8 from rfl, heq, MRes.bind_err]⟩
  refine ⟨?_, ?_, header_total, verify_crc32c_total, ?_, ?_⟩
  · -- trade.decode
    intro buf
    unfold trade.decode FrameDecoder.header
    cases hd : FrameHeader.decode buf with
    | error e => simp
    | ok h =>
        rw [MRes.ofExcept_ok, MRes.bind_ok]
        by_cases hmt : h.msg_type ≠ TRADE_V1
        · simp [hmt]
        · rw [if_neg hmt]
          cases hv : FrameDecoder.verify_crc32c buf with
          | panic => exact absurd hv (verify_crc32c_total buf)
          | err e => simp
          | ok u =>
              rw [MRes.bind_ok]
              rcases body_shape buf with ⟨c, hb, hp⟩ | ⟨e, hb⟩
              · rw [hb, MRes.bind_ok]
                rcases hle c 8 with ⟨v1, c1, h1, hb1, hp1⟩ | ⟨e, h1⟩
                · rw [show c.get_u64 = c.getLE 8 from rfl, h1, MRes.bind_ok]
                  rcases hi64 c1 with ⟨v2, c2, h2, hb2, hp2⟩ | ⟨e, h2⟩
                  · rw [h2, MRes.bind_ok]
                    rcases hle c2 4 with ⟨v3, c3, h3, hb3, hp3⟩ | ⟨e, h3⟩
                    · rw [show c2.get_u32 = c2.getLE 4 from rfl, h3, MRes.bind_ok]
                      by_cases hfl : h.has_flag 0x01
                      · rw [if_pos hfl]
                        rcases hle c3 2 with ⟨v4, c4, h4, hb4, hp4⟩ | ⟨e, h4⟩
                        · rw [show c3.get_bitmap = c3.getLE 2 from rfl, h4, MRes.bind_ok]
                          have step1 :
                              (∃ s c5, (if v4 &&& 1 <<< trade.SYMBOL ≠ 0 then
                                  MRes.bind c4.get_varbytes fun sc =>
                                    .ok (some sc.1, sc.2)
                                else .ok (none, c4)) = .ok (s, c5) ∧
                                c5.pos ≤ c5.buf.length) ∨
                              (∃ e2, (if v4 &&& 1 <<< trade.SYMBOL ≠ 0 then
                                  MRes.bind c4.get_varbytes fun sc =>
                                    .ok (some sc.1, sc.2)
                                else .ok (none, c4)) = .err e2) := by
                            by_cases hbit : v4 &&& 1 <<< trade.SYMBOL ≠ 0
                            · rcases hvb c4 hp4 with ⟨v5, c5, h5, hb5, hp5⟩ | ⟨e2, h5⟩
                              · exact Or.inl ⟨some v5, c5, by rw [if_pos hbit, h5,
                                  MRes.bind_ok], hp5⟩
                              · exact Or.inr ⟨e2, by rw [if_pos hbit, h5, MRes.bind_err]⟩
                            · exact Or.inl ⟨none, c4, by rw [if_neg hbit], hp4⟩
                          rcases step1 with ⟨s, c5, h5, hp5⟩ | ⟨e2, h5⟩
                          · rw [h5, MRes.bind_ok]
                            by_cases hbit2 : v4 &&& 1 <<< trade.NOTE ≠ 0
                            · rw [if_pos hbit2]
                              rcases hvb c5 hp5 with ⟨v6, c6, h6, hb6, hp6⟩ | ⟨e3, h6⟩
                              · simp [h6]
                              · simp [h6]
                            · simp [if_neg hbit2]
                          · simp [h5]
                        · rw [show c3.get_bitmap = c3.getLE 2 from rfl, h4]
                          simp
                      · simp [if_neg hfl]
                    · rw [show c2.get_u32 = c2.getLE 4 from rfl, h3]
                      simp
                  · simp [h2]
                · rw [show c.get_u64 = c.getLE 8 from rfl, h1]
                  simp
              · simp [hb]
  · -- quote.decode
    intro buf
    unfold quote.decode FrameDecoder.header
    cases hd : FrameHeader.decode buf with
    | error e => simp
    | ok h =>
        rw [MRes.ofExcept_ok, MRes.bind_ok]
        by_cases hmt : h.msg_type ≠ QUOTE_V1
        · simp [hmt]
        · rw [if_neg hmt]
          cases hv : FrameDecoder.verify_crc32c buf with
          | panic => exact absurd hv (verify_crc32c_total buf)
          | err e => simp
          | ok u =>
              rw [MRes.bind_ok]
              rcases body_shape buf with ⟨c, hb, hp⟩ | ⟨e, hb⟩
              · rw [hb, MRes.bind_ok]
                rcases hle c 8 with ⟨v1, c1, h1, hb1, hp1⟩ | ⟨e, h1⟩
                · rw [show c.get_u64 = c.getLE 8 from rfl, h1, MRes.bind_ok]
                  rcases hi64 c1 with ⟨v2, c2, h2, hb2, hp2⟩ | ⟨e, h2⟩
                  · rw [h2, MRes.bind_ok]
                    rcases hi64 c2 with ⟨v3, c3, h3, hb3, hp3⟩ | ⟨e, h3⟩
                    · rw [h3, MRes.bind_ok]
                      rcases hu8 c3 hp3 with ⟨v4, c4, h4, hb4, hp4⟩ | ⟨e, h4⟩
                      · rw [h4, MRes.bind_ok]
                        by_cases hfl : h.has_flag 0x01
                        · rw [if_pos hfl]
                          rcases hle c4 2 with ⟨v5, c5, h5, hb5, hp5⟩ | ⟨e, h5⟩
                          · rw [show c4.get_bitmap = c4.getLE 2 from rfl, h5, MRes.bind_ok]
                            by_cases hbit : v5 &&& 1 <<< quote.SYMBOL ≠ 0
                            · rw [if_pos hbit]
                              rcases hvb c5 hp5 with ⟨v6, c6, h6, hb6, hp6⟩ | ⟨e2, h6⟩
                              · simp [h6]
                              · simp [h6]
                            · simp [if_neg hbit]
                          · rw [show c4.get_bitmap = c4.getLE 2 from rfl, h5]
                            simp
                        · simp [if_neg hfl]
                      · simp [h4]
                    · simp [h3]
                  · simp [h2]
                · rw [show c.get_u64 = c.getLE 8 from rfl, h1]
                  simp
              · simp [hb]
  · -- body
    intro buf
    rcases body_shape buf with ⟨c, hb, _⟩ | ⟨e, hb⟩ <;> simp [hb]
  · -- cursor operations
    intro c hc
    refine ⟨?_, ?_, ?_, ?_, ?_, ?_, ?_, ?_, ?_, ?_, ?_, ?_, ?_⟩
    · rcases hu8 c hc with ⟨v, c2, h, _, _⟩ | ⟨e, h⟩ <;> simp [h]
    · rcases hle c 2 with ⟨v, c2, h, _, _⟩ | ⟨e, h⟩ <;>
        rw [show c.get_u16 = c.getLE 2 from rfl, h] <;> simp
    · rcases hle c 4 with ⟨v, c2, h, _, _⟩ | ⟨e, h⟩ <;>
        rw [show c.get_u32 = c.getLE 4 from rfl, h] <;> simp
    · rcases hle c 8 with ⟨v, c2, h, _, _⟩ | ⟨e, h⟩ <;>
        rw [show c.get_u64 = c.getLE 8 from rfl, h] <;> simp
    · unfold BodyCursor.get_i32
      rcases hle c 4 with ⟨v, c2, h, _, _⟩ | ⟨e, h⟩ <;>
        rw [show c.get_u32 = c.getLE 4 from rfl, h] <;> simp
    · rcases hi64 c with ⟨v, c2, h, _, _⟩ | ⟨e, h⟩ <;> simp [h]
    · rcases hle c 2 with ⟨v, c2, h, _, _⟩ | ⟨e, h⟩ <;>
        rw [show c.get_bitmap = c.getLE 2 from rfl, h] <;> simp
    · rcases hvb c hc with ⟨v, c2, h, _, _⟩ | ⟨e, h⟩ <;> simp [h]
    · intro n
      rcases get_bytes_shape c n with ⟨v, c2, h, _, _⟩ | ⟨e, h⟩ <;> simp [h]
    · intro n
      unfold BodyCursor.skip
      split <;> simp
    · unfold BodyCursor.get_varint_u32
      rw [sliceP_ok hc (le_refl _), MRes.bind_ok]
      cases varintDecodeU32 (sliceL c.buf c.pos c.buf.length) <;> simp
    · unfold BodyCursor.get_varint_u64
      rw [sliceP_ok hc (le_refl _), MRes.bind_ok]
      cases varintDecodeU64 (sliceL c.buf c.pos c.buf.length) <;> simp
    · intro n
      unfold BodyCursor.peek_bytes
      by_cases hp : c.pos + n > c.buf.length
      · simp [hp]
      · rw [if_neg hp, sliceP_ok (by omega) (by omega)]
        simp

/-- C3 witness: the cursor conjunct applied at a concrete in-bounds
cursor, plus a concrete adversarial decode. -/
theorem claim_C3_witness :
    trade.decode [255, 1, 2] ≠ .panic ∧
    BodyCursor.get_u64 ⟨[1, 2, 3], 0⟩ ≠ .panic := by
  constructor
  · exact claim_C3_totality.1 [255, 1, 2]
  · exact (claim_C3_totality.2.2.2.2.2 ⟨[1, 2, 3], 0⟩ (by norm_num)).2.2.2.1

/-! ## Closed forms for encoder runs

The schema encoders write a header at position 0 and then append chunks
sequentially.  The lemmas below compute each operation on a state of the
shape `⟨done ++ rest, done.length, …⟩`: the bytes written so far
followed by the untouched remainder of the caller's buffer. -/

/-- The bytes of a one- or two-byte LEB128 varint (enough for any value
below 256, in particular for the length prefix of a ≤ 255-byte field). -/
def vlBytes (n : Nat) : List Nat :=
  if n < 128 then [n] else [(n % 256) ||| 0x80, n >>> 7]

theorem vl_facts_low : ∀ n, n < 128 → n &&& 0x80 = 0 ∧ n &&& 0x7F = n := by decide

theorem vl_facts_high : ∀ n, n < 256 → 128 ≤ n →
    ((n % 256 ||| 128) &&& 0x80 ≠ 0) ∧ ((n % 256 ||| 128) &&& 0x7F = n - 128) ∧
    n >>> 7 = 1 ∧ (n - 128) ||| 128 = n := by decide

theorem length_vlBytes (n : Nat) : (vlBytes n).length = if n < 128 then 1 else 2 := by
  unfold vlBytes
  split <;> rfl

theorem length_vlBytes_le (n : Nat) : (vlBytes n).length ≤ 2 := by
  rw [length_vlBytes]
  split <;> omega

theorem varintEncodeLoop_small (n cap : Nat) (hn : n < 256)
    (hcap : (vlBytes n).length ≤ cap) : varintEncodeLoop n cap = .ok (vlBytes n) := by
  by_cases h : n < 128
  · rw [length_vlBytes, if_pos h] at hcap
    rcases cap with _ | cap
    · omega
    · unfold varintEncodeLoop
      rw [if_pos h]
      simp [vlBytes, h]
  · rw [length_vlBytes, if_neg h] at hcap
    rcases cap with _ | cap
    · omega
    rcases cap with _ | cap
    · omega
    have h7 : n >>> 7 < 0x80 := by
      rw [Nat.shiftRight_eq_div_pow]
      omega
    unfold varintEncodeLoop
    rw [if_neg h]
    unfold varintEncodeLoop
    rw [if_pos h7]
    simp [vlBytes, h]

theorem decodeU32_vlBytes (n : Nat) (hn : n < 256) (rest : List Nat) :
    varintDecodeU32 (vlBytes n ++ rest) = .ok (n, (vlBytes n).length) := by
  by_cases h : n < 128
  · obtain ⟨h1, h2⟩ := vl_facts_low n h
    have hb : vlBytes n ++ rest = n :: rest := by simp [vlBytes, h]
    rw [hb, length_vlBytes, if_pos h]
    unfold varintDecodeU32
    unfold varintDecodeLoop
    rw [if_neg (show ¬ (0 : Nat) ≥ 32 by norm_num)]
    simp only [h1, h2, Nat.shiftLeft_zero, Nat.zero_or,
      Nat.mod_eq_of_lt (show n < 2 ^ 32 by omega)]
    simp
  · obtain ⟨h1, h2, h3, h4⟩ := vl_facts_high n hn (by omega)
    have hb : vlBytes n ++ rest = (n % 256 ||| 128) :: (n >>> 7) :: rest := by
      simp [vlBytes, h]
    rw [hb, length_vlBytes, if_neg h]
    unfold varintDecodeU32
    unfold varintDecodeLoop
    rw [if_neg (show ¬ (0 : Nat) ≥ 32 by norm_num)]
    simp only [h2, h3, Nat.shiftLeft_zero, Nat.zero_or,
      Nat.mod_eq_of_lt (show n - 128 < 2 ^ 32 by omega)]
    rw [if_neg h1]
    unfold varintDecodeLoop
    rw [if_neg (show ¬ (7 : Nat) ≥ 32 by norm_num)]
    simp only [show (1 : Nat) &&& 127 = 1 from rfl, show (1 : Nat) &&& 128 = 0 from rfl,
      show (1 : Nat) <<< 7 = 128 from rfl,
      Nat.mod_eq_of_lt (show (128 : Nat) < 2 ^ 32 by norm_num), h4]
    simp

theorem length_headerBytes (h : FrameHeader) : h.headerBytes.length = 16 := by
  simp [FrameHeader.headerBytes]

theorem writeAt_append (done rest chunk : List Nat) (_h : chunk.length ≤ rest.length) :
    writeAt (done ++ rest) done.length chunk = done ++ chunk ++ rest.drop chunk.length := by
  unfold writeAt
  rw [List.take_left]
  have hd : (done ++ rest).drop (done.length + chunk.length) = rest.drop chunk.length := by
    rw [← List.drop_drop, List.drop_left]
  rw [hd]

theorem putChunk_append (done rest chunk : List Nat) (pos hs bs : Nat)
    (hpos : pos = done.length) (hlen : chunk.length ≤ rest.length) :
    FrameEncoder.putChunk ⟨done ++ rest, pos, hs, bs⟩ chunk =
      .ok ⟨(done ++ chunk) ++ rest.drop chunk.length, pos + chunk.length, hs, bs⟩ := by
  subst hpos
  unfold FrameEncoder.putChunk
  rw [if_neg (by simp; omega)]
  rw [writeAt_append done rest chunk hlen, List.append_assoc]

theorem begin_fresh (buf : List Nat) (h : FrameHeader) (hlen : 16 ≤ buf.length) :
    FrameEncoder.begin (FrameEncoder.new buf) h =
      .ok ⟨FrameHeader.headerBytes h ++ buf.drop 16, 16, 0, 16⟩ := by
  unfold FrameEncoder.new FrameEncoder.begin
  rw [if_neg (show ¬ buf.length < FrameHeader.SIZE from by unfold FrameHeader.SIZE; omega),
      if_neg (show ¬ (0 : Nat) + FrameHeader.SIZE > buf.length from by
        unfold FrameHeader.SIZE; omega)]
  unfold writeAt
  simp [length_headerBytes, FrameHeader.SIZE]

theorem put_varbytes_append (done rest bytes : List Nat) (pos hs bs : Nat)
    (hpos : pos = done.length) (hn : bytes.length < 256)
    (hcap : (vlBytes bytes.length).length + bytes.length ≤ rest.length) :
    FrameEncoder.put_varbytes ⟨done ++ rest, pos, hs, bs⟩ bytes =
      .ok ⟨(done ++ (vlBytes bytes.length ++ bytes)) ++
             rest.drop ((vlBytes bytes.length).length + bytes.length),
           pos + ((vlBytes bytes.length).length + bytes.length), hs, bs⟩ := by
  subst hpos
  unfold FrameEncoder.put_varbytes
  rw [if_neg (by simp)]
  rw [show (done ++ rest).length - done.length = rest.length from by simp]
  rw [show varintEncodeU32 bytes.length rest.length = .ok (vlBytes bytes.length) from
    varintEncodeLoop_small bytes.length rest.length hn (by omega), MRes.bind_ok]
  dsimp only
  rw [writeAt_append done rest (vlBytes bytes.length) (by omega)]
  rw [if_neg (by
    simp only [List.length_append, List.length_drop]
    omega)]
  have hgroup : done ++ vlBytes bytes.length ++ rest.drop (vlBytes bytes.length).length =
      (done ++ vlBytes bytes.length) ++ rest.drop (vlBytes bytes.length).length := by
    rw [List.append_assoc]
  rw [hgroup]
  have hpos2 : done.length + (vlBytes bytes.length).length =
      (done ++ vlBytes bytes.length).length := by
    simp
  rw [hpos2]
  rw [writeAt_append (done ++ vlBytes bytes.length)
    (rest.drop (vlBytes bytes.length).length) bytes (by
      simp only [List.length_drop]
      omega)]
  rw [List.drop_drop]
  have e1 : (done ++ vlBytes bytes.length) ++ bytes ++
      rest.drop ((vlBytes bytes.length).length + bytes.length) =
      (done ++ (vlBytes bytes.length ++ bytes)) ++
        rest.drop ((vlBytes bytes.length).length + bytes.length) := by
    simp [List.append_assoc]
  have e2 : (done ++ vlBytes bytes.length).length + bytes.length =
      done.length + ((vlBytes bytes.length).length + bytes.length) := by
    simp
    omega
  rw [e1, e2]

theorem put_u64_append (done rest : List Nat) (pos hs bs v : Nat)
    (hpos : pos = done.length) (hlen : 8 ≤ rest.length) :
    FrameEncoder.put_u64 ⟨done ++ rest, pos, hs, bs⟩ v =
      .ok ⟨(done ++ leBytes 8 v) ++ rest.drop 8, pos + 8, hs, bs⟩ := by
  unfold FrameEncoder.put_u64
  rw [putChunk_append done rest (leBytes 8 v) pos hs bs hpos (by simp; omega)]
  simp

theorem put_i64_append (done rest : List Nat) (pos hs bs : Nat) (v : Int)
    (hpos : pos = done.length) (hlen : 8 ≤ rest.length) :
    FrameEncoder.put_i64 ⟨done ++ rest, pos, hs, bs⟩ v =
      .ok ⟨(done ++ leBytes 8 (v % 2 ^ 64).toNat) ++ rest.drop 8, pos + 8, hs, bs⟩ := by
  unfold FrameEncoder.put_i64
  exact put_u64_append done rest pos hs bs _ hpos hlen

theorem put_u32_append (done rest : List Nat) (pos hs bs v : Nat)
    (hpos : pos = done.length) (hlen : 4 ≤ rest.length) :
    FrameEncoder.put_u32 ⟨done ++ rest, pos, hs, bs⟩ v =
      .ok ⟨(done ++ leBytes 4 v) ++ rest.drop 4, pos + 4, hs, bs⟩ := by
  unfold FrameEncoder.put_u32
  rw [putChunk_append done rest (leBytes 4 v) pos hs bs hpos (by simp; omega)]
  simp

theorem put_bitmap_append (done rest : List Nat) (pos hs bs v : Nat)
    (hpos : pos = done.length) (hlen : 2 ≤ rest.length) :
    FrameEncoder.put_bitmap ⟨done ++ rest, pos, hs, bs⟩ v =
      .ok ⟨(done ++ leBytes 2 v) ++ rest.drop 2, pos + 2, hs, bs⟩ := by
  unfold FrameEncoder.put_bitmap FrameEncoder.put_u16
  rw [putChunk_append done rest (leBytes 2 v) pos hs bs hpos (by simp; omega)]
  simp

theorem put_u8_append (done rest : List Nat) (pos hs bs v : Nat)
    (hpos : pos = done.length) (hlen : 1 ≤ rest.length) :
    FrameEncoder.put_u8 ⟨done ++ rest, pos, hs, bs⟩ v =
      .ok ⟨(done ++ leBytes 1 v) ++ rest.drop 1, pos + 1, hs, bs⟩ := by
  unfold FrameEncoder.put_u8
  rw [putChunk_append done rest (leBytes 1 v) pos hs bs hpos (by simp; omega)]
  simp

/-- The cheap `put_varbytes` form used by the schema lemmas. -/
theorem put_varbytes_append' (done rest bytes : List Nat) (pos hs bs : Nat)
    (hpos : pos = done.length) (hn : bytes.length < 256)
    (hcap : 2 + bytes.length ≤ rest.length) :
    FrameEncoder.put_varbytes ⟨done ++ rest, pos, hs, bs⟩ bytes =
      .ok ⟨(done ++ (vlBytes bytes.length ++ bytes)) ++
             rest.drop ((vlBytes bytes.length).length + bytes.length),
           pos + ((vlBytes bytes.length).length + bytes.length), hs, bs⟩ :=
  put_varbytes_append done rest bytes pos hs bs hpos hn
    (by have := length_vlBytes_le bytes.length; omega)

theorem finish_append (h : FrameHeader) (body rest : List Nat) (pos : Nat)
    (hpos : pos = 16 + body.length) (hrest : 4 ≤ rest.length) :
    FrameEncoder.finish_crc32c ⟨FrameHeader.headerBytes h ++ (body ++ rest), pos, 0, 16⟩ =
      .ok (pos + 4,
        ⟨(FrameHeader.headerBytes {h with len := body.length} ++ body) ++
           (leBytes 4 (crc32c (FrameHeader.headerBytes {h with len := body.length} ++ body)) ++
            rest.drop 4),
         pos + 4, 0, 16⟩) := by
  subst hpos
  unfold FrameEncoder.finish_crc32c
  dsimp only
  rw [if_neg (show ¬ 16 + body.length < 16 by omega)]
  rw [if_neg (show ¬ 0 + 10 + 4 > (FrameHeader.headerBytes h ++ (body ++ rest)).length by
    simp [length_headerBytes]
    omega)]
  have hw : writeAt (FrameHeader.headerBytes h ++ (body ++ rest)) (0 + 10)
      (leBytes 4 (16 + body.length - 16)) =
      (FrameHeader.headerBytes {h with len := body.length} ++ body) ++ rest := by
    have hsub : 16 + body.length - 16 = body.length := by omega
    rw [hsub]
    unfold writeAt
    rw [List.take_append_of_le_length (by rw [length_headerBytes]; omega),
        List.drop_append_of_le_length (by simp [length_headerBytes])]
    have hcore : ((FrameHeader.headerBytes h).take (0 + 10) ++ leBytes 4 body.length) ++
        ((FrameHeader.headerBytes h).drop (0 + 10 + (leBytes 4 body.length).length)) =
        FrameHeader.headerBytes {h with len := body.length} := by
      simp only [length_leBytes]
      show ((FrameHeader.headerBytes h).take 10 ++ leBytes 4 body.length) ++
        ((FrameHeader.headerBytes h).drop 14) = _
      unfold FrameHeader.headerBytes
      simp [leBytes]
    calc (FrameHeader.headerBytes h).take (0 + 10) ++ leBytes 4 body.length ++
          ((FrameHeader.headerBytes h).drop (0 + 10 + (leBytes 4 body.length).length) ++
            (body ++ rest))
        = (((FrameHeader.headerBytes h).take (0 + 10) ++ leBytes 4 body.length) ++
            (FrameHeader.headerBytes h).drop (0 + 10 + (leBytes 4 body.length).length)) ++
            (body ++ rest) := by
          simp [List.append_assoc]
    _ = FrameHeader.headerBytes {h with len := body.length} ++ (body ++ rest) := by
          rw [hcore]
    _ = (FrameHeader.headerBytes {h with len := body.length} ++ body) ++ rest := by
          rw [List.append_assoc]
  rw [hw]
  rw [sliceP_ok (show (0 : Nat) ≤ 16 + body.length by omega)
    (by simp [length_headerBytes]), MRes.bind_ok]
  have hslice : sliceL ((FrameHeader.headerBytes {h with len := body.length} ++ body) ++ rest)
      0 (16 + body.length) =
      FrameHeader.headerBytes {h with len := body.length} ++ body := by
    unfold sliceL
    rw [List.drop_zero, Nat.sub_zero]
    exact List.take_left' (by simp [length_headerBytes])
  rw [hslice]
  rw [if_neg (show ¬ 16 + body.length + 4 >
      ((FrameHeader.headerBytes {h with len := body.length} ++ body) ++ rest).length from by
    simp [length_headerBytes]
    omega)]
  have hw2 : writeAt ((FrameHeader.headerBytes {h with len := body.length} ++ body) ++ rest)
      (16 + body.length)
      (leBytes 4 (crc32c (FrameHeader.headerBytes {h with len := body.length} ++ body))) =
      (FrameHeader.headerBytes {h with len := body.length} ++ body) ++
        (leBytes 4 (crc32c (FrameHeader.headerBytes {h with len := body.length} ++ body)) ++
          rest.drop 4) := by
    have hp : 16 + body.length =
        (FrameHeader.headerBytes {h with len := body.length} ++ body).length := by
      simp [length_headerBytes]
    rw [hp, writeAt_append _ _ _ (by simp; omega)]
    simp [List.append_assoc]
  rw [hw2]
  simp

/-! ## Closed forms of the schema encoders -/

/-- A `put_varbytes` chunk: varint length prefix followed by the raw
bytes (for fields of fewer than 256 bytes). -/
def vbChunk (s : List Nat) : List Nat := vlBytes s.length ++ s

/-- The optional part of a trade body: the 16-bit presence bitmap
followed by the present fields in ascending index order, or nothing. -/
def tradeOptBytes : Option (List Nat) → Option (List Nat) → List Nat
  | none, none => []
  | some s, none => leBytes 2 1 ++ vbChunk s
  | none, some t => leBytes 2 2 ++ vbChunk t
  | some s, some t => leBytes 2 3 ++ (vbChunk s ++ vbChunk t)

/-- The body bytes produced by `trade::encode`. -/
def tradeBody (ts_ns : Nat) (price : Int) (qty : Nat)
    (symbol note : Option (List Nat)) : List Nat :=
  leBytes 8 ts_ns ++ (leBytes 8 (price % 2 ^ 64).toNat ++
    (leBytes 4 qty ++ tradeOptBytes symbol note))

/-- The header `trade::encode` passes to `begin`. -/
def tradeHeader (seq : Nat) (symbol note : Option (List Nat)) : FrameHeader :=
  if symbol.isSome || note.isSome then (FrameHeader.new TRADE_V1 seq 0).set_flag 0x01
  else FrameHeader.new TRADE_V1 seq 0

/-- The optional part of a quote body. -/
def quoteOptBytes : Option (List Nat) → List Nat
  | none => []
  | some s => leBytes 2 1 ++ vbChunk s

/-- The body bytes produced by `quote::encode`. -/
def quoteBody (ts_ns : Nat) (bid ask : Int) (level : Nat)
    (symbol : Option (List Nat)) : List Nat :=
  leBytes 8 ts_ns ++ (leBytes 8 (bid % 2 ^ 64).toNat ++
    (leBytes 8 (ask % 2 ^ 64).toNat ++ (leBytes 1 level ++ quoteOptBytes symbol)))

/-- The header `quote::encode` passes to `begin`. -/
def quoteHeader (seq : Nat) (symbol : Option (List Nat)) : FrameHeader :=
  if symbol.isSome then (FrameHeader.new QUOTE_V1 seq 0).set_flag 0x01
  else FrameHeader.new QUOTE_V1 seq 0

/-- A complete frame: header (with `len` back-patched to the body
length), body, and CRC32C trailer over header+body. -/
def mkFrame (h : FrameHeader) (body : List Nat) : List Nat :=
  (FrameHeader.headerBytes {h with len := body.length} ++ body) ++
    leBytes 4 (crc32c (FrameHeader.headerBytes {h with len := body.length} ++ body))

/-! ## CRC32C value bounds -/

theorem crc32cTable_lt : ∀ i, i < 256 → crc32cTable i < 2 ^ 32 := by decide

theorem crcStep_lt (s b : Nat) (hs : s < 2 ^ 32) : crcStep s b < 2 ^ 32 := by
  unfold crcStep
  apply Nat.xor_lt_two_pow
  · rw [Nat.shiftRight_eq_div_pow]
    have := Nat.div_le_self s (2 ^ 8)
    omega
  · exact crc32cTable_lt _ (by
      have := Nat.and_le_right (n := s ^^^ b) (m := 0xFF)
      omega)

theorem crcFold_lt (data : List Nat) : ∀ s, s < 2 ^ 32 → crcFold s data < 2 ^ 32 := by
  induction data with
  | nil => intro s hs; exact hs
  | cons b rest ih => intro s hs; exact ih _ (crcStep_lt s b hs)

theorem crc32c_lt (data : List Nat) : crc32c data < 2 ^ 32 := by
  unfold crc32c crc32c_sw
  exact Nat.xor_lt_two_pow (crcFold_lt data _ (by norm_num)) (by norm_num)

theorem length_vlBytes_pos (n : Nat) : 1 ≤ (vlBytes n).length := by
  rw [length_vlBytes]
  split <;> omega

set_option maxHeartbeats 2000000 in
/-- Closed form of `trade::encode`: on a large enough buffer it writes
`mkFrame` of the trade header and body and returns the frame size. -/
theorem trade_encode_eq (buf : List Nat) (seq ts_ns : Nat) (price : Int) (qty : Nat)
    (symbol note : Option (List Nat))
    (hsym : ∀ s, symbol = some s → s.length < 256)
    (hnote : ∀ t, note = some t → t.length < 256)
    (hcap : 16 + (tradeBody ts_ns price qty symbol note).length + 4 ≤ buf.length) :
    trade.encode buf seq ts_ns price qty symbol note =
      .ok (16 + (tradeBody ts_ns price qty symbol note).length + 4,
        mkFrame (tradeHeader seq symbol note) (tradeBody ts_ns price qty symbol note) ++
          buf.drop (16 + (tradeBody ts_ns price qty symbol note).length + 4)) := by
  rcases symbol with _ | s
  · rcases note with _ | t
    · -- no optional fields
      have hL : (tradeBody ts_ns price qty none none).length = 20 := by
        simp [tradeBody, tradeOptBytes]
      rw [hL] at hcap ⊢
      unfold trade.encode
      simp only [Option.isSome_none, Bool.or_self, Bool.false_eq_true, if_false]
      rw [begin_fresh buf (FrameHeader.new TRADE_V1 seq 0) (by omega), MRes.bind_ok]
      have e1 := put_u64_append (FrameHeader.headerBytes (FrameHeader.new TRADE_V1 seq 0))
        (buf.drop 16) 16 0 16 ts_ns (length_headerBytes _).symm (by simp; omega)
      rw [e1, MRes.bind_ok]
      have e2 := put_i64_append
        (FrameHeader.headerBytes (FrameHeader.new TRADE_V1 seq 0) ++ leBytes 8 ts_ns)
        ((buf.drop 16).drop 8) (16 + 8) 0 16 price (by simp [length_headerBytes])
        (by simp; omega)
      rw [e2, MRes.bind_ok]
      have e3 := put_u32_append
        ((FrameHeader.headerBytes (FrameHeader.new TRADE_V1 seq 0) ++ leBytes 8 ts_ns) ++
          leBytes 8 (price % 2 ^ 64).toNat)
        (((buf.drop 16).drop 8).drop 8) (16 + 8 + 8) 0 16 qty (by simp [length_headerBytes])
        (by simp; omega)
      rw [e3, MRes.bind_ok, MRes.bind_ok]
      have hbuf : (((FrameHeader.headerBytes (FrameHeader.new TRADE_V1 seq 0) ++
          leBytes 8 ts_ns) ++ leBytes 8 (price % 2 ^ 64).toNat) ++ leBytes 4 qty) ++
          (((buf.drop 16).drop 8).drop 8).drop 4 =
          FrameHeader.headerBytes (FrameHeader.new TRADE_V1 seq 0) ++
            (tradeBody ts_ns price qty none none ++ (((buf.drop 16).drop 8).drop 8).drop 4) := by
        simp [tradeBody, tradeOptBytes, List.append_assoc]
      rw [hbuf]
      have efin := finish_append (FrameHeader.new TRADE_V1 seq 0)
        (tradeBody ts_ns price qty none none) ((((buf.drop 16).drop 8).drop 8).drop 4)
        (16 + 8 + 8 + 4) (by rw [hL]) (by simp; omega)
      rw [efin, MRes.bind_ok]
      have hrest : ((((buf.drop 16).drop 8).drop 8).drop 4).drop 4 = buf.drop (16 + 20 + 4) := by
        simp [List.drop_drop]
      unfold mkFrame tradeHeader
      simp only [Option.isSome_none, Bool.or_self, Bool.false_eq_true, if_false]
      rw [hrest, hL]
      simp [List.append_assoc]
    · -- note only
      have ht : t.length < 256 := hnote t rfl
      have hvt := length_vlBytes_pos t.length
      have hvt2 := length_vlBytes_le t.length
      have hL : (tradeBody ts_ns price qty none (some t)).length =
          22 + ((vlBytes t.length).length + t.length) := by
        simp [tradeBody, tradeOptBytes, vbChunk]
        omega
      unfold trade.encode
      simp only [Option.isSome_none, Option.isSome_some, Bool.false_or, Bool.or_false,
        Bool.false_eq_true, if_false, eq_self_iff_true, if_true]
      rw [begin_fresh buf ((FrameHeader.new TRADE_V1 seq 0).set_flag 0x01)
        (by omega), MRes.bind_ok]
      have e1 := put_u64_append
        (FrameHeader.headerBytes ((FrameHeader.new TRADE_V1 seq 0).set_flag 0x01))
        (buf.drop 16) 16 0 16 ts_ns (length_headerBytes _).symm (by simp; omega)
      rw [e1, MRes.bind_ok]
      have e2 := put_i64_append
        (FrameHeader.headerBytes ((FrameHeader.new TRADE_V1 seq 0).set_flag 0x01) ++
          leBytes 8 ts_ns)
        ((buf.drop 16).drop 8) (16 + 8) 0 16 price (by simp [length_headerBytes])
        (by simp; omega)
      rw [e2, MRes.bind_ok]
      have e3 := put_u32_append
        ((FrameHeader.headerBytes ((FrameHeader.new TRADE_V1 seq 0).set_flag 0x01) ++
          leBytes 8 ts_ns) ++ leBytes 8 (price % 2 ^ 64).toNat)
        (((buf.drop 16).drop 8).drop 8) (16 + 8 + 8) 0 16 qty (by simp [length_headerBytes])
        (by simp; omega)
      rw [e3, MRes.bind_ok]
      rw [show ((0 ||| 1 <<< trade.NOTE) : Nat) = 2 from by decide]
      have e4 := put_bitmap_append
        (((FrameHeader.headerBytes ((FrameHeader.new TRADE_V1 seq 0).set_flag 0x01) ++
          leBytes 8 ts_ns) ++ leBytes 8 (price % 2 ^ 64).toNat) ++ leBytes 4 qty)
        ((((buf.drop 16).drop 8).drop 8).drop 4) (16 + 8 + 8 + 4) 0 16 2
        (by simp [length_headerBytes]) (by simp; omega)
      rw [e4, MRes.bind_ok, MRes.bind_ok]
      have e5 := put_varbytes_append'
        ((((FrameHeader.headerBytes ((FrameHeader.new TRADE_V1 seq 0).set_flag 0x01) ++
          leBytes 8 ts_ns) ++ leBytes 8 (price % 2 ^ 64).toNat) ++ leBytes 4 qty) ++
          leBytes 2 2)
        (((((buf.drop 16).drop 8).drop 8).drop 4).drop 2) t (16 + 8 + 8 + 4 + 2) 0 16
        (by simp [length_headerBytes]) ht (by simp; omega)
      rw [e5, MRes.bind_ok]
      have hbuf : (((((FrameHeader.headerBytes ((FrameHeader.new TRADE_V1 seq 0).set_flag 0x01) ++
          leBytes 8 ts_ns) ++ leBytes 8 (price % 2 ^ 64).toNat) ++ leBytes 4 qty) ++
          leBytes 2 2) ++ (vlBytes t.length ++ t)) ++
          ((((((buf.drop 16).drop 8).drop 8).drop 4).drop 2).drop
            ((vlBytes t.length).length + t.length)) =
          FrameHeader.headerBytes ((FrameHeader.new TRADE_V1 seq 0).set_flag 0x01) ++
            (tradeBody ts_ns price qty none (some t) ++
              ((((((buf.drop 16).drop 8).drop 8).drop 4).drop 2).drop
                ((vlBytes t.length).length + t.length))) := by
        simp [tradeBody, tradeOptBytes, vbChunk, List.append_assoc]
      rw [hbuf]
      have efin := finish_append ((FrameHeader.new TRADE_V1 seq 0).set_flag 0x01)
        (tradeBody ts_ns price qty none (some t))
        ((((((buf.drop 16).drop 8).drop 8).drop 4).drop 2).drop
          ((vlBytes t.length).length + t.length))
        (16 + 8 + 8 + 4 + 2 + ((vlBytes t.length).length + t.length))
        (by rw [hL]; omega) (by simp; omega)
      rw [efin, MRes.bind_ok]
      have hrest : (((((((buf.drop 16).drop 8).drop 8).drop 4).drop 2).drop
          ((vlBytes t.length).length + t.length)).drop 4) =
          buf.drop (16 + (tradeBody ts_ns price qty none (some t)).length + 4) := by
        simp only [List.drop_drop]
        exact congrArg (fun n => List.drop n buf) (by rw [hL]; omega)
      rw [hrest]
      unfold mkFrame tradeHeader
      simp only [Option.isSome_none, Option.isSome_some, Bool.false_or, eq_self_iff_true,
        if_true]
      rw [show 16 + 8 + 8 + 4 + 2 + ((vlBytes t.length).length + t.length) + 4 =
        16 + (tradeBody ts_ns price qty none (some t)).length + 4 from by rw [hL]; omega]
      simp [List.append_assoc]
  · rcases note with _ | t
    · -- symbol only
      have hs : s.length < 256 := hsym s rfl
      have hvs := length_vlBytes_pos s.length
      have hvs2 := length_vlBytes_le s.length
      have hL : (tradeBody ts_ns price qty (some s) none).length =
          22 + ((vlBytes s.length).length + s.length) := by
        simp [tradeBody, tradeOptBytes, vbChunk]
        omega
      unfold trade.encode
      simp only [Option.isSome_none, Option.isSome_some, Bool.false_or, Bool.or_false,
        Bool.false_eq_true, if_false, eq_self_iff_true, if_true]
      rw [begin_fresh buf ((FrameHeader.new TRADE_V1 seq 0).set_flag 0x01)
        (by omega), MRes.bind_ok]
      have e1 := put_u64_append
        (FrameHeader.headerBytes ((FrameHeader.new TRADE_V1 seq 0).set_flag 0x01))
        (buf.drop 16) 16 0 16 ts_ns (length_headerBytes _).symm (by simp; omega)
      rw [e1, MRes.bind_ok]
      have e2 := put_i64_append
        (FrameHeader.headerBytes ((FrameHeader.new TRADE_V1 seq 0).set_flag 0x01) ++
          leBytes 8 ts_ns)
        ((buf.drop 16).drop 8) (16 + 8) 0 16 price (by simp [length_headerBytes])
        (by simp; omega)
      rw [e2, MRes.bind_ok]
      have e3 := put_u32_append
        ((FrameHeader.headerBytes ((FrameHeader.new TRADE_V1 seq 0).set_flag 0x01) ++
          leBytes 8 ts_ns) ++ leBytes 8 (price % 2 ^ 64).toNat)
        (((buf.drop 16).drop 8).drop 8) (16 + 8 + 8) 0 16 qty (by simp [length_headerBytes])
        (by simp; omega)
      rw [e3, MRes.bind_ok]
      rw [show ((1 <<< trade.SYMBOL ||| 0) : Nat) = 1 from by decide]
      have e4 := put_bitmap_append
        (((FrameHeader.headerBytes ((FrameHeader.new TRADE_V1 seq 0).set_flag 0x01) ++
          leBytes 8 ts_ns) ++ leBytes 8 (price % 2 ^ 64).toNat) ++ leBytes 4 qty)
        ((((buf.drop 16).drop 8).drop 8).drop 4) (16 + 8 + 8 + 4) 0 16 1
        (by simp [length_headerBytes]) (by simp; omega)
      rw [e4, MRes.bind_ok]
      have e5 := put_varbytes_append'
        ((((FrameHeader.headerBytes ((FrameHeader.new TRADE_V1 seq 0).set_flag 0x01) ++
          leBytes 8 ts_ns) ++ leBytes 8 (price % 2 ^ 64).toNat) ++ leBytes 4 qty) ++
          leBytes 2 1)
        (((((buf.drop 16).drop 8).drop 8).drop 4).drop 2) s (16 + 8 + 8 + 4 + 2) 0 16
        (by simp [length_headerBytes]) hs (by simp; omega)
      rw [e5, MRes.bind_ok, MRes.bind_ok]
      have hbuf : (((((FrameHeader.headerBytes ((FrameHeader.new TRADE_V1 seq 0).set_flag 0x01) ++
          leBytes 8 ts_ns) ++ leBytes 8 (price % 2 ^ 64).toNat) ++ leBytes 4 qty) ++
          leBytes 2 1) ++ (vlBytes s.length ++ s)) ++
          ((((((buf.drop 16).drop 8).drop 8).drop 4).drop 2).drop
            ((vlBytes s.length).length + s.length)) =
          FrameHeader.headerBytes ((FrameHeader.new TRADE_V1 seq 0).set_flag 0x01) ++
            (tradeBody ts_ns price qty (some s) none ++
              ((((((buf.drop 16).drop 8).drop 8).drop 4).drop 2).drop
                ((vlBytes s.length).length + s.length))) := by
        simp [tradeBody, tradeOptBytes, vbChunk, List.append_assoc]
      rw [hbuf]
      have efin := finish_append ((FrameHeader.new TRADE_V1 seq 0).set_flag 0x01)
        (tradeBody ts_ns price qty (some s) none)
        ((((((buf.drop 16).drop 8).drop 8).drop 4).drop 2).drop
          ((vlBytes s.length).length + s.length))
        (16 + 8 + 8 + 4 + 2 + ((vlBytes s.length).length + s.length))
        (by rw [hL]; omega) (by simp; omega)
      rw [efin, MRes.bind_ok]
      have hrest : (((((((buf.drop 16).drop 8).drop 8).drop 4).drop 2).drop
          ((vlBytes s.length).length + s.length)).drop 4) =
          buf.drop (16 + (tradeBody ts_ns price qty (some s) none).length + 4) := by
        simp only [List.drop_drop]
        exact congrArg (fun n => List.drop n buf) (by rw [hL]; omega)
      rw [hrest]
      unfold mkFrame tradeHeader
      simp only [Option.isSome_none, Option.isSome_some, Bool.or_false, eq_self_iff_true,
        if_true]
      rw [show 16 + 8 + 8 + 4 + 2 + ((vlBytes s.length).length + s.length) + 4 =
        16 + (tradeBody ts_ns price qty (some s) none).length + 4 from by rw [hL]; omega]
      simp [List.append_assoc]
    · -- both symbol and note
      have hs : s.length < 256 := hsym s rfl
      have ht : t.length < 256 := hnote t rfl
      have hvs := length_vlBytes_pos s.length
      have hvs2 := length_vlBytes_le s.length
      have hvt := length_vlBytes_pos t.length
      have hvt2 := length_vlBytes_le t.length
      have hL : (tradeBody ts_ns price qty (some s) (some t)).length =
          22 + ((vlBytes s.length).length + s.length) +
            ((vlBytes t.length).length + t.length) := by
        simp [tradeBody, tradeOptBytes, vbChunk]
        omega
      unfold trade.encode
      simp only [Option.isSome_some, Bool.or_self, eq_self_iff_true, if_true]
      rw [begin_fresh buf ((FrameHeader.new TRADE_V1 seq 0).set_flag 0x01)
        (by omega), MRes.bind_ok]
      have e1 := put_u64_append
        (FrameHeader.headerBytes ((FrameHeader.new TRADE_V1 seq 0).set_flag 0x01))
        (buf.drop 16) 16 0 16 ts_ns (length_headerBytes _).symm (by simp; omega)
      rw [e1, MRes.bind_ok]
      have e2 := put_i64_append
        (FrameHeader.headerBytes ((FrameHeader.new TRADE_V1 seq 0).set_flag 0x01) ++
          leBytes 8 ts_ns)
        ((buf.drop 16).drop 8) (16 + 8) 0 16 price (by simp [length_headerBytes])
        (by simp; omega)
      rw [e2, MRes.bind_ok]
      have e3 := put_u32_append
        ((FrameHeader.headerBytes ((FrameHeader.new TRADE_V1 seq 0).set_flag 0x01) ++
          leBytes 8 ts_ns) ++ leBytes 8 (price % 2 ^ 64).toNat)
        (((buf.drop 16).drop 8).drop 8) (16 + 8 + 8) 0 16 qty (by simp [length_headerBytes])
        (by simp; omega)
      rw [e3, MRes.bind_ok]
      rw [show ((1 <<< trade.SYMBOL ||| 1 <<< trade.NOTE) : Nat) = 3 from by decide]
      have e4 := put_bitmap_append
        (((FrameHeader.headerBytes ((FrameHeader.new TRADE_V1 seq 0).set_flag 0x01) ++
          leBytes 8 ts_ns) ++ leBytes 8 (price % 2 ^ 64).toNat) ++ leBytes 4 qty)
        ((((buf.drop 16).drop 8).drop 8).drop 4) (16 + 8 + 8 + 4) 0 16 3
        (by simp [length_headerBytes]) (by simp; omega)
      rw [e4, MRes.bind_ok]
      have e5 := put_varbytes_append'
        ((((FrameHeader.headerBytes ((FrameHeader.new TRADE_V1 seq 0).set_flag 0x01) ++
          leBytes 8 ts_ns) ++ leBytes 8 (price % 2 ^ 64).toNat) ++ leBytes 4 qty) ++
          leBytes 2 3)
        (((((buf.drop 16).drop 8).drop 8).drop 4).drop 2) s (16 + 8 + 8 + 4 + 2) 0 16
        (by simp [length_headerBytes]) hs (by simp; omega)
      rw [e5, MRes.bind_ok]
      have e6 := put_varbytes_append'
        (((((FrameHeader.headerBytes ((FrameHeader.new TRADE_V1 seq 0).set_flag 0x01) ++
          leBytes 8 ts_ns) ++ leBytes 8 (price % 2 ^ 64).toNat) ++ leBytes 4 qty) ++
          leBytes 2 3) ++ (vlBytes s.length ++ s))
        ((((((buf.drop 16).drop 8).drop 8).drop 4).drop 2).drop
          ((vlBytes s.length).length + s.length))
        t (16 + 8 + 8 + 4 + 2 + ((vlBytes s.length).length + s.length)) 0 16
        (by simp [length_headerBytes]; omega) ht (by simp; omega)
      rw [e6, MRes.bind_ok]
      have hbuf : ((((((FrameHeader.headerBytes ((FrameHeader.new TRADE_V1 seq 0).set_flag 0x01) ++
          leBytes 8 ts_ns) ++ leBytes 8 (price % 2 ^ 64).toNat) ++ leBytes 4 qty) ++
          leBytes 2 3) ++ (vlBytes s.length ++ s)) ++ (vlBytes t.length ++ t)) ++
          (((((((buf.drop 16).drop 8).drop 8).drop 4).drop 2).drop
            ((vlBytes s.length).length + s.length)).drop
              ((vlBytes t.length).length + t.length)) =
          FrameHeader.headerBytes ((FrameHeader.new TRADE_V1 seq 0).set_flag 0x01) ++
            (tradeBody ts_ns price qty (some s) (some t) ++
              (((((((buf.drop 16).drop 8).drop 8).drop 4).drop 2).drop
                ((vlBytes s.length).length + s.length)).drop
                  ((vlBytes t.length).length + t.length))) := by
        simp [tradeBody, tradeOptBytes, vbChunk, List.append_assoc]
      rw [hbuf]
      have efin := finish_append ((FrameHeader.new TRADE_V1 seq 0).set_flag 0x01)
        (tradeBody ts_ns price qty (some s) (some t))
        (((((((buf.drop 16).drop 8).drop 8).drop 4).drop 2).drop
          ((vlBytes s.length).length + s.length)).drop
            ((vlBytes t.length).length + t.length))
        (16 + 8 + 8 + 4 + 2 + ((vlBytes s.length).length + s.length) +
          ((vlBytes t.length).length + t.length))
        (by rw [hL]; omega) (by simp; omega)
      rw [efin, MRes.bind_ok]
      have hrest : ((((((((buf.drop 16).drop 8).drop 8).drop 4).drop 2).drop
          ((vlBytes s.length).length + s.length)).drop
            ((vlBytes t.length).length + t.length)).drop 4) =
          buf.drop (16 + (tradeBody ts_ns price qty (some s) (some t)).length + 4) := by
        simp only [List.drop_drop]
        exact congrArg (fun n => List.drop n buf) (by rw [hL]; omega)
      rw [hrest]
      unfold mkFrame tradeHeader
      simp only [Option.isSome_some, Bool.or_self, eq_self_iff_true, if_true]
      rw [show 16 + 8 + 8 + 4 + 2 + ((vlBytes s.length).length + s.length) +
        ((vlBytes t.length).length + t.length) + 4 =
        16 + (tradeBody ts_ns price qty (some s) (some t)).length + 4 from by rw [hL]; omega]
      simp [List.append_assoc]

set_option maxHeartbeats 2000000 in
/-- Closed form of `quote::encode`. -/
theorem quote_encode_eq (buf : List Nat) (seq ts_ns : Nat) (bid ask : Int) (level : Nat)
    (symbol : Option (List Nat))
    (hsym : ∀ s, symbol = some s → s.length < 256)
    (hcap : 16 + (quoteBody ts_ns bid ask level symbol).length + 4 ≤ buf.length) :
    quote.encode buf seq ts_ns bid ask level symbol =
      .ok (16 + (quoteBody ts_ns bid ask level symbol).length + 4,
        mkFrame (quoteHeader seq symbol) (quoteBody ts_ns bid ask level symbol) ++
          buf.drop (16 + (quoteBody ts_ns bid ask level symbol).length + 4)) := by
  rcases symbol with _ | s
  · have hL : (quoteBody ts_ns bid ask level none).length = 25 := by
      simp [quoteBody, quoteOptBytes]
    rw [hL] at hcap ⊢
    unfold quote.encode
    simp only [Option.isSome_none, Bool.false_eq_true, if_false]
    rw [begin_fresh buf (FrameHeader.new QUOTE_V1 seq 0) (by omega), MRes.bind_ok]
    have e1 := put_u64_append (FrameHeader.headerBytes (FrameHeader.new QUOTE_V1 seq 0))
      (buf.drop 16) 16 0 16 ts_ns (length_headerBytes _).symm (by simp; omega)
    rw [e1, MRes.bind_ok]
    have e2 := put_i64_append
      (FrameHeader.headerBytes (FrameHeader.new QUOTE_V1 seq 0) ++ leBytes 8 ts_ns)
      ((buf.drop 16).drop 8) (16 + 8) 0 16 bid (by simp [length_headerBytes])
      (by simp; omega)
    rw [e2, MRes.bind_ok]
    have e3 := put_i64_append
      ((FrameHeader.headerBytes (FrameHeader.new QUOTE_V1 seq 0) ++ leBytes 8 ts_ns) ++
        leBytes 8 (bid % 2 ^ 64).toNat)
      (((buf.drop 16).drop 8).drop 8) (16 + 8 + 8) 0 16 ask (by simp [length_headerBytes])
      (by simp; omega)
    rw [e3, MRes.bind_ok]
    have e4 := put_u8_append
      (((FrameHeader.headerBytes (FrameHeader.new QUOTE_V1 seq 0) ++ leBytes 8 ts_ns) ++
        leBytes 8 (bid % 2 ^ 64).toNat) ++ leBytes 8 (ask % 2 ^ 64).toNat)
      ((((buf.drop 16).drop 8).drop 8).drop 8) (16 + 8 + 8 + 8) 0 16 level
      (by simp [length_headerBytes]) (by simp; omega)
    rw [e4, MRes.bind_ok, MRes.bind_ok]
    have hbuf : ((((FrameHeader.headerBytes (FrameHeader.new QUOTE_V1 seq 0) ++
        leBytes 8 ts_ns) ++ leBytes 8 (bid % 2 ^ 64).toNat) ++ leBytes 8 (ask % 2 ^ 64).toNat) ++
        leBytes 1 level) ++ (((((buf.drop 16).drop 8).drop 8).drop 8).drop 1) =
        FrameHeader.headerBytes (FrameHeader.new QUOTE_V1 seq 0) ++
          (quoteBody ts_ns bid ask level none ++
            (((((buf.drop 16).drop 8).drop 8).drop 8).drop 1)) := by
      simp [quoteBody, quoteOptBytes, List.append_assoc]
    rw [hbuf]
    have efin := finish_append (FrameHeader.new QUOTE_V1 seq 0)
      (quoteBody ts_ns bid ask level none) (((((buf.drop 16).drop 8).drop 8).drop 8).drop 1)
      (16 + 8 + 8 + 8 + 1) (by rw [hL]) (by simp; omega)
    rw [efin, MRes.bind_ok]
    have hrest : (((((buf.drop 16).drop 8).drop 8).drop 8).drop 1).drop 4 =
        buf.drop (16 + 25 + 4) := by
      simp [List.drop_drop]
    rw [hrest, hL]
    unfold mkFrame quoteHeader
    simp only [Option.isSome_none, Bool.false_eq_true, if_false]
    rw [hL]
    simp [List.append_assoc]
  · have hs : s.length < 256 := hsym s rfl
    have hvs := length_vlBytes_pos s.length
    have hvs2 := length_vlBytes_le s.length
    have hL : (quoteBody ts_ns bid ask level (some s)).length =
        27 + ((vlBytes s.length).length + s.length) := by
      simp [quoteBody, quoteOptBytes, vbChunk]
      omega
    unfold quote.encode
    simp only [Option.isSome_some, eq_self_iff_true, if_true]
    rw [begin_fresh buf ((FrameHeader.new QUOTE_V1 seq 0).set_flag 0x01) (by omega),
      MRes.bind_ok]
    have e1 := put_u64_append
      (FrameHeader.headerBytes ((FrameHeader.new QUOTE_V1 seq 0).set_flag 0x01))
      (buf.drop 16) 16 0 16 ts_ns (length_headerBytes _).symm (by simp; omega)
    rw [e1, MRes.bind_ok]
    have e2 := put_i64_append
      (FrameHeader.headerBytes ((FrameHeader.new QUOTE_V1 seq 0).set_flag 0x01) ++
        leBytes 8 ts_ns)
      ((buf.drop 16).drop 8) (16 + 8) 0 16 bid (by simp [length_headerBytes])
      (by simp; omega)
    rw [e2, MRes.bind_ok]
    have e3 := put_i64_append
      ((FrameHeader.headerBytes ((FrameHeader.new QUOTE_V1 seq 0).set_flag 0x01) ++
        leBytes 8 ts_ns) ++ leBytes 8 (bid % 2 ^ 64).toNat)
      (((buf.drop 16).drop 8).drop 8) (16 + 8 + 8) 0 16 ask (by simp [length_headerBytes])
      (by simp; omega)
    rw [e3, MRes.bind_ok]
    have e4 := put_u8_append
      (((FrameHeader.headerBytes ((FrameHeader.new QUOTE_V1 seq 0).set_flag 0x01) ++
        leBytes 8 ts_ns) ++ leBytes 8 (bid % 2 ^ 64).toNat) ++ leBytes 8 (ask % 2 ^ 64).toNat)
      ((((buf.drop 16).drop 8).drop 8).drop 8) (16 + 8 + 8 + 8) 0 16 level
      (by simp [length_headerBytes]) (by simp; omega)
    rw [e4, MRes.bind_ok]
    rw [show ((1 <<< quote.SYMBOL) : Nat) = 1 from by decide]
    have e5 := put_bitmap_append
      ((((FrameHeader.headerBytes ((FrameHeader.new QUOTE_V1 seq 0).set_flag 0x01) ++
        leBytes 8 ts_ns) ++ leBytes 8 (bid % 2 ^ 64).toNat) ++
        leBytes 8 (ask % 2 ^ 64).toNat) ++ leBytes 1 level)
      (((((buf.drop 16).drop 8).drop 8).drop 8).drop 1) (16 + 8 + 8 + 8 + 1) 0 16 1
      (by simp [length_headerBytes]) (by simp; omega)
    rw [e5, MRes.bind_ok]
    have e6 := put_varbytes_append'
      (((((FrameHeader.headerBytes ((FrameHeader.new QUOTE_V1 seq 0).set_flag 0x01) ++
        leBytes 8 ts_ns) ++ leBytes 8 (bid % 2 ^ 64).toNat) ++
        leBytes 8 (ask % 2 ^ 64).toNat) ++ leBytes 1 level) ++ leBytes 2 1)
      ((((((buf.drop 16).drop 8).drop 8).drop 8).drop 1).drop 2) s (16 + 8 + 8 + 8 + 1 + 2)
      0 16 (by simp [length_headerBytes]) hs (by simp; omega)
    rw [e6, MRes.bind_ok]
    have hbuf : ((((((FrameHeader.headerBytes ((FrameHeader.new QUOTE_V1 seq 0).set_flag 0x01) ++
        leBytes 8 ts_ns) ++ leBytes 8 (bid % 2 ^ 64).toNat) ++
        leBytes 8 (ask % 2 ^ 64).toNat) ++ leBytes 1 level) ++ leBytes 2 1) ++
        (vlBytes s.length ++ s)) ++
        (((((((buf.drop 16).drop 8).drop 8).drop 8).drop 1).drop 2).drop
          ((vlBytes s.length).length + s.length)) =
        FrameHeader.headerBytes ((FrameHeader.new QUOTE_V1 seq 0).set_flag 0x01) ++
          (quoteBody ts_ns bid ask level (some s) ++
            (((((((buf.drop 16).drop 8).drop 8).drop 8).drop 1).drop 2).drop
              ((vlBytes s.length).length + s.length))) := by
      simp [quoteBody, quoteOptBytes, vbChunk, List.append_assoc]
    rw [hbuf]
    have efin := finish_append ((FrameHeader.new QUOTE_V1 seq 0).set_flag 0x01)
      (quoteBody ts_ns bid ask level (some s))
      (((((((buf.drop 16).drop 8).drop 8).drop 8).drop 1).drop 2).drop
        ((vlBytes s.length).length + s.length))
      (16 + 8 + 8 + 8 + 1 + 2 + ((vlBytes s.length).length + s.length))
      (by rw [hL]; omega) (by simp; omega)
    rw [efin, MRes.bind_ok]
    have hrest : ((((((((buf.drop 16).drop 8).drop 8).drop 8).drop 1).drop 2).drop
        ((vlBytes s.length).length + s.length)).drop 4) =
        buf.drop (16 + (quoteBody ts_ns bid ask level (some s)).length + 4) := by
      simp only [List.drop_drop]
      exact congrArg (fun n => List.drop n buf) (by rw [hL]; omega)
    rw [hrest]
    unfold mkFrame quoteHeader
    simp only [Option.isSome_some, eq_self_iff_true, if_true]
    rw [show 16 + 8 + 8 + 8 + 1 + 2 + ((vlBytes s.length).length + s.length) + 4 =
      16 + (quoteBody ts_ns bid ask level (some s)).length + 4 from by rw [hL]; omega]
    simp [List.append_assoc]

/-! ## CRC32C linearity and single-bit-flip detection

The table generator `crcEntryStep` is linear over `xor`, hence so are the
table and the per-byte state deltas; a nonzero state delta never dies
because every nonzero table entry is at least `2 ^ 24` while the shifted
delta is below `2 ^ 24`. -/

theorem xor_shiftRight (a b n : Nat) : (a ^^^ b) >>> n = (a >>> n) ^^^ (b >>> n) := by
  apply Nat.eq_of_testBit_eq
  intro i
  simp [Nat.testBit_shiftRight, Nat.testBit_xor]

theorem xor4 (p q r t : Nat) : (p ^^^ q) ^^^ (r ^^^ t) = (p ^^^ r) ^^^ (q ^^^ t) := by
  apply Nat.eq_of_testBit_eq
  intro i
  simp only [Nat.testBit_xor]
  cases p.testBit i <;> cases q.testBit i <;> cases r.testBit i <;> cases t.testBit i <;> rfl

theorem crcEntryStep_xor (a b : Nat) :
    crcEntryStep (a ^^^ b) = crcEntryStep a ^^^ crcEntryStep b := by
  have hd : (a ^^^ b) >>> 1 = a >>> 1 ^^^ b >>> 1 := xor_shiftRight a b 1
  have hab : (a ^^^ b) &&& 1 = (a &&& 1) ^^^ (b &&& 1) := Nat.and_xor_distrib_right
  have hpa : a &&& 1 = a % 2 := Nat.and_one_is_mod ..
  have hpb : b &&& 1 = b % 2 := Nat.and_one_is_mod ..
  have ha2 : a % 2 = 0 ∨ a % 2 = 1 := by omega
  have hb2 : b % 2 = 0 ∨ b % 2 = 1 := by omega
  unfold crcEntryStep
  rcases ha2 with ha | ha <;> rcases hb2 with hb | hb
  · rw [if_neg (by rw [hab, hpa, hpb, ha, hb]; decide),
        if_neg (by rw [hpa, ha]; decide), if_neg (by rw [hpb, hb]; decide), hd]
  · rw [if_pos (by rw [hab, hpa, hpb, ha, hb]; decide),
        if_neg (by rw [hpa, ha]; decide), if_pos (by rw [hpb, hb]; decide), hd]
    rw [Nat.xor_assoc]
  · rw [if_pos (by rw [hab, hpa, hpb, ha, hb]; decide),
        if_pos (by rw [hpa, ha]; decide), if_neg (by rw [hpb, hb]; decide), hd]
    rw [show a >>> 1 ^^^ b >>> 1 ^^^ CRC32C_POLYNOMIAL =
          (a >>> 1 ^^^ CRC32C_POLYNOMIAL) ^^^ (b >>> 1 ^^^ 0) from by
        rw [xor4, Nat.xor_zero], Nat.xor_zero]
  · rw [if_neg (by rw [hab, hpa, hpb, ha, hb]; decide),
        if_pos (by rw [hpa, ha]; decide), if_pos (by rw [hpb, hb]; decide), hd]
    rw [xor4, Nat.xor_self, Nat.xor_zero]

theorem crcEntryIter_xor (j a b : Nat) :
    crcEntryIter j (a ^^^ b) = crcEntryIter j a ^^^ crcEntryIter j b := by
  induction j generalizing a b with
  | zero => rfl
  | succ j ih =>
      show crcEntryIter j (crcEntryStep (a ^^^ b)) = _
      rw [crcEntryStep_xor]
      exact ih _ _

theorem crc32cTable_xor (a b : Nat) :
    crc32cTable (a ^^^ b) = crc32cTable a ^^^ crc32cTable b :=
  crcEntryIter_xor 8 a b

theorem crc32cTable_zero : crc32cTable 0 = 0 := by decide

theorem crc32cTable_ge : ∀ d, d < 256 → d ≠ 0 → 2 ^ 24 ≤ crc32cTable d := by decide

theorem crcStep_delta (s s' c : Nat) :
    crcStep s c ^^^ crcStep s' c =
      ((s ^^^ s') >>> 8) ^^^ crc32cTable ((s ^^^ s') &&& 0xFF) := by
  unfold crcStep
  rw [xor4, ← xor_shiftRight, ← crc32cTable_xor]
  have h1 : (s ^^^ c) &&& 0xFF ^^^ (s' ^^^ c) &&& 0xFF = (s ^^^ s') &&& 0xFF := by
    rw [← Nat.and_xor_distrib_right]
    have h2 : (s ^^^ c) ^^^ (s' ^^^ c) = (s ^^^ s') ^^^ (c ^^^ c) := xor4 s c s' c
    rw [h2, Nat.xor_self, Nat.xor_zero]
  rw [h1]

theorem crcStep_byte_delta (s b b' : Nat) :
    crcStep s b ^^^ crcStep s b' = crc32cTable ((b ^^^ b') &&& 0xFF) := by
  unfold crcStep
  rw [xor4, Nat.xor_self, Nat.zero_xor, ← crc32cTable_xor]
  have h1 : (s ^^^ b) &&& 0xFF ^^^ (s ^^^ b') &&& 0xFF = (b ^^^ b') &&& 0xFF := by
    rw [← Nat.and_xor_distrib_right]
    have h2 : (s ^^^ b) ^^^ (s ^^^ b') = (s ^^^ s) ^^^ (b ^^^ b') := xor4 s b s b'
    rw [h2, Nat.xor_self, Nat.zero_xor]
  rw [h1]

theorem crc_delta_ne (d : Nat) (hlt : d < 2 ^ 32) (hne : d ≠ 0) :
    (d >>> 8) ^^^ crc32cTable (d &&& 0xFF) ≠ 0 := by
  intro h0
  have heq : d >>> 8 = crc32cTable (d &&& 0xFF) := Nat.xor_eq_zero.mp h0
  have hlow : d &&& 0xFF < 256 := lt_of_le_of_lt Nat.and_le_right (by norm_num)
  have hsh : d >>> 8 < 2 ^ 24 := by
    rw [Nat.shiftRight_eq_div_pow]
    omega
  by_cases hl : d &&& 0xFF = 0
  · rw [hl, crc32cTable_zero] at heq
    rw [Nat.shiftRight_eq_div_pow] at heq
    rw [show (0xFF : Nat) = 2 ^ 8 - 1 from rfl, Nat.and_pow_two_sub_one_eq_mod] at hl
    omega
  · have := crc32cTable_ge _ hlow hl
    omega

theorem crcFold_cons (s c : Nat) (l : List Nat) :
    crcFold s (c :: l) = crcFold (crcStep s c) l := rfl

theorem crcFold_ne (suf : List Nat) : ∀ s s', s < 2 ^ 32 → s' < 2 ^ 32 → s ≠ s' →
    crcFold s suf ≠ crcFold s' suf := by
  induction suf with
  | nil => intro s s' _ _ hne; exact hne
  | cons c rest ih =>
      intro s s' hs hs' hne
      rw [crcFold_cons, crcFold_cons]
      apply ih (crcStep s c) (crcStep s' c) (crcStep_lt s c hs) (crcStep_lt s' c hs')
      intro heq
      have h0 : crcStep s c ^^^ crcStep s' c = 0 := by rw [heq, Nat.xor_self]
      rw [crcStep_delta] at h0
      exact crc_delta_ne (s ^^^ s') (Nat.xor_lt_two_pow hs hs')
        (fun h => hne (Nat.xor_eq_zero.mp h)) h0

theorem crcFold_append (s : Nat) (l1 l2 : List Nat) :
    crcFold s (l1 ++ l2) = crcFold (crcFold s l1) l2 := by
  induction l1 generalizing s with
  | nil => rfl
  | cons c rest ih =>
      rw [List.cons_append, crcFold_cons, crcFold_cons]
      exact ih _

/-- Changing one byte of the data (by a nonzero xor-delta below 256)
always changes the CRC32C value. -/
theorem crc32c_flip_ne (pre suf : List Nat) (b d : Nat) (hd : d ≠ 0) (hd2 : d < 256) :
    crc32c (pre ++ b :: suf) ≠ crc32c (pre ++ (b ^^^ d) :: suf) := by
  unfold crc32c crc32c_sw
  intro h
  have h2 : crcFold 0xFFFFFFFF (pre ++ b :: suf) =
      crcFold 0xFFFFFFFF (pre ++ (b ^^^ d) :: suf) := by
    have h3 := congrArg (fun x => x ^^^ 0xFFFFFFFF) h
    simpa [Nat.xor_assoc, Nat.xor_self, Nat.xor_zero] using h3
  rw [crcFold_append, crcFold_append, crcFold_cons, crcFold_cons] at h2
  have hs1 : crcFold 0xFFFFFFFF pre < 2 ^ 32 := crcFold_lt pre _ (by norm_num)
  refine crcFold_ne suf _ _ (crcStep_lt _ _ hs1) (crcStep_lt _ _ hs1) ?_ h2
  intro heq
  have h0 : crcStep (crcFold 0xFFFFFFFF pre) b ^^^
      crcStep (crcFold 0xFFFFFFFF pre) (b ^^^ d) = 0 := by rw [heq, Nat.xor_self]
  rw [crcStep_byte_delta] at h0
  have hbd : b ^^^ (b ^^^ d) = d := by rw [← Nat.xor_assoc, Nat.xor_self, Nat.zero_xor]
  rw [hbd] at h0
  have hdand : d &&& 0xFF = d := by
    rw [show (0xFF : Nat) = 2 ^ 8 - 1 from rfl, Nat.and_pow_two_sub_one_eq_mod]
    exact Nat.mod_eq_of_lt hd2
  rw [hdand] at h0
  have := crc32cTable_ge d hd2 hd
  omega

/-! ## Slice and little-endian helper lemmas -/

/-- Slicing out the middle block of a three-part concatenation. -/
theorem sliceL_infix (pre mid rest : List Nat) (off en : Nat)
    (hoff : off = pre.length) (hen : en = off + mid.length) :
    sliceL (pre ++ (mid ++ rest)) off en = mid := by
  subst hoff hen
  unfold sliceL
  rw [List.drop_left, Nat.add_sub_cancel_left]
  exact List.take_left mid rest

/-- A little-endian value determines each byte: changing one byte (the
rest of the string unchanged) changes the value. -/
theorem leVal_flip_ne (X Y : List Nat) (b b' : Nat)
    (hne : b ≠ b') : leVal (X ++ b :: Y) ≠ leVal (X ++ b' :: Y) := by
  induction X with
  | nil =>
      intro h
      have h1 : leVal ([] ++ b :: Y) = b + 256 * leVal Y := rfl
      have h2 : leVal ([] ++ b' :: Y) = b' + 256 * leVal Y := rfl
      rw [h1, h2] at h
      omega
  | cons a rest ih =>
      intro h
      apply ih
      have h1 : leVal ((a :: rest) ++ b :: Y) = a + 256 * leVal (rest ++ b :: Y) := rfl
      have h2 : leVal ((a :: rest) ++ b' :: Y) = a + 256 * leVal (rest ++ b' :: Y) := rfl
      rw [h1, h2] at h
      omega

/-- A slice that avoids the changed byte is unchanged. -/
theorem sliceL_flip_agree (P S : List Nat) (b b' a e : Nat)
    (h : e ≤ P.length ∨ P.length < a) :
    sliceL (P ++ b :: S) a e = sliceL (P ++ b' :: S) a e := by
  rcases h with h | h
  · rw [sliceL_eq_drop_take, sliceL_eq_drop_take,
        List.take_append_of_le_length h, List.take_append_of_le_length h]
  · unfold sliceL
    have hd : ∀ c : Nat, (P ++ c :: S).drop a = S.drop (a - P.length - 1) := by
      intro c
      have h2 : P ++ c :: S = (P ++ [c]) ++ S := by simp
      have h3 : ((P ++ [c]) ++ S).drop ((P ++ [c]).length + (a - P.length - 1)) =
          S.drop (a - P.length - 1) := List.drop_append ..
      calc (P ++ c :: S).drop a
          = ((P ++ [c]) ++ S).drop ((P ++ [c]).length + (a - P.length - 1)) := by
            rw [← h2]
            exact congrArg (fun n => List.drop n (P ++ c :: S)) (by simp; omega)
        _ = S.drop (a - P.length - 1) := h3
    rw [hd b, hd b']

theorem getD_flip_agree (P S : List Nat) (b b' i : Nat) (h : i < P.length) :
    (P ++ b :: S).getD i 0 = (P ++ b' :: S).getD i 0 := by
  rw [getD_append_left _ h, getD_append_left _ h]

/-! ## Frame header decode: inversion and construction -/

/-- What a successful `FrameHeader::decode` tells us about the header. -/
theorem decode_ok_inv {buf : List Nat} {h : FrameHeader}
    (hd : FrameHeader.decode buf = .ok h) :
    16 ≤ buf.length ∧ h.validate = .ok () ∧
    h.magic = leVal (sliceL buf 0 2) ∧ h.ver = buf.getD 2 0 ∧ h.flags = buf.getD 3 0 ∧
    h.msg_type = leVal (sliceL buf 4 6) ∧ h.seq = leVal (sliceL buf 6 10) ∧
    h.len = leVal (sliceL buf 10 14) := by
  by_cases hlen : buf.length < FrameHeader.SIZE
  · rw [FrameHeader.decode, if_pos hlen] at hd
    exact absurd hd (by simp)
  · rw [FrameHeader.decode, if_neg hlen] at hd
    simp only at hd
    split at hd
    · exact absurd hd (by simp)
    · rename_i u hv
      injection hd with hh
      refine ⟨by unfold FrameHeader.SIZE at hlen; omega, ?_, ?_, ?_, ?_, ?_, ?_, ?_⟩ <;>
        rw [← hh]
      rw [hv]

/-- `validate = Ok` pins down magic, version, the reserved flag bits and
the length range. -/
theorem validate_ok_inv {h : FrameHeader} (hv : h.validate = .ok ()) :
    h.magic = FRAME_MAGIC ∧ h.ver = 1 ∧ h.flags &&& 0xF8 = 0 ∧
    18 ≤ 16 + h.len + 4 ∧ 16 + h.len + 4 ≤ MAX_FRAME_SIZE := by
  unfold FrameHeader.validate at hv
  by_cases h1 : h.magic ≠ FRAME_MAGIC
  · rw [if_pos h1] at hv; exact absurd hv (by simp)
  rw [if_neg h1] at hv
  by_cases h2 : h.ver ≠ 1
  · rw [if_pos h2] at hv; exact absurd hv (by simp)
  rw [if_neg h2] at hv
  by_cases h3 : h.flags &&& 0xF8 ≠ 0
  · rw [if_pos h3] at hv; exact absurd hv (by simp)
  rw [if_neg h3] at hv
  simp only at hv
  by_cases h4 : h.len + FrameHeader.SIZE + 4 < MIN_FRAME_SIZE ∨
      h.len + FrameHeader.SIZE + 4 > MAX_FRAME_SIZE
  · rw [if_pos h4] at hv; exact absurd hv (by simp)
  · push_neg at h1 h2 h3
    push_neg at h4
    unfold FrameHeader.SIZE MIN_FRAME_SIZE at h4
    exact ⟨h1, h2, h3, by omega, by omega⟩

/-- `FrameHeader::decode` on an explicit 16-byte prefix. -/
theorem decode_cons (a0 a1 a2 a3 a4 a5 a6 a7 a8 a9 a10 a11 a12 a13 a14 a15 : Nat)
    (tail : List Nat) :
    FrameHeader.decode (a0 :: a1 :: a2 :: a3 :: a4 :: a5 :: a6 :: a7 :: a8 :: a9 ::
        a10 :: a11 :: a12 :: a13 :: a14 :: a15 :: tail) =
      match (FrameHeader.mk (a0 + 256 * (a1 + 256 * 0)) a2 a3 (a4 + 256 * (a5 + 256 * 0))
          (a6 + 256 * (a7 + 256 * (a8 + 256 * (a9 + 256 * 0))))
          (a10 + 256 * (a11 + 256 * (a12 + 256 * (a13 + 256 * 0))))).validate with
      | .error e => .error e
      | .ok _ => .ok (FrameHeader.mk (a0 + 256 * (a1 + 256 * 0)) a2 a3
          (a4 + 256 * (a5 + 256 * 0))
          (a6 + 256 * (a7 + 256 * (a8 + 256 * (a9 + 256 * 0))))
          (a10 + 256 * (a11 + 256 * (a12 + 256 * (a13 + 256 * 0))))) := by
  unfold FrameHeader.decode
  rw [if_neg (by simp [FrameHeader.SIZE])]
  rfl

/-- Decoding a buffer that starts with `headerBytes h` recovers `h`
(when the fields are in range and `h` validates). -/
theorem decode_of_headerBytes (h : FrameHeader) (tail : List Nat)
    (hm : h.magic < 2 ^ 16) (hv : h.ver < 2 ^ 8) (hf : h.flags < 2 ^ 8)
    (hmt : h.msg_type < 2 ^ 16) (hs : h.seq < 2 ^ 32) (hl : h.len < 2 ^ 32)
    (hok : h.validate = .ok ()) :
    FrameHeader.decode (FrameHeader.headerBytes h ++ tail) = .ok h := by
  obtain ⟨m, vr, fl, mt, sq, ln⟩ := h
  simp only [FrameHeader.magic, FrameHeader.ver, FrameHeader.flags, FrameHeader.msg_type,
    FrameHeader.seq, FrameHeader.len] at hm hv hf hmt hs hl
  have hb : FrameHeader.headerBytes ⟨m, vr, fl, mt, sq, ln⟩ ++ tail =
      m % 256 :: m / 256 % 256 :: vr % 256 :: fl % 256 ::
      mt % 256 :: mt / 256 % 256 ::
      sq % 256 :: sq / 256 % 256 :: sq / 256 / 256 % 256 :: sq / 256 / 256 / 256 % 256 ::
      ln % 256 :: ln / 256 % 256 :: ln / 256 / 256 % 256 :: ln / 256 / 256 / 256 % 256 ::
      0 :: 0 :: tail := by
    simp [FrameHeader.headerBytes, leBytes]
  rw [hb, decode_cons]
  have hrec : FrameHeader.mk (m % 256 + 256 * (m / 256 % 256 + 256 * 0)) (vr % 256) (fl % 256)
      (mt % 256 + 256 * (mt / 256 % 256 + 256 * 0))
      (sq % 256 + 256 * (sq / 256 % 256 + 256 * (sq / 256 / 256 % 256 +
        256 * (sq / 256 / 256 / 256 % 256 + 256 * 0))))
      (ln % 256 + 256 * (ln / 256 % 256 + 256 * (ln / 256 / 256 % 256 +
        256 * (ln / 256 / 256 / 256 % 256 + 256 * 0)))) = ⟨m, vr, fl, mt, sq, ln⟩ := by
    simp only [FrameHeader.mk.injEq]
    refine ⟨by omega, by omega, by omega, by omega, by omega, by omega⟩
  rw [hrec, hok]

/-! ## Decoding a well-formed frame -/

theorem length_mkFrame (h : FrameHeader) (body : List Nat) :
    (mkFrame h body).length = 16 + body.length + 4 := by
  simp [mkFrame, length_headerBytes]
  omega

theorem mkFrame_assoc (h : FrameHeader) (body extra : List Nat) :
    mkFrame h body ++ extra =
      FrameHeader.headerBytes {h with len := body.length} ++
        (body ++
          (leBytes 4 (crc32c (FrameHeader.headerBytes {h with len := body.length} ++ body)) ++
            extra)) := by
  simp [mkFrame, List.append_assoc]

theorem sliceL_prefix (X Y : List Nat) (n : Nat) (hn : n = X.length) :
    sliceL (X ++ Y) 0 n = X := by
  subst hn
  unfold sliceL
  rw [List.drop_zero, Nat.sub_zero]
  exact List.take_left X Y

theorem decode_mkFrame (h : FrameHeader) (body extra : List Nat)
    (hm : h.magic < 2 ^ 16) (hv : h.ver < 2 ^ 8) (hf : h.flags < 2 ^ 8)
    (hmt : h.msg_type < 2 ^ 16) (hs : h.seq < 2 ^ 32)
    (hok : ({h with len := body.length} : FrameHeader).validate = .ok ()) :
    FrameHeader.decode (mkFrame h body ++ extra) = .ok {h with len := body.length} := by
  have hb := (validate_ok_inv hok).2.2.2.2
  have hb' : 16 + body.length + 4 ≤ MAX_FRAME_SIZE := hb
  rw [mkFrame_assoc]
  exact decode_of_headerBytes {h with len := body.length} _ hm hv hf hmt hs
    (show body.length < 2 ^ 32 from by unfold MAX_FRAME_SIZE at hb'; omega) hok

theorem verify_mkFrame (h : FrameHeader) (body extra : List Nat)
    (hm : h.magic < 2 ^ 16) (hv : h.ver < 2 ^ 8) (hf : h.flags < 2 ^ 8)
    (hmt : h.msg_type < 2 ^ 16) (hs : h.seq < 2 ^ 32)
    (hok : ({h with len := body.length} : FrameHeader).validate = .ok ()) :
    FrameDecoder.verify_crc32c (mkFrame h body ++ extra) = .ok () := by
  unfold FrameDecoder.verify_crc32c
  rw [decode_mkFrame h body extra hm hv hf hmt hs hok]
  dsimp only
  have htot : ({h with len := body.length} : FrameHeader).total_size =
      16 + body.length + 4 := rfl
  rw [htot]
  rw [verifyWithTotal_eq _ _ _ (by omega)
    (by simp [mkFrame, length_headerBytes]; try omega)]
  have hshape : mkFrame h body ++ extra =
      (FrameHeader.headerBytes {h with len := body.length} ++ body) ++
        (leBytes 4 (crc32c (FrameHeader.headerBytes {h with len := body.length} ++ body)) ++
          extra) := by
    simp [mkFrame, List.append_assoc]
  have hfd : sliceL (mkFrame h body ++ extra) 0 (16 + body.length + 4 - 4) =
      FrameHeader.headerBytes {h with len := body.length} ++ body := by
    rw [hshape]
    exact sliceL_prefix _ _ _ (by simp [length_headerBytes]; try omega)
  have hcb : sliceL (mkFrame h body ++ extra) (16 + body.length + 4 - 4)
      (16 + body.length + 4) =
      leBytes 4 (crc32c (FrameHeader.headerBytes {h with len := body.length} ++ body)) := by
    rw [hshape]
    have := sliceL_infix
      (FrameHeader.headerBytes {h with len := body.length} ++ body)
      (leBytes 4 (crc32c (FrameHeader.headerBytes {h with len := body.length} ++ body)))
      extra (16 + body.length + 4 - 4) (16 + body.length + 4)
      (by simp [length_headerBytes]; try omega) (by simp; try omega)
    rw [← List.append_assoc] at this
    rw [← List.append_assoc]
    exact this
  rw [hfd, hcb, leVal_leBytes (show crc32c _ < 2 ^ (8 * 4) from by
    have := crc32c_lt (FrameHeader.headerBytes {h with len := body.length} ++ body)
    norm_num
    omega)]
  rw [if_pos rfl]

theorem body_mkFrame (h : FrameHeader) (body extra : List Nat)
    (hm : h.magic < 2 ^ 16) (hv : h.ver < 2 ^ 8) (hf : h.flags < 2 ^ 8)
    (hmt : h.msg_type < 2 ^ 16) (hs : h.seq < 2 ^ 32)
    (hok : ({h with len := body.length} : FrameHeader).validate = .ok ()) :
    FrameDecoder.body (mkFrame h body ++ extra) = .ok ⟨body, 0⟩ := by
  unfold FrameDecoder.body FrameDecoder.header
  rw [decode_mkFrame h body extra hm hv hf hmt hs hok, MRes.ofExcept_ok, MRes.bind_ok]
  have hlen : ({h with len := body.length} : FrameHeader).len = body.length := rfl
  rw [if_neg (by
    rw [hlen]
    simp [mkFrame, length_headerBytes, FrameHeader.SIZE])]
  rw [hlen]
  rw [sliceP_ok (show FrameHeader.SIZE ≤ FrameHeader.SIZE + body.length by omega)
    (by simp [mkFrame, length_headerBytes, FrameHeader.SIZE]; try omega), MRes.bind_ok]
  have hsl : sliceL (mkFrame h body ++ extra) FrameHeader.SIZE
      (FrameHeader.SIZE + body.length) = body := by
    rw [mkFrame_assoc]
    exact sliceL_infix _ _ _ _ _ (by rw [length_headerBytes]; rfl)
      (by simp [FrameHeader.SIZE])
  rw [hsl]

/-! ## Body cursor: reading from a known view of the buffer -/

theorem toI64_emod (p : Int) (h1 : -2 ^ 63 ≤ p) (h2 : p < 2 ^ 63) :
    BodyCursor.toI64 ((p % 2 ^ 64).toNat) = p := by
  unfold BodyCursor.toI64
  split <;> omega

theorem getLE_view (c : BodyCursor) (w v : Nat) (tail : List Nat)
    (hpos : c.pos ≤ c.buf.length)
    (hview : c.buf.drop c.pos = leBytes w v ++ tail)
    (hv : v < 2 ^ (8 * w)) :
    BodyCursor.getLE c w = .ok (v, { c with pos := c.pos + w }) := by
  have hlen0 := congrArg List.length hview
  simp only [List.length_drop, List.length_append, length_leBytes] at hlen0
  unfold BodyCursor.getLE
  rw [if_neg (by omega)]
  rw [sliceP_ok (by omega) (by omega), MRes.bind_ok]
  have hsl : sliceL c.buf c.pos (c.pos + w) = leBytes w v := by
    unfold sliceL
    rw [hview, Nat.add_sub_cancel_left]
    exact List.take_left' (by simp)
  rw [hsl, leVal_leBytes hv]

theorem get_u64_view (c : BodyCursor) (v : Nat) (tail : List Nat)
    (hpos : c.pos ≤ c.buf.length)
    (hview : c.buf.drop c.pos = leBytes 8 v ++ tail)
    (hv : v < 2 ^ 64) :
    BodyCursor.get_u64 c = .ok (v, { c with pos := c.pos + 8 }) :=
  getLE_view c 8 v tail hpos hview (by simpa using hv)

theorem get_u32_view (c : BodyCursor) (v : Nat) (tail : List Nat)
    (hpos : c.pos ≤ c.buf.length)
    (hview : c.buf.drop c.pos = leBytes 4 v ++ tail)
    (hv : v < 2 ^ 32) :
    BodyCursor.get_u32 c = .ok (v, { c with pos := c.pos + 4 }) :=
  getLE_view c 4 v tail hpos hview (by simpa using hv)

theorem get_bitmap_view (c : BodyCursor) (v : Nat) (tail : List Nat)
    (hpos : c.pos ≤ c.buf.length)
    (hview : c.buf.drop c.pos = leBytes 2 v ++ tail)
    (hv : v < 2 ^ 16) :
    BodyCursor.get_bitmap c = .ok (v, { c with pos := c.pos + 2 }) :=
  getLE_view c 2 v tail hpos hview (by simpa using hv)

theorem get_i64_view (c : BodyCursor) (p : Int) (tail : List Nat)
    (hpos : c.pos ≤ c.buf.length)
    (hview : c.buf.drop c.pos = leBytes 8 (p % 2 ^ 64).toNat ++ tail)
    (h1 : -2 ^ 63 ≤ p) (h2 : p < 2 ^ 63) :
    BodyCursor.get_i64 c = .ok (p, { c with pos := c.pos + 8 }) := by
  unfold BodyCursor.get_i64
  rw [get_u64_view c _ tail hpos hview (by omega), MRes.bind_ok]
  dsimp only
  rw [toI64_emod p h1 h2]

theorem get_u8_view (c : BodyCursor) (b : Nat) (tail : List Nat)
    (hpos : c.pos ≤ c.buf.length)
    (hview : c.buf.drop c.pos = b :: tail) :
    BodyCursor.get_u8 c = .ok (b, { c with pos := c.pos + 1 }) := by
  have hlen0 := congrArg List.length hview
  simp only [List.length_drop, List.length_cons] at hlen0
  unfold BodyCursor.get_u8
  rw [if_neg (by omega)]
  have hb : byteP c.buf c.pos = .ok b := by
    unfold byteP
    rw [List.get?_eq_getElem?]
    have h0 : (c.buf.drop c.pos)[0]? = some b := by rw [hview]; simp
    rw [List.getElem?_drop, Nat.add_zero] at h0
    rw [h0]
  rw [hb, MRes.bind_ok]

theorem get_varbytes_view (c : BodyCursor) (s tail : List Nat)
    (hpos : c.pos ≤ c.buf.length)
    (hview : c.buf.drop c.pos = (vlBytes s.length ++ s) ++ tail)
    (hs : s.length < 256) :
    BodyCursor.get_varbytes c =
      .ok (s, { c with pos := c.pos + (vlBytes s.length).length + s.length }) := by
  have hlen0 := congrArg List.length hview
  simp only [List.length_drop, List.length_append] at hlen0
  unfold BodyCursor.get_varbytes
  rw [sliceP_ok hpos (le_refl _), MRes.bind_ok]
  have hsl : sliceL c.buf c.pos c.buf.length = vlBytes s.length ++ (s ++ tail) := by
    have h1 : sliceL c.buf c.pos c.buf.length = c.buf.drop c.pos := by
      unfold sliceL
      apply List.take_of_length_le
      simp
    rw [h1, hview, List.append_assoc]
  rw [hsl, decodeU32_vlBytes s.length hs (s ++ tail), MRes.ofExcept_ok, MRes.bind_ok]
  dsimp only
  rw [if_neg (by omega)]
  rw [sliceP_ok (by omega) (by omega), MRes.bind_ok]
  have hsl2 : sliceL c.buf (c.pos + (vlBytes s.length).length)
      (c.pos + (vlBytes s.length).length + s.length) = s := by
    unfold sliceL
    rw [Nat.add_sub_cancel_left]
    have hd : c.buf.drop (c.pos + (vlBytes s.length).length) = s ++ tail := by
      rw [← List.drop_drop, hview, List.append_assoc]
      exact List.drop_left' rfl
    rw [hd]
    exact List.take_left s tail
  rw [hsl2]

/-! ## Closed forms of the schema decoders on well-formed frames -/

theorem validate_mk_ok (fl mt sq L : Nat) (hfl : fl &&& 0xF8 = 0)
    (hL : 16 + L + 4 ≤ MAX_FRAME_SIZE) :
    (FrameHeader.mk FRAME_MAGIC 1 fl mt sq L).validate = .ok () := by
  unfold FrameHeader.validate
  rw [if_neg (by simp), if_neg (by simp), if_neg (by simp [hfl])]
  simp only
  rw [if_neg (by unfold MIN_FRAME_SIZE MAX_FRAME_SIZE FrameHeader.SIZE at *; omega)]

set_option maxHeartbeats 2000000 in
/-- Closed form of `trade::decode` on a well-formed trade frame whose
body is the schema body followed by arbitrary extra bytes (counted in
the declared length), with arbitrary bytes after the frame. -/
theorem trade_decode_eq (seq ts_ns : Nat) (price : Int) (qty : Nat)
    (symbol note : Option (List Nat)) (junk extra : List Nat)
    (hseq : seq < 2 ^ 32) (hts : ts_ns < 2 ^ 64)
    (hp1 : -2 ^ 63 ≤ price) (hp2 : price < 2 ^ 63) (hqty : qty < 2 ^ 32)
    (hsym : ∀ s, symbol = some s → s.length < 256)
    (hnote : ∀ s, note = some s → s.length < 256)
    (hlen : (tradeBody ts_ns price qty symbol note).length + junk.length ≤
      MAX_FRAME_SIZE - 20) :
    trade.decode (mkFrame (tradeHeader seq symbol note)
        (tradeBody ts_ns price qty symbol note ++ junk) ++ extra) =
      .ok ({tradeHeader seq symbol note with
              len := (tradeBody ts_ns price qty symbol note ++ junk).length},
           ts_ns, price, qty, symbol, note) := by
  have hMAX : MAX_FRAME_SIZE = 16 * 1024 * 1024 := rfl
  rcases symbol with _ | s <;> rcases note with _ | t
  · -- symbol = none, note = none
    have hhdr : tradeHeader seq none none = FrameHeader.mk FRAME_MAGIC 1 0 TRADE_V1 seq 0 :=
      rfl
    rw [hhdr]
    have hok : ({FrameHeader.mk FRAME_MAGIC 1 0 TRADE_V1 seq 0 with
        len := (tradeBody ts_ns price qty none none ++ junk).length} :
        FrameHeader).validate = .ok () :=
      validate_mk_ok 0 TRADE_V1 seq _ (by decide)
        (by simp only [List.length_append] at *; omega)
    unfold trade.decode
    have hh : FrameDecoder.header (mkFrame (FrameHeader.mk FRAME_MAGIC 1 0 TRADE_V1 seq 0)
        (tradeBody ts_ns price qty none none ++ junk) ++ extra) =
        .ok {FrameHeader.mk FRAME_MAGIC 1 0 TRADE_V1 seq 0 with
          len := (tradeBody ts_ns price qty none none ++ junk).length} := by
      unfold FrameDecoder.header
      rw [decode_mkFrame _ _ _ (show FRAME_MAGIC < 2 ^ 16 by decide)
        (show (1 : Nat) < 2 ^ 8 by decide) (show (0 : Nat) < 2 ^ 8 by decide)
        (show TRADE_V1 < 2 ^ 16 by decide) hseq hok, MRes.ofExcept_ok]
    rw [hh]
    repeat rw [MRes.bind_ok]
    rw [if_neg (show ¬ (TRADE_V1 ≠ TRADE_V1) by decide)]
    rw [verify_mkFrame _ _ _ (show FRAME_MAGIC < 2 ^ 16 by decide)
      (show (1 : Nat) < 2 ^ 8 by decide) (show (0 : Nat) < 2 ^ 8 by decide)
      (show TRADE_V1 < 2 ^ 16 by decide) hseq hok]
    repeat rw [MRes.bind_ok]
    rw [body_mkFrame _ _ _ (show FRAME_MAGIC < 2 ^ 16 by decide)
      (show (1 : Nat) < 2 ^ 8 by decide) (show (0 : Nat) < 2 ^ 8 by decide)
      (show TRADE_V1 < 2 ^ 16 by decide) hseq hok]
    repeat rw [MRes.bind_ok]
    have hB : tradeBody ts_ns price qty none none ++ junk =
        leBytes 8 ts_ns ++ (leBytes 8 (price % 2 ^ 64).toNat ++ (leBytes 4 qty ++ junk)) := by
      simp [tradeBody, tradeOptBytes, List.append_assoc]
    have hBlen : (tradeBody ts_ns price qty none none ++ junk).length =
        20 + junk.length := by
      rw [hB]
      simp
      omega
    have e1 := get_u64_view ⟨tradeBody ts_ns price qty none none ++ junk, 0⟩ ts_ns
      (leBytes 8 (price % 2 ^ 64).toNat ++ (leBytes 4 qty ++ junk))
      (by simp) (by rw [List.drop_zero]; exact hB) hts
    rw [e1]
    repeat rw [MRes.bind_ok]
    have hd8 : (tradeBody ts_ns price qty none none ++ junk).drop (0 + 8) =
        leBytes 8 (price % 2 ^ 64).toNat ++ (leBytes 4 qty ++ junk) := by
      rw [hB]
      exact List.drop_left' (by simp)
    have e2 := get_i64_view ⟨tradeBody ts_ns price qty none none ++ junk, 0 + 8⟩ price
      (leBytes 4 qty ++ junk) (by dsimp only; rw [hBlen]; omega) hd8 hp1 hp2
    rw [e2]
    repeat rw [MRes.bind_ok]
    have hd16 : (tradeBody ts_ns price qty none none ++ junk).drop (0 + 8 + 8) =
        leBytes 4 qty ++ junk := by
      rw [show tradeBody ts_ns price qty none none ++ junk =
          (leBytes 8 ts_ns ++ leBytes 8 (price % 2 ^ 64).toNat) ++ (leBytes 4 qty ++ junk)
          from by simp [tradeBody, tradeOptBytes, List.append_assoc]]
      exact List.drop_left' (by simp)
    have e3 := get_u32_view ⟨tradeBody ts_ns price qty none none ++ junk, 0 + 8 + 8⟩ qty
      junk (by dsimp only; rw [hBlen]; omega) hd16 hqty
    rw [e3]
    repeat rw [MRes.bind_ok]
    rw [show (FrameHeader.mk FRAME_MAGIC 1 0 TRADE_V1 seq
      (tradeBody ts_ns price qty none none ++ junk).length).has_flag 0x01 = false from by
      simp only [FrameHeader.has_flag]
      decide]
    rw [if_neg (by decide)]
    repeat rw [MRes.bind_ok]
  · -- symbol = none, note = some t
    have ht : t.length < 256 := hnote t rfl
    have hhdr : tradeHeader seq none (some t) =
        FrameHeader.mk FRAME_MAGIC 1 1 TRADE_V1 seq 0 := by
      simp [tradeHeader, FrameHeader.new, FrameHeader.set_flag]
    rw [hhdr]
    have hok : ({FrameHeader.mk FRAME_MAGIC 1 1 TRADE_V1 seq 0 with
        len := (tradeBody ts_ns price qty none (some t) ++ junk).length} :
        FrameHeader).validate = .ok () :=
      validate_mk_ok 1 TRADE_V1 seq _ (by decide)
        (by simp only [List.length_append] at *; omega)
    unfold trade.decode
    have hh : FrameDecoder.header (mkFrame (FrameHeader.mk FRAME_MAGIC 1 1 TRADE_V1 seq 0)
        (tradeBody ts_ns price qty none (some t) ++ junk) ++ extra) =
        .ok {FrameHeader.mk FRAME_MAGIC 1 1 TRADE_V1 seq 0 with
          len := (tradeBody ts_ns price qty none (some t) ++ junk).length} := by
      unfold FrameDecoder.header
      rw [decode_mkFrame _ _ _ (show FRAME_MAGIC < 2 ^ 16 by decide)
        (show (1 : Nat) < 2 ^ 8 by decide) (show (1 : Nat) < 2 ^ 8 by decide)
        (show TRADE_V1 < 2 ^ 16 by decide) hseq hok, MRes.ofExcept_ok]
    rw [hh]
    repeat rw [MRes.bind_ok]
    rw [if_neg (show ¬ (TRADE_V1 ≠ TRADE_V1) by decide)]
    rw [verify_mkFrame _ _ _ (show FRAME_MAGIC < 2 ^ 16 by decide)
      (show (1 : Nat) < 2 ^ 8 by decide) (show (1 : Nat) < 2 ^ 8 by decide)
      (show TRADE_V1 < 2 ^ 16 by decide) hseq hok]
    repeat rw [MRes.bind_ok]
    rw [body_mkFrame _ _ _ (show FRAME_MAGIC < 2 ^ 16 by decide)
      (show (1 : Nat) < 2 ^ 8 by decide) (show (1 : Nat) < 2 ^ 8 by decide)
      (show TRADE_V1 < 2 ^ 16 by decide) hseq hok]
    repeat rw [MRes.bind_ok]
    have hvt := length_vlBytes_pos t.length
    have hvt2 := length_vlBytes_le t.length
    have hB : tradeBody ts_ns price qty none (some t) ++ junk =
        leBytes 8 ts_ns ++ (leBytes 8 (price % 2 ^ 64).toNat ++ (leBytes 4 qty ++
          (leBytes 2 2 ++ ((vlBytes t.length ++ t) ++ junk)))) := by
      simp [tradeBody, tradeOptBytes, vbChunk, List.append_assoc]
    have hBlen : (tradeBody ts_ns price qty none (some t) ++ junk).length =
        22 + ((vlBytes t.length).length + (t.length + junk.length)) := by
      rw [hB]
      simp
      try omega
    have e1 := get_u64_view ⟨tradeBody ts_ns price qty none (some t) ++ junk, 0⟩ ts_ns
      (leBytes 8 (price % 2 ^ 64).toNat ++ (leBytes 4 qty ++
        (leBytes 2 2 ++ ((vlBytes t.length ++ t) ++ junk))))
      (by simp) (by rw [List.drop_zero]; exact hB) hts
    rw [e1]
    repeat rw [MRes.bind_ok]
    have hd8 : (tradeBody ts_ns price qty none (some t) ++ junk).drop (0 + 8) =
        leBytes 8 (price % 2 ^ 64).toNat ++ (leBytes 4 qty ++
          (leBytes 2 2 ++ ((vlBytes t.length ++ t) ++ junk))) := by
      rw [hB]
      exact List.drop_left' (by simp)
    have e2 := get_i64_view ⟨tradeBody ts_ns price qty none (some t) ++ junk, 0 + 8⟩ price
      (leBytes 4 qty ++ (leBytes 2 2 ++ ((vlBytes t.length ++ t) ++ junk)))
      (by dsimp only; rw [hBlen]; omega) hd8 hp1 hp2
    rw [e2]
    repeat rw [MRes.bind_ok]
    have hd16 : (tradeBody ts_ns price qty none (some t) ++ junk).drop (0 + 8 + 8) =
        leBytes 4 qty ++ (leBytes 2 2 ++ ((vlBytes t.length ++ t) ++ junk)) := by
      rw [show tradeBody ts_ns price qty none (some t) ++ junk =
          (leBytes 8 ts_ns ++ leBytes 8 (price % 2 ^ 64).toNat) ++ (leBytes 4 qty ++
            (leBytes 2 2 ++ ((vlBytes t.length ++ t) ++ junk)))
          from by simp [tradeBody, tradeOptBytes, vbChunk, List.append_assoc]]
      exact List.drop_left' (by simp)
    have e3 := get_u32_view ⟨tradeBody ts_ns price qty none (some t) ++ junk, 0 + 8 + 8⟩ qty
      (leBytes 2 2 ++ ((vlBytes t.length ++ t) ++ junk)) (by dsimp only; rw [hBlen]; omega) hd16 hqty
    rw [e3]
    repeat rw [MRes.bind_ok]
    rw [show (FrameHeader.mk FRAME_MAGIC 1 1 TRADE_V1 seq
      (tradeBody ts_ns price qty none (some t) ++ junk).length).has_flag 0x01 = true from by
      simp only [FrameHeader.has_flag]
      decide]
    rw [if_pos rfl]
    have hd20 : (tradeBody ts_ns price qty none (some t) ++ junk).drop (0 + 8 + 8 + 4) =
        leBytes 2 2 ++ ((vlBytes t.length ++ t) ++ junk) := by
      rw [show tradeBody ts_ns price qty none (some t) ++ junk =
          (leBytes 8 ts_ns ++ leBytes 8 (price % 2 ^ 64).toNat ++ leBytes 4 qty) ++
            (leBytes 2 2 ++ ((vlBytes t.length ++ t) ++ junk))
          from by simp [tradeBody, tradeOptBytes, vbChunk, List.append_assoc]]
      exact List.drop_left' (by simp)
    have e4 := get_bitmap_view ⟨tradeBody ts_ns price qty none (some t) ++ junk,
      0 + 8 + 8 + 4⟩ 2 ((vlBytes t.length ++ t) ++ junk) (by dsimp only; rw [hBlen]; omega) hd20
      (by decide)
    rw [e4]
    repeat rw [MRes.bind_ok]
    rw [if_neg (show ¬ ((2 : Nat) &&& 1 <<< trade.SYMBOL ≠ 0) from by decide)]
    repeat rw [MRes.bind_ok]
    rw [if_pos (show ((2 : Nat) &&& 1 <<< trade.NOTE ≠ 0) from by decide)]
    have hd22 : (tradeBody ts_ns price qty none (some t) ++ junk).drop (0 + 8 + 8 + 4 + 2) =
        (vlBytes t.length ++ t) ++ junk := by
      rw [show tradeBody ts_ns price qty none (some t) ++ junk =
          (leBytes 8 ts_ns ++ leBytes 8 (price % 2 ^ 64).toNat ++ leBytes 4 qty ++
            leBytes 2 2) ++ ((vlBytes t.length ++ t) ++ junk)
          from by simp [tradeBody, tradeOptBytes, vbChunk, List.append_assoc]]
      exact List.drop_left' (by simp)
    have e5 := get_varbytes_view ⟨tradeBody ts_ns price qty none (some t) ++ junk,
      0 + 8 + 8 + 4 + 2⟩ t junk (by dsimp only; rw [hBlen]; omega) hd22 ht
    rw [e5]
    repeat rw [MRes.bind_ok]
  · -- symbol = some s, note = none
    have hsl : s.length < 256 := hsym s rfl
    have hhdr : tradeHeader seq (some s) none =
        FrameHeader.mk FRAME_MAGIC 1 1 TRADE_V1 seq 0 := by
      simp [tradeHeader, FrameHeader.new, FrameHeader.set_flag]
    rw [hhdr]
    have hok : ({FrameHeader.mk FRAME_MAGIC 1 1 TRADE_V1 seq 0 with
        len := (tradeBody ts_ns price qty (some s) none ++ junk).length} :
        FrameHeader).validate = .ok () :=
      validate_mk_ok 1 TRADE_V1 seq _ (by decide)
        (by simp only [List.length_append] at *; omega)
    unfold trade.decode
    have hh : FrameDecoder.header (mkFrame (FrameHeader.mk FRAME_MAGIC 1 1 TRADE_V1 seq 0)
        (tradeBody ts_ns price qty (some s) none ++ junk) ++ extra) =
        .ok {FrameHeader.mk FRAME_MAGIC 1 1 TRADE_V1 seq 0 with
          len := (tradeBody ts_ns price qty (some s) none ++ junk).length} := by
      unfold FrameDecoder.header
      rw [decode_mkFrame _ _ _ (show FRAME_MAGIC < 2 ^ 16 by decide)
        (show (1 : Nat) < 2 ^ 8 by decide) (show (1 : Nat) < 2 ^ 8 by decide)
        (show TRADE_V1 < 2 ^ 16 by decide) hseq hok, MRes.ofExcept_ok]
    rw [hh]
    repeat rw [MRes.bind_ok]
    rw [if_neg (show ¬ (TRADE_V1 ≠ TRADE_V1) by decide)]
    rw [verify_mkFrame _ _ _ (show FRAME_MAGIC < 2 ^ 16 by decide)
      (show (1 : Nat) < 2 ^ 8 by decide) (show (1 : Nat) < 2 ^ 8 by decide)
      (show TRADE_V1 < 2 ^ 16 by decide) hseq hok]
    repeat rw [MRes.bind_ok]
    rw [body_mkFrame _ _ _ (show FRAME_MAGIC < 2 ^ 16 by decide)
      (show (1 : Nat) < 2 ^ 8 by decide) (show (1 : Nat) < 2 ^ 8 by decide)
      (show TRADE_V1 < 2 ^ 16 by decide) hseq hok]
    repeat rw [MRes.bind_ok]
    have hvs := length_vlBytes_pos s.length
    have hvs2 := length_vlBytes_le s.length
    have hB : tradeBody ts_ns price qty (some s) none ++ junk =
        leBytes 8 ts_ns ++ (leBytes 8 (price % 2 ^ 64).toNat ++ (leBytes 4 qty ++
          (leBytes 2 1 ++ ((vlBytes s.length ++ s) ++ junk)))) := by
      simp [tradeBody, tradeOptBytes, vbChunk, List.append_assoc]
    have hBlen : (tradeBody ts_ns price qty (some s) none ++ junk).length =
        22 + ((vlBytes s.length).length + (s.length + junk.length)) := by
      rw [hB]
      simp
      try omega
    have e1 := get_u64_view ⟨tradeBody ts_ns price qty (some s) none ++ junk, 0⟩ ts_ns
      (leBytes 8 (price % 2 ^ 64).toNat ++ (leBytes 4 qty ++
        (leBytes 2 1 ++ ((vlBytes s.length ++ s) ++ junk))))
      (by simp) (by rw [List.drop_zero]; exact hB) hts
    rw [e1]
    repeat rw [MRes.bind_ok]
    have hd8 : (tradeBody ts_ns price qty (some s) none ++ junk).drop (0 + 8) =
        leBytes 8 (price % 2 ^ 64).toNat ++ (leBytes 4 qty ++
          (leBytes 2 1 ++ ((vlBytes s.length ++ s) ++ junk))) := by
      rw [hB]
      exact List.drop_left' (by simp)
    have e2 := get_i64_view ⟨tradeBody ts_ns price qty (some s) none ++ junk, 0 + 8⟩ price
      (leBytes 4 qty ++ (leBytes 2 1 ++ ((vlBytes s.length ++ s) ++ junk)))
      (by dsimp only; rw [hBlen]; omega) hd8 hp1 hp2
    rw [e2]
    repeat rw [MRes.bind_ok]
    have hd16 : (tradeBody ts_ns price qty (some s) none ++ junk).drop (0 + 8 + 8) =
        leBytes 4 qty ++ (leBytes 2 1 ++ ((vlBytes s.length ++ s) ++ junk)) := by
      rw [show tradeBody ts_ns price qty (some s) none ++ junk =
          (leBytes 8 ts_ns ++ leBytes 8 (price % 2 ^ 64).toNat) ++ (leBytes 4 qty ++
            (leBytes 2 1 ++ ((vlBytes s.length ++ s) ++ junk)))
          from by simp [tradeBody, tradeOptBytes, vbChunk, List.append_assoc]]
      exact List.drop_left' (by simp)
    have e3 := get_u32_view ⟨tradeBody ts_ns price qty (some s) none ++ junk, 0 + 8 + 8⟩ qty
      (leBytes 2 1 ++ ((vlBytes s.length ++ s) ++ junk)) (by dsimp only; rw [hBlen]; omega) hd16 hqty
    rw [e3]
    repeat rw [MRes.bind_ok]
    rw [show (FrameHeader.mk FRAME_MAGIC 1 1 TRADE_V1 seq
      (tradeBody ts_ns price qty (some s) none ++ junk).length).has_flag 0x01 = true from by
      simp only [FrameHeader.has_flag]
      decide]
    rw [if_pos rfl]
    have hd20 : (tradeBody ts_ns price qty (some s) none ++ junk).drop (0 + 8 + 8 + 4) =
        leBytes 2 1 ++ ((vlBytes s.length ++ s) ++ junk) := by
      rw [show tradeBody ts_ns price qty (some s) none ++ junk =
          (leBytes 8 ts_ns ++ leBytes 8 (price % 2 ^ 64).toNat ++ leBytes 4 qty) ++
            (leBytes 2 1 ++ ((vlBytes s.length ++ s) ++ junk))
          from by simp [tradeBody, tradeOptBytes, vbChunk, List.append_assoc]]
      exact List.drop_left' (by simp)
    have e4 := get_bitmap_view ⟨tradeBody ts_ns price qty (some s) none ++ junk,
      0 + 8 + 8 + 4⟩ 1 ((vlBytes s.length ++ s) ++ junk) (by dsimp only; rw [hBlen]; omega) hd20
      (by decide)
    rw [e4]
    repeat rw [MRes.bind_ok]
    rw [if_pos (show ((1 : Nat) &&& 1 <<< trade.SYMBOL ≠ 0) from by decide)]
    have hd22 : (tradeBody ts_ns price qty (some s) none ++ junk).drop (0 + 8 + 8 + 4 + 2) =
        (vlBytes s.length ++ s) ++ junk := by
      rw [show tradeBody ts_ns price qty (some s) none ++ junk =
          (leBytes 8 ts_ns ++ leBytes 8 (price % 2 ^ 64).toNat ++ leBytes 4 qty ++
            leBytes 2 1) ++ ((vlBytes s.length ++ s) ++ junk)
          from by simp [tradeBody, tradeOptBytes, vbChunk, List.append_assoc]]
      exact List.drop_left' (by simp)
    have e5 := get_varbytes_view ⟨tradeBody ts_ns price qty (some s) none ++ junk,
      0 + 8 + 8 + 4 + 2⟩ s junk (by dsimp only; rw [hBlen]; omega) hd22 hsl
    rw [e5]
    repeat rw [MRes.bind_ok]
    rw [if_neg (show ¬ ((1 : Nat) &&& 1 <<< trade.NOTE ≠ 0) from by decide)]
    repeat rw [MRes.bind_ok]
  · -- symbol = some s, note = some t
    have hsl : s.length < 256 := hsym s rfl
    have htl : t.length < 256 := hnote t rfl
    have hhdr : tradeHeader seq (some s) (some t) =
        FrameHeader.mk FRAME_MAGIC 1 1 TRADE_V1 seq 0 := by
      simp [tradeHeader, FrameHeader.new, FrameHeader.set_flag]
    rw [hhdr]
    have hok : ({FrameHeader.mk FRAME_MAGIC 1 1 TRADE_V1 seq 0 with
        len := (tradeBody ts_ns price qty (some s) (some t) ++ junk).length} :
        FrameHeader).validate = .ok () :=
      validate_mk_ok 1 TRADE_V1 seq _ (by decide)
        (by simp only [List.length_append] at *; omega)
    unfold trade.decode
    have hh : FrameDecoder.header (mkFrame (FrameHeader.mk FRAME_MAGIC 1 1 TRADE_V1 seq 0)
        (tradeBody ts_ns price qty (some s) (some t) ++ junk) ++ extra) =
        .ok {FrameHeader.mk FRAME_MAGIC 1 1 TRADE_V1 seq 0 with
          len := (tradeBody ts_ns price qty (some s) (some t) ++ junk).length} := by
      unfold FrameDecoder.header
      rw [decode_mkFrame _ _ _ (show FRAME_MAGIC < 2 ^ 16 by decide)
        (show (1 : Nat) < 2 ^ 8 by decide) (show (1 : Nat) < 2 ^ 8 by decide)
        (show TRADE_V1 < 2 ^ 16 by decide) hseq hok, MRes.ofExcept_ok]
    rw [hh]
    repeat rw [MRes.bind_ok]
    rw [if_neg (show ¬ (TRADE_V1 ≠ TRADE_V1) by decide)]
    rw [verify_mkFrame _ _ _ (show FRAME_MAGIC < 2 ^ 16 by decide)
      (show (1 : Nat) < 2 ^ 8 by decide) (show (1 : Nat) < 2 ^ 8 by decide)
      (show TRADE_V1 < 2 ^ 16 by decide) hseq hok]
    repeat rw [MRes.bind_ok]
    rw [body_mkFrame _ _ _ (show FRAME_MAGIC < 2 ^ 16 by decide)
      (show (1 : Nat) < 2 ^ 8 by decide) (show (1 : Nat) < 2 ^ 8 by decide)
      (show TRADE_V1 < 2 ^ 16 by decide) hseq hok]
    repeat rw [MRes.bind_ok]
    have hvs := length_vlBytes_pos s.length
    have hvs2 := length_vlBytes_le s.length
    have hvt := length_vlBytes_pos t.length
    have hvt2 := length_vlBytes_le t.length
    have hB : tradeBody ts_ns price qty (some s) (some t) ++ junk =
        leBytes 8 ts_ns ++ (leBytes 8 (price % 2 ^ 64).toNat ++ (leBytes 4 qty ++
          (leBytes 2 3 ++ ((vlBytes s.length ++ s) ++ ((vlBytes t.length ++ t) ++ junk))))) := by
      simp [tradeBody, tradeOptBytes, vbChunk, List.append_assoc]
    have hBlen : (tradeBody ts_ns price qty (some s) (some t) ++ junk).length =
        22 + ((vlBytes s.length).length + (s.length +
          ((vlBytes t.length).length + (t.length + junk.length)))) := by
      rw [hB]
      simp
      try omega
    have e1 := get_u64_view ⟨tradeBody ts_ns price qty (some s) (some t) ++ junk, 0⟩ ts_ns
      (leBytes 8 (price % 2 ^ 64).toNat ++ (leBytes 4 qty ++
        (leBytes 2 3 ++ ((vlBytes s.length ++ s) ++ ((vlBytes t.length ++ t) ++ junk)))))
      (by simp) (by rw [List.drop_zero]; exact hB) hts
    rw [e1]
    repeat rw [MRes.bind_ok]
    have hd8 : (tradeBody ts_ns price qty (some s) (some t) ++ junk).drop (0 + 8) =
        leBytes 8 (price % 2 ^ 64).toNat ++ (leBytes 4 qty ++
          (leBytes 2 3 ++ ((vlBytes s.length ++ s) ++ ((vlBytes t.length ++ t) ++ junk)))) := by
      rw [hB]
      exact List.drop_left' (by simp)
    have e2 := get_i64_view ⟨tradeBody ts_ns price qty (some s) (some t) ++ junk, 0 + 8⟩
      price (leBytes 4 qty ++
        (leBytes 2 3 ++ ((vlBytes s.length ++ s) ++ ((vlBytes t.length ++ t) ++ junk))))
      (by dsimp only; rw [hBlen]; omega) hd8 hp1 hp2
    rw [e2]
    repeat rw [MRes.bind_ok]
    have hd16 : (tradeBody ts_ns price qty (some s) (some t) ++ junk).drop (0 + 8 + 8) =
        leBytes 4 qty ++
          (leBytes 2 3 ++ ((vlBytes s.length ++ s) ++ ((vlBytes t.length ++ t) ++ junk))) := by
      rw [show tradeBody ts_ns price qty (some s) (some t) ++ junk =
          (leBytes 8 ts_ns ++ leBytes 8 (price % 2 ^ 64).toNat) ++ (leBytes 4 qty ++
            (leBytes 2 3 ++ ((vlBytes s.length ++ s) ++ ((vlBytes t.length ++ t) ++ junk))))
          from by simp [tradeBody, tradeOptBytes, vbChunk, List.append_assoc]]
      exact List.drop_left' (by simp)
    have e3 := get_u32_view ⟨tradeBody ts_ns price qty (some s) (some t) ++ junk, 0 + 8 + 8⟩
      qty (leBytes 2 3 ++ ((vlBytes s.length ++ s) ++ ((vlBytes t.length ++ t) ++ junk)))
      (by dsimp only; rw [hBlen]; omega) hd16 hqty
    rw [e3]
    repeat rw [MRes.bind_ok]
    rw [show (FrameHeader.mk FRAME_MAGIC 1 1 TRADE_V1 seq
      (tradeBody ts_ns price qty (some s) (some t) ++ junk).length).has_flag 0x01 = true from by
      simp only [FrameHeader.has_flag]
      decide]
    rw [if_pos rfl]
    have hd20 : (tradeBody ts_ns price qty (some s) (some t) ++ junk).drop (0 + 8 + 8 + 4) =
        leBytes 2 3 ++ ((vlBytes s.length ++ s) ++ ((vlBytes t.length ++ t) ++ junk)) := by
      rw [show tradeBody ts_ns price qty (some s) (some t) ++ junk =
          (leBytes 8 ts_ns ++ leBytes 8 (price % 2 ^ 64).toNat ++ leBytes 4 qty) ++
            (leBytes 2 3 ++ ((vlBytes s.length ++ s) ++ ((vlBytes t.length ++ t) ++ junk)))
          from by simp [tradeBody, tradeOptBytes, vbChunk, List.append_assoc]]
      exact List.drop_left' (by simp)
    have e4 := get_bitmap_view ⟨tradeBody ts_ns price qty (some s) (some t) ++ junk,
      0 + 8 + 8 + 4⟩ 3 ((vlBytes s.length ++ s) ++ ((vlBytes t.length ++ t) ++ junk))
      (by dsimp only; rw [hBlen]; omega) hd20 (by decide)
    rw [e4]
    repeat rw [MRes.bind_ok]
    rw [if_pos (show ((3 : Nat) &&& 1 <<< trade.SYMBOL ≠ 0) from by decide)]
    have hd22 : (tradeBody ts_ns price qty (some s) (some t) ++ junk).drop
        (0 + 8 + 8 + 4 + 2) =
        (vlBytes s.length ++ s) ++ ((vlBytes t.length ++ t) ++ junk) := by
      rw [show tradeBody ts_ns price qty (some s) (some t) ++ junk =
          (leBytes 8 ts_ns ++ leBytes 8 (price % 2 ^ 64).toNat ++ leBytes 4 qty ++
            leBytes 2 3) ++ ((vlBytes s.length ++ s) ++ ((vlBytes t.length ++ t) ++ junk))
          from by simp [tradeBody, tradeOptBytes, vbChunk, List.append_assoc]]
      exact List.drop_left' (by simp)
    have e5 := get_varbytes_view ⟨tradeBody ts_ns price qty (some s) (some t) ++ junk,
      0 + 8 + 8 + 4 + 2⟩ s ((vlBytes t.length ++ t) ++ junk) (by dsimp only; rw [hBlen]; omega)
      hd22 hsl
    rw [e5]
    repeat rw [MRes.bind_ok]
    rw [if_pos (show ((3 : Nat) &&& 1 <<< trade.NOTE ≠ 0) from by decide)]
    have hd22t : (tradeBody ts_ns price qty (some s) (some t) ++ junk).drop
        (0 + 8 + 8 + 4 + 2 + (vlBytes s.length).length + s.length) =
        (vlBytes t.length ++ t) ++ junk := by
      rw [show tradeBody ts_ns price qty (some s) (some t) ++ junk =
          (leBytes 8 ts_ns ++ leBytes 8 (price % 2 ^ 64).toNat ++ leBytes 4 qty ++
            leBytes 2 3 ++ (vlBytes s.length ++ s)) ++ ((vlBytes t.length ++ t) ++ junk)
          from by simp [tradeBody, tradeOptBytes, vbChunk, List.append_assoc]]
      exact List.drop_left' (by simp; omega)
    have e6 := get_varbytes_view ⟨tradeBody ts_ns price qty (some s) (some t) ++ junk,
      0 + 8 + 8 + 4 + 2 + (vlBytes s.length).length + s.length⟩ t junk
      (by dsimp only; rw [hBlen]; omega) hd22t htl
    rw [e6]
    repeat rw [MRes.bind_ok]

set_option maxHeartbeats 2000000 in
/-- Closed form of `quote::decode` on a well-formed quote frame whose
body is the schema body followed by arbitrary extra bytes (counted in
the declared length), with arbitrary bytes after the frame. -/
theorem quote_decode_eq (seq ts_ns : Nat) (bid ask : Int) (level : Nat)
    (symbol : Option (List Nat)) (junk extra : List Nat)
    (hseq : seq < 2 ^ 32) (hts : ts_ns < 2 ^ 64)
    (hb1 : -2 ^ 63 ≤ bid) (hb2 : bid < 2 ^ 63)
    (ha1 : -2 ^ 63 ≤ ask) (ha2 : ask < 2 ^ 63) (hlev : level < 2 ^ 8)
    (hsym : ∀ s, symbol = some s → s.length < 256)
    (hlen : (quoteBody ts_ns bid ask level symbol).length + junk.length ≤
      MAX_FRAME_SIZE - 20) :
    quote.decode (mkFrame (quoteHeader seq symbol)
        (quoteBody ts_ns bid ask level symbol ++ junk) ++ extra) =
      .ok ({quoteHeader seq symbol with
              len := (quoteBody ts_ns bid ask level symbol ++ junk).length},
           ts_ns, bid, ask, level, symbol) := by
  have hMAX : MAX_FRAME_SIZE = 16 * 1024 * 1024 := rfl
  rcases symbol with _ | s
  · -- symbol = none
    have hhdr : quoteHeader seq none = FrameHeader.mk FRAME_MAGIC 1 0 QUOTE_V1 seq 0 := rfl
    rw [hhdr]
    have hok : ({FrameHeader.mk FRAME_MAGIC 1 0 QUOTE_V1 seq 0 with
        len := (quoteBody ts_ns bid ask level none ++ junk).length} :
        FrameHeader).validate = .ok () :=
      validate_mk_ok 0 QUOTE_V1 seq _ (by decide)
        (by simp only [List.length_append] at *; omega)
    unfold quote.decode
    have hh : FrameDecoder.header (mkFrame (FrameHeader.mk FRAME_MAGIC 1 0 QUOTE_V1 seq 0)
        (quoteBody ts_ns bid ask level none ++ junk) ++ extra) =
        .ok {FrameHeader.mk FRAME_MAGIC 1 0 QUOTE_V1 seq 0 with
          len := (quoteBody ts_ns bid ask level none ++ junk).length} := by
      unfold FrameDecoder.header
      rw [decode_mkFrame _ _ _ (show FRAME_MAGIC < 2 ^ 16 by decide)
        (show (1 : Nat) < 2 ^ 8 by decide) (show (0 : Nat) < 2 ^ 8 by decide)
        (show QUOTE_V1 < 2 ^ 16 by decide) hseq hok, MRes.ofExcept_ok]
    rw [hh]
    repeat rw [MRes.bind_ok]
    rw [if_neg (show ¬ (QUOTE_V1 ≠ QUOTE_V1) by decide)]
    rw [verify_mkFrame _ _ _ (show FRAME_MAGIC < 2 ^ 16 by decide)
      (show (1 : Nat) < 2 ^ 8 by decide) (show (0 : Nat) < 2 ^ 8 by decide)
      (show QUOTE_V1 < 2 ^ 16 by decide) hseq hok]
    repeat rw [MRes.bind_ok]
    rw [body_mkFrame _ _ _ (show FRAME_MAGIC < 2 ^ 16 by decide)
      (show (1 : Nat) < 2 ^ 8 by decide) (show (0 : Nat) < 2 ^ 8 by decide)
      (show QUOTE_V1 < 2 ^ 16 by decide) hseq hok]
    repeat rw [MRes.bind_ok]
    have hB : quoteBody ts_ns bid ask level none ++ junk =
        leBytes 8 ts_ns ++ (leBytes 8 (bid % 2 ^ 64).toNat ++
          (leBytes 8 (ask % 2 ^ 64).toNat ++ (level :: junk))) := by
      simp [quoteBody, quoteOptBytes, leBytes, Nat.mod_eq_of_lt (show level < 256 by omega), List.append_assoc]
    have hBlen : (quoteBody ts_ns bid ask level none ++ junk).length =
        25 + junk.length := by
      rw [hB]
      simp
      omega
    have e1 := get_u64_view ⟨quoteBody ts_ns bid ask level none ++ junk, 0⟩ ts_ns
      (leBytes 8 (bid % 2 ^ 64).toNat ++ (leBytes 8 (ask % 2 ^ 64).toNat ++ (level :: junk)))
      (by simp) (by rw [List.drop_zero]; exact hB) hts
    rw [e1]
    repeat rw [MRes.bind_ok]
    have hd8 : (quoteBody ts_ns bid ask level none ++ junk).drop (0 + 8) =
        leBytes 8 (bid % 2 ^ 64).toNat ++ (leBytes 8 (ask % 2 ^ 64).toNat ++
          (level :: junk)) := by
      rw [hB]
      exact List.drop_left' (by simp)
    have e2 := get_i64_view ⟨quoteBody ts_ns bid ask level none ++ junk, 0 + 8⟩ bid
      (leBytes 8 (ask % 2 ^ 64).toNat ++ (level :: junk))
      (by dsimp only; rw [hBlen]; omega) hd8 hb1 hb2
    rw [e2]
    repeat rw [MRes.bind_ok]
    have hd16 : (quoteBody ts_ns bid ask level none ++ junk).drop (0 + 8 + 8) =
        leBytes 8 (ask % 2 ^ 64).toNat ++ (level :: junk) := by
      rw [show quoteBody ts_ns bid ask level none ++ junk =
          (leBytes 8 ts_ns ++ leBytes 8 (bid % 2 ^ 64).toNat) ++
            (leBytes 8 (ask % 2 ^ 64).toNat ++ (level :: junk))
          from by simp [quoteBody, quoteOptBytes, leBytes, Nat.mod_eq_of_lt (show level < 256 by omega),
            List.append_assoc]]
      exact List.drop_left' (by simp)
    have e3 := get_i64_view ⟨quoteBody ts_ns bid ask level none ++ junk, 0 + 8 + 8⟩ ask
      (level :: junk) (by dsimp only; rw [hBlen]; omega) hd16 ha1 ha2
    rw [e3]
    repeat rw [MRes.bind_ok]
    have hd24 : (quoteBody ts_ns bid ask level none ++ junk).drop (0 + 8 + 8 + 8) =
        level :: junk := by
      rw [show quoteBody ts_ns bid ask level none ++ junk =
          (leBytes 8 ts_ns ++ leBytes 8 (bid % 2 ^ 64).toNat ++
            leBytes 8 (ask % 2 ^ 64).toNat) ++ (level :: junk)
          from by simp [quoteBody, quoteOptBytes, leBytes, Nat.mod_eq_of_lt (show level < 256 by omega),
            List.append_assoc]]
      exact List.drop_left' (by simp)
    have e4 := get_u8_view ⟨quoteBody ts_ns bid ask level none ++ junk, 0 + 8 + 8 + 8⟩
      level junk (by dsimp only; rw [hBlen]; omega) hd24
    rw [e4]
    repeat rw [MRes.bind_ok]
    rw [show (FrameHeader.mk FRAME_MAGIC 1 0 QUOTE_V1 seq
      (quoteBody ts_ns bid ask level none ++ junk).length).has_flag 0x01 = false from by
      simp only [FrameHeader.has_flag]
      decide]
    rw [if_neg (by decide)]
    repeat rw [MRes.bind_ok]
  · -- symbol = some s
    have hsl : s.length < 256 := hsym s rfl
    have hhdr : quoteHeader seq (some s) =
        FrameHeader.mk FRAME_MAGIC 1 1 QUOTE_V1 seq 0 := by
      simp [quoteHeader, FrameHeader.new, FrameHeader.set_flag]
    rw [hhdr]
    have hok : ({FrameHeader.mk FRAME_MAGIC 1 1 QUOTE_V1 seq 0 with
        len := (quoteBody ts_ns bid ask level (some s) ++ junk).length} :
        FrameHeader).validate = .ok () :=
      validate_mk_ok 1 QUOTE_V1 seq _ (by decide)
        (by simp only [List.length_append] at *; omega)
    unfold quote.decode
    have hh : FrameDecoder.header (mkFrame (FrameHeader.mk FRAME_MAGIC 1 1 QUOTE_V1 seq 0)
        (quoteBody ts_ns bid ask level (some s) ++ junk) ++ extra) =
        .ok {FrameHeader.mk FRAME_MAGIC 1 1 QUOTE_V1 seq 0 with
          len := (quoteBody ts_ns bid ask level (some s) ++ junk).length} := by
      unfold FrameDecoder.header
      rw [decode_mkFrame _ _ _ (show FRAME_MAGIC < 2 ^ 16 by decide)
        (show (1 : Nat) < 2 ^ 8 by decide) (show (1 : Nat) < 2 ^ 8 by decide)
        (show QUOTE_V1 < 2 ^ 16 by decide) hseq hok, MRes.ofExcept_ok]
    rw [hh]
    repeat rw [MRes.bind_ok]
    rw [if_neg (show ¬ (QUOTE_V1 ≠ QUOTE_V1) by decide)]
    rw [verify_mkFrame _ _ _ (show FRAME_MAGIC < 2 ^ 16 by decide)
      (show (1 : Nat) < 2 ^ 8 by decide) (show (1 : Nat) < 2 ^ 8 by decide)
      (show QUOTE_V1 < 2 ^ 16 by decide) hseq hok]
    repeat rw [MRes.bind_ok]
    rw [body_mkFrame _ _ _ (show FRAME_MAGIC < 2 ^ 16 by decide)
      (show (1 : Nat) < 2 ^ 8 by decide) (show (1 : Nat) < 2 ^ 8 by decide)
      (show QUOTE_V1 < 2 ^ 16 by decide) hseq hok]
    repeat rw [MRes.bind_ok]
    have hvs := length_vlBytes_pos s.length
    have hvs2 := length_vlBytes_le s.length
    have hB : quoteBody ts_ns bid ask level (some s) ++ junk =
        leBytes 8 ts_ns ++ (leBytes 8 (bid % 2 ^ 64).toNat ++
          (leBytes 8 (ask % 2 ^ 64).toNat ++
            (level :: (leBytes 2 1 ++ ((vlBytes s.length ++ s) ++ junk))))) := by
      simp [quoteBody, quoteOptBytes, vbChunk, leBytes, Nat.mod_eq_of_lt (show level < 256 by omega),
        List.append_assoc]
    have hBlen : (quoteBody ts_ns bid ask level (some s) ++ junk).length =
        27 + ((vlBytes s.length).length + (s.length + junk.length)) := by
      rw [hB]
      simp
      omega
    have e1 := get_u64_view ⟨quoteBody ts_ns bid ask level (some s) ++ junk, 0⟩ ts_ns
      (leBytes 8 (bid % 2 ^ 64).toNat ++ (leBytes 8 (ask % 2 ^ 64).toNat ++
        (level :: (leBytes 2 1 ++ ((vlBytes s.length ++ s) ++ junk)))))
      (by simp) (by rw [List.drop_zero]; exact hB) hts
    rw [e1]
    repeat rw [MRes.bind_ok]
    have hd8 : (quoteBody ts_ns bid ask level (some s) ++ junk).drop (0 + 8) =
        leBytes 8 (bid % 2 ^ 64).toNat ++ (leBytes 8 (ask % 2 ^ 64).toNat ++
          (level :: (leBytes 2 1 ++ ((vlBytes s.length ++ s) ++ junk)))) := by
      rw [hB]
      exact List.drop_left' (by simp)
    have e2 := get_i64_view ⟨quoteBody ts_ns bid ask level (some s) ++ junk, 0 + 8⟩ bid
      (leBytes 8 (ask % 2 ^ 64).toNat ++
        (level :: (leBytes 2 1 ++ ((vlBytes s.length ++ s) ++ junk))))
      (by dsimp only; rw [hBlen]; omega) hd8 hb1 hb2
    rw [e2]
    repeat rw [MRes.bind_ok]
    have hd16 : (quoteBody ts_ns bid ask level (some s) ++ junk).drop (0 + 8 + 8) =
        leBytes 8 (ask % 2 ^ 64).toNat ++
          (level :: (leBytes 2 1 ++ ((vlBytes s.length ++ s) ++ junk))) := by
      rw [show quoteBody ts_ns bid ask level (some s) ++ junk =
          (leBytes 8 ts_ns ++ leBytes 8 (bid % 2 ^ 64).toNat) ++
            (leBytes 8 (ask % 2 ^ 64).toNat ++
              (level :: (leBytes 2 1 ++ ((vlBytes s.length ++ s) ++ junk))))
          from by simp [quoteBody, quoteOptBytes, vbChunk, leBytes,
            Nat.mod_eq_of_lt (show level < 256 by omega), List.append_assoc]]
      exact List.drop_left' (by simp)
    have e3 := get_i64_view ⟨quoteBody ts_ns bid ask level (some s) ++ junk, 0 + 8 + 8⟩ ask
      (level :: (leBytes 2 1 ++ ((vlBytes s.length ++ s) ++ junk)))
      (by dsimp only; rw [hBlen]; omega) hd16 ha1 ha2
    rw [e3]
    repeat rw [MRes.bind_ok]
    have hd24 : (quoteBody ts_ns bid ask level (some s) ++ junk).drop (0 + 8 + 8 + 8) =
        level :: (leBytes 2 1 ++ ((vlBytes s.length ++ s) ++ junk)) := by
      rw [show quoteBody ts_ns bid ask level (some s) ++ junk =
          (leBytes 8 ts_ns ++ leBytes 8 (bid % 2 ^ 64).toNat ++
            leBytes 8 (ask % 2 ^ 64).toNat) ++
            (level :: (leBytes 2 1 ++ ((vlBytes s.length ++ s) ++ junk)))
          from by simp [quoteBody, quoteOptBytes, vbChunk, leBytes,
            Nat.mod_eq_of_lt (show level < 256 by omega), List.append_assoc]]
      exact List.drop_left' (by simp)
    have e4 := get_u8_view ⟨quoteBody ts_ns bid ask level (some s) ++ junk, 0 + 8 + 8 + 8⟩
      level (leBytes 2 1 ++ ((vlBytes s.length ++ s) ++ junk))
      (by dsimp only; rw [hBlen]; omega) hd24
    rw [e4]
    repeat rw [MRes.bind_ok]
    rw [show (FrameHeader.mk FRAME_MAGIC 1 1 QUOTE_V1 seq
      (quoteBody ts_ns bid ask level (some s) ++ junk).length).has_flag 0x01 = true from by
      simp only [FrameHeader.has_flag]
      decide]
    rw [if_pos rfl]
    have hd25 : (quoteBody ts_ns bid ask level (some s) ++ junk).drop (0 + 8 + 8 + 8 + 1) =
        leBytes 2 1 ++ ((vlBytes s.length ++ s) ++ junk) := by
      rw [show quoteBody ts_ns bid ask level (some s) ++ junk =
          (leBytes 8 ts_ns ++ leBytes 8 (bid % 2 ^ 64).toNat ++
            leBytes 8 (ask % 2 ^ 64).toNat ++ [level]) ++
            (leBytes 2 1 ++ ((vlBytes s.length ++ s) ++ junk))
          from by simp [quoteBody, quoteOptBytes, vbChunk, leBytes,
            Nat.mod_eq_of_lt (show level < 256 by omega), List.append_assoc]]
      exact List.drop_left' (by simp)
    have e5 := get_bitmap_view ⟨quoteBody ts_ns bid ask level (some s) ++ junk,
      0 + 8 + 8 + 8 + 1⟩ 1 ((vlBytes s.length ++ s) ++ junk)
      (by dsimp only; rw [hBlen]; omega) hd25 (by decide)
    rw [e5]
    repeat rw [MRes.bind_ok]
    rw [if_pos (show ((1 : Nat) &&& 1 <<< quote.SYMBOL ≠ 0) from by decide)]
    have hd27 : (quoteBody ts_ns bid ask level (some s) ++ junk).drop
        (0 + 8 + 8 + 8 + 1 + 2) = (vlBytes s.length ++ s) ++ junk := by
      rw [show quoteBody ts_ns bid ask level (some s) ++ junk =
          (leBytes 8 ts_ns ++ leBytes 8 (bid % 2 ^ 64).toNat ++
            leBytes 8 (ask % 2 ^ 64).toNat ++ [level] ++ leBytes 2 1) ++
            ((vlBytes s.length ++ s) ++ junk)
          from by simp [quoteBody, quoteOptBytes, vbChunk, leBytes,
            Nat.mod_eq_of_lt (show level < 256 by omega), List.append_assoc]]
      exact List.drop_left' (by simp)
    have e6 := get_varbytes_view ⟨quoteBody ts_ns bid ask level (some s) ++ junk,
      0 + 8 + 8 + 8 + 1 + 2⟩ s junk (by dsimp only; rw [hBlen]; omega) hd27 hsl
    rw [e6]
    repeat rw [MRes.bind_ok]

/-! ## Schema body length bounds -/

theorem tradeBody_len_le (ts_ns : Nat) (price : Int) (qty : Nat)
    (symbol note : Option (List Nat))
    (hsym : ∀ s, symbol = some s → s.length < 256)
    (hnote : ∀ s, note = some s → s.length < 256) :
    (tradeBody ts_ns price qty symbol note).length ≤ 536 := by
  rcases symbol with _ | s <;> rcases note with _ | t
  · simp [tradeBody, tradeOptBytes]
  · have ht := hnote t rfl
    have hvt := length_vlBytes_le t.length
    simp [tradeBody, tradeOptBytes, vbChunk]
    omega
  · have hs := hsym s rfl
    have hvs := length_vlBytes_le s.length
    simp [tradeBody, tradeOptBytes, vbChunk]
    omega
  · have hs := hsym s rfl
    have ht := hnote t rfl
    have hvs := length_vlBytes_le s.length
    have hvt := length_vlBytes_le t.length
    simp [tradeBody, tradeOptBytes, vbChunk]
    omega

theorem quoteBody_len_le (ts_ns : Nat) (bid ask : Int) (level : Nat)
    (symbol : Option (List Nat))
    (hsym : ∀ s, symbol = some s → s.length < 256) :
    (quoteBody ts_ns bid ask level symbol).length ≤ 284 := by
  rcases symbol with _ | s
  · simp [quoteBody, quoteOptBytes]
  · have hs := hsym s rfl
    have hvs := length_vlBytes_le s.length
    simp [quoteBody, quoteOptBytes, vbChunk]
    omega

theorem take_mkFrame (h : FrameHeader) (body rest : List Nat) (n : Nat)
    (hn : n = 16 + body.length + 4) :
    (mkFrame h body ++ rest).take n = mkFrame h body := by
  subst hn
  exact List.take_left' (length_mkFrame h body)

/-! ## Claim C1 — trade round-trip -/

/-- C1: for every `seq < 2^32`, `ts_ns < 2^64`, `price` in `i64` range,
`qty < 2^32` and optional symbol/note of at most 255 bytes each,
`trade::encode` into a sufficiently large buffer succeeds, and
`trade::decode` of the resulting frame bytes returns exactly the same
`ts_ns`, `price`, `qty`, `symbol` and `note` (absent fields stay
absent), with the header carrying the given `seq`. -/
theorem claim_C1_trade_roundtrip :
    ∀ (buf : List Nat) (seq ts_ns : Nat) (price : Int) (qty : Nat)
      (symbol note : Option (List Nat)),
      seq < 2 ^ 32 → ts_ns < 2 ^ 64 → -2 ^ 63 ≤ price → price < 2 ^ 63 → qty < 2 ^ 32 →
      (∀ s, symbol = some s → s.length ≤ 255) →
      (∀ s, note = some s → s.length ≤ 255) →
      16 + (tradeBody ts_ns price qty symbol note).length + 4 ≤ buf.length →
      ∃ sz out hdr,
        trade.encode buf seq ts_ns price qty symbol note = .ok (sz, out) ∧
        trade.decode (out.take sz) = .ok (hdr, ts_ns, price, qty, symbol, note) ∧
        hdr.seq = seq := by
  intro buf seq ts_ns price qty symbol note hseq hts hp1 hp2 hqty hsym hnote hcap
  have hsym' : ∀ s, symbol = some s → s.length < 256 := fun s h => by
    have := hsym s h
    omega
  have hnote' : ∀ s, note = some s → s.length < 256 := fun s h => by
    have := hnote s h
    omega
  have henc := trade_encode_eq buf seq ts_ns price qty symbol note hsym' hnote' hcap
  refine ⟨16 + (tradeBody ts_ns price qty symbol note).length + 4,
    mkFrame (tradeHeader seq symbol note) (tradeBody ts_ns price qty symbol note) ++
      buf.drop (16 + (tradeBody ts_ns price qty symbol note).length + 4),
    {tradeHeader seq symbol note with
      len := (tradeBody ts_ns price qty symbol note).length}, henc, ?_, ?_⟩
  · rw [take_mkFrame _ _ _ _ rfl]
    have hbnd := tradeBody_len_le ts_ns price qty symbol note hsym' hnote'
    have hdec := trade_decode_eq seq ts_ns price qty symbol note [] []
      hseq hts hp1 hp2 hqty hsym' hnote'
      (by simp only [List.length_nil]; unfold MAX_FRAME_SIZE; omega)
    simp only [List.append_nil] at hdec
    exact hdec
  · show (tradeHeader seq symbol note).seq = seq
    unfold tradeHeader
    split <;> rfl

/-- Witness for C1 at a concrete input. -/
theorem claim_C1_witness :
    ∃ sz out hdr,
      trade.encode (List.replicate 64 0) 7 123 (-5) 9 (some [65, 66]) none =
        .ok (sz, out) ∧
      trade.decode (out.take sz) = .ok (hdr, 123, -5, 9, some [65, 66], none) ∧
      hdr.seq = 7 :=
  claim_C1_trade_roundtrip (List.replicate 64 0) 7 123 (-5) 9 (some [65, 66]) none
    (by decide) (by decide) (by decide) (by decide) (by decide)
    (by intro s h; cases h; decide) (by intro s h; cases h)
    (by decide)

/-! ## Claim C10 — schema decoders ignore trailing body bytes -/

/-- C10 (implicit): a frame whose declared body is the schema fields
followed by arbitrary extra bytes still decodes successfully, and the
extra bytes are silently ignored — the decoders never check that the
body cursor reached the end. -/
theorem claim_C10_trailing_ignored :
    (∀ (seq ts_ns : Nat) (price : Int) (qty : Nat) (symbol note : Option (List Nat))
       (junk : List Nat),
      seq < 2 ^ 32 → ts_ns < 2 ^ 64 → -2 ^ 63 ≤ price → price < 2 ^ 63 → qty < 2 ^ 32 →
      (∀ s, symbol = some s → s.length ≤ 255) →
      (∀ s, note = some s → s.length ≤ 255) →
      junk.length ≤ 1024 * 1024 →
      trade.decode (mkFrame (tradeHeader seq symbol note)
          (tradeBody ts_ns price qty symbol note ++ junk)) =
        .ok ({tradeHeader seq symbol note with
                len := (tradeBody ts_ns price qty symbol note ++ junk).length},
             ts_ns, price, qty, symbol, note)) ∧
    (∀ (seq ts_ns : Nat) (bid ask : Int) (level : Nat) (symbol : Option (List Nat))
       (junk : List Nat),
      seq < 2 ^ 32 → ts_ns < 2 ^ 64 → -2 ^ 63 ≤ bid → bid < 2 ^ 63 →
      -2 ^ 63 ≤ ask → ask < 2 ^ 63 → level < 2 ^ 8 →
      (∀ s, symbol = some s → s.length ≤ 255) →
      junk.length ≤ 1024 * 1024 →
      quote.decode (mkFrame (quoteHeader seq symbol)
          (quoteBody ts_ns bid ask level symbol ++ junk)) =
        .ok ({quoteHeader seq symbol with
                len := (quoteBody ts_ns bid ask level symbol ++ junk).length},
             ts_ns, bid, ask, level, symbol)) := by
  constructor
  · intro seq ts_ns price qty symbol note junk hseq hts hp1 hp2 hqty hsym hnote hjunk
    have hsym' : ∀ s, symbol = some s → s.length < 256 := fun s h => by
      have := hsym s h
      omega
    have hnote' : ∀ s, note = some s → s.length < 256 := fun s h => by
      have := hnote s h
      omega
    have hbnd := tradeBody_len_le ts_ns price qty symbol note hsym' hnote'
    have hdec := trade_decode_eq seq ts_ns price qty symbol note junk []
      hseq hts hp1 hp2 hqty hsym' hnote' (by unfold MAX_FRAME_SIZE; omega)
    simp only [List.append_nil] at hdec
    exact hdec
  · intro seq ts_ns bid ask level symbol junk hseq hts hb1 hb2 ha1 ha2 hlev hsym hjunk
    have hsym' : ∀ s, symbol = some s → s.length < 256 := fun s h => by
      have := hsym s h
      omega
    have hbnd := quoteBody_len_le ts_ns bid ask level symbol hsym'
    have hdec := quote_decode_eq seq ts_ns bid ask level symbol junk []
      hseq hts hb1 hb2 ha1 ha2 hlev hsym' (by unfold MAX_FRAME_SIZE; omega)
    simp only [List.append_nil] at hdec
    exact hdec

/-- Witness for C10 at concrete inputs with nonempty trailing body
bytes. -/
theorem claim_C10_witness :
    trade.decode (mkFrame (tradeHeader 1 none none)
        (tradeBody 5 1 2 none none ++ [170, 187])) =
      .ok ({tradeHeader 1 none none with
              len := (tradeBody 5 1 2 none none ++ [170, 187]).length},
           5, 1, 2, none, none) ∧
    quote.decode (mkFrame (quoteHeader 3 none)
        (quoteBody 6 1 2 4 none ++ [204])) =
      .ok ({quoteHeader 3 none with len := (quoteBody 6 1 2 4 none ++ [204]).length},
           6, 1, 2, 4, none) :=
  ⟨claim_C10_trailing_ignored.1 1 5 1 2 none none [170, 187] (by decide) (by decide)
      (by decide) (by decide) (by decide) (by intro s h; cases h) (by intro s h; cases h)
      (by decide),
   claim_C10_trailing_ignored.2 3 6 1 2 4 none [204] (by decide) (by decide) (by decide)
      (by decide) (by decide) (by decide) (by decide) (by intro s h; cases h) (by decide)⟩

/-! ## Claim C5 — presence bitmap -/

theorem sliceL_mkFrame (h : FrameHeader) (pre mid post : List Nat) (off en : Nat)
    (hoff : off = 16 + pre.length) (hen : en = off + mid.length) :
    sliceL (mkFrame h (pre ++ (mid ++ post))) off en = mid := by
  subst hoff hen
  unfold mkFrame
  generalize leBytes 4 (crc32c (FrameHeader.headerBytes
    {h with len := (pre ++ (mid ++ post)).length} ++ (pre ++ (mid ++ post)))) = C
  rw [show (FrameHeader.headerBytes {h with len := (pre ++ (mid ++ post)).length} ++
      (pre ++ (mid ++ post))) ++ C =
      (FrameHeader.headerBytes {h with len := (pre ++ (mid ++ post)).length} ++ pre) ++
        (mid ++ (post ++ C)) from by simp [List.append_assoc]]
  exact sliceL_infix _ _ _ _ _ (by simp [length_headerBytes]) rfl

theorem testBit_lt_four (b : Nat) (hb : b < 4) : ∀ i, 2 ≤ i → b.testBit i = false := by
  intro i hi
  apply Nat.testBit_lt_two_pow
  calc b < 2 ^ 2 := hb
  _ ≤ 2 ^ i := Nat.pow_le_pow_right (by norm_num) hi

theorem testBit_lt_two (b : Nat) (hb : b < 2) : ∀ i, 1 ≤ i → b.testBit i = false := by
  intro i hi
  apply Nat.testBit_lt_two_pow
  calc b < 2 ^ 1 := hb
  _ ≤ 2 ^ i := Nat.pow_le_pow_right (by norm_num) hi

set_option maxHeartbeats 2000000 in
/-- C5: the presence-bitmap header flag (bit 0) is set iff at least one
optional field is supplied; when set, the body carries a 16-bit bitmap
(at frame offsets 36..38 for trade, 41..43 for quote) whose set bits
are exactly the supplied optional fields (symbol = bit 0, note = bit 1
for trade; symbol = bit 0 for quote); and decoding returns exactly the
supplied optional fields. -/
theorem claim_C5_presence_bitmap :
    (∀ (buf : List Nat) (seq ts_ns : Nat) (price : Int) (qty : Nat)
       (symbol note : Option (List Nat)),
      seq < 2 ^ 32 → ts_ns < 2 ^ 64 → -2 ^ 63 ≤ price → price < 2 ^ 63 → qty < 2 ^ 32 →
      (∀ s, symbol = some s → s.length ≤ 255) →
      (∀ s, note = some s → s.length ≤ 255) →
      16 + (tradeBody ts_ns price qty symbol note).length + 4 ≤ buf.length →
      ∃ sz out hdr bm,
        trade.encode buf seq ts_ns price qty symbol note = .ok (sz, out) ∧
        FrameDecoder.header (out.take sz) = .ok hdr ∧
        hdr.has_flag 0x01 = (symbol.isSome || note.isSome) ∧
        ((symbol.isSome || note.isSome) = true →
          sliceL (out.take sz) 36 38 = leBytes 2 bm ∧
          bm.testBit 0 = symbol.isSome ∧ bm.testBit 1 = note.isSome ∧
          (∀ i, 2 ≤ i → bm.testBit i = false)) ∧
        trade.decode (out.take sz) = .ok (hdr, ts_ns, price, qty, symbol, note)) ∧
    (∀ (buf : List Nat) (seq ts_ns : Nat) (bid ask : Int) (level : Nat)
       (symbol : Option (List Nat)),
      seq < 2 ^ 32 → ts_ns < 2 ^ 64 → -2 ^ 63 ≤ bid → bid < 2 ^ 63 →
      -2 ^ 63 ≤ ask → ask < 2 ^ 63 → level < 2 ^ 8 →
      (∀ s, symbol = some s → s.length ≤ 255) →
      16 + (quoteBody ts_ns bid ask level symbol).length + 4 ≤ buf.length →
      ∃ sz out hdr bm,
        quote.encode buf seq ts_ns bid ask level symbol = .ok (sz, out) ∧
        FrameDecoder.header (out.take sz) = .ok hdr ∧
        hdr.has_flag 0x01 = symbol.isSome ∧
        (symbol.isSome = true →
          sliceL (out.take sz) 41 43 = leBytes 2 bm ∧
          bm.testBit 0 = symbol.isSome ∧
          (∀ i, 1 ≤ i → bm.testBit i = false)) ∧
        quote.decode (out.take sz) = .ok (hdr, ts_ns, bid, ask, level, symbol)) := by
  constructor
  · intro buf seq ts_ns price qty symbol note hseq hts hp1 hp2 hqty hsym hnote hcap
    have hsym' : ∀ s, symbol = some s → s.length < 256 := fun s h => by
      have := hsym s h
      omega
    have hnote' : ∀ s, note = some s → s.length < 256 := fun s h => by
      have := hnote s h
      omega
    have henc := trade_encode_eq buf seq ts_ns price qty symbol note hsym' hnote' hcap
    have hbnd := tradeBody_len_le ts_ns price qty symbol note hsym' hnote'
    have hdec := trade_decode_eq seq ts_ns price qty symbol note [] []
      hseq hts hp1 hp2 hqty hsym' hnote'
      (by simp only [List.length_nil]; unfold MAX_FRAME_SIZE; omega)
    simp only [List.append_nil] at hdec
    rcases symbol with _ | s <;> rcases note with _ | t
    · have hhdr : tradeHeader seq none none =
          FrameHeader.mk FRAME_MAGIC 1 0 TRADE_V1 seq 0 := by
        simp [tradeHeader, FrameHeader.new, FrameHeader.set_flag]
      rw [hhdr] at henc hdec
      have hok : ({FrameHeader.mk FRAME_MAGIC 1 0 TRADE_V1 seq 0 with
          len := (tradeBody ts_ns price qty none none).length} :
          FrameHeader).validate = .ok () :=
        validate_mk_ok 0 TRADE_V1 seq (tradeBody ts_ns price qty none none).length
          (by decide) (by unfold MAX_FRAME_SIZE at *; omega)
      have hhd : FrameDecoder.header
          ((mkFrame (FrameHeader.mk FRAME_MAGIC 1 0 TRADE_V1 seq 0)
            (tradeBody ts_ns price qty none none) ++
            buf.drop (16 + (tradeBody ts_ns price qty none none).length + 4)).take
            (16 + (tradeBody ts_ns price qty none none).length + 4)) =
          .ok (FrameHeader.mk FRAME_MAGIC 1 0 TRADE_V1 seq
            (tradeBody ts_ns price qty none none).length) := by
        rw [take_mkFrame _ _ _ _ rfl]
        unfold FrameDecoder.header
        have hd := decode_mkFrame (FrameHeader.mk FRAME_MAGIC 1 0 TRADE_V1 seq 0)
          (tradeBody ts_ns price qty none none) []
          (show FRAME_MAGIC < 2 ^ 16 by decide) (show (1 : Nat) < 2 ^ 8 by decide)
          (show (0 : Nat) < 2 ^ 8 by decide) (show TRADE_V1 < 2 ^ 16 by decide) hseq hok
        simp only [List.append_nil] at hd
        rw [hd, MRes.ofExcept_ok]
      refine ⟨16 + (tradeBody ts_ns price qty none none).length + 4,
        mkFrame (FrameHeader.mk FRAME_MAGIC 1 0 TRADE_V1 seq 0)
          (tradeBody ts_ns price qty none none) ++
          buf.drop (16 + (tradeBody ts_ns price qty none none).length + 4),
        FrameHeader.mk FRAME_MAGIC 1 0 TRADE_V1 seq
          (tradeBody ts_ns price qty none none).length,
        0, henc, hhd, ?_, ?_, ?_⟩
      · rw [show (FrameHeader.mk FRAME_MAGIC 1 0 TRADE_V1 seq
          (tradeBody ts_ns price qty none none).length).has_flag 0x01 = false from by
          simp only [FrameHeader.has_flag]
          decide]
        simp
      · intro hpres
        exact absurd hpres (by decide)
      · rw [take_mkFrame _ _ _ _ rfl]
        exact hdec
    · have hhdr : tradeHeader seq none (some t) =
          FrameHeader.mk FRAME_MAGIC 1 1 TRADE_V1 seq 0 := by
        simp [tradeHeader, FrameHeader.new, FrameHeader.set_flag]
      rw [hhdr] at henc hdec
      have hok : ({FrameHeader.mk FRAME_MAGIC 1 1 TRADE_V1 seq 0 with
          len := (tradeBody ts_ns price qty none (some t)).length} :
          FrameHeader).validate = .ok () :=
        validate_mk_ok 1 TRADE_V1 seq (tradeBody ts_ns price qty none (some t)).length
          (by decide) (by unfold MAX_FRAME_SIZE at *; omega)
      have hhd : FrameDecoder.header
          ((mkFrame (FrameHeader.mk FRAME_MAGIC 1 1 TRADE_V1 seq 0)
            (tradeBody ts_ns price qty none (some t)) ++
            buf.drop (16 + (tradeBody ts_ns price qty none (some t)).length + 4)).take
            (16 + (tradeBody ts_ns price qty none (some t)).length + 4)) =
          .ok (FrameHeader.mk FRAME_MAGIC 1 1 TRADE_V1 seq
            (tradeBody ts_ns price qty none (some t)).length) := by
        rw [take_mkFrame _ _ _ _ rfl]
        unfold FrameDecoder.header
        have hd := decode_mkFrame (FrameHeader.mk FRAME_MAGIC 1 1 TRADE_V1 seq 0)
          (tradeBody ts_ns price qty none (some t)) []
          (show FRAME_MAGIC < 2 ^ 16 by decide) (show (1 : Nat) < 2 ^ 8 by decide)
          (show (1 : Nat) < 2 ^ 8 by decide) (show TRADE_V1 < 2 ^ 16 by decide) hseq hok
        simp only [List.append_nil] at hd
        rw [hd, MRes.ofExcept_ok]
      refine ⟨16 + (tradeBody ts_ns price qty none (some t)).length + 4,
        mkFrame (FrameHeader.mk FRAME_MAGIC 1 1 TRADE_V1 seq 0)
          (tradeBody ts_ns price qty none (some t)) ++
          buf.drop (16 + (tradeBody ts_ns price qty none (some t)).length + 4),
        FrameHeader.mk FRAME_MAGIC 1 1 TRADE_V1 seq
          (tradeBody ts_ns price qty none (some t)).length,
        2, henc, hhd, ?_, ?_, ?_⟩
      · rw [show (FrameHeader.mk FRAME_MAGIC 1 1 TRADE_V1 seq
          (tradeBody ts_ns price qty none (some t)).length).has_flag 0x01 = true from by
          simp only [FrameHeader.has_flag]
          decide]
        simp
      · intro hpres
        rw [take_mkFrame _ _ _ _ rfl]
        refine ⟨?_, ?_, ?_, testBit_lt_four 2 (by decide)⟩
        · rw [show tradeBody ts_ns price qty none (some t) =
              (leBytes 8 ts_ns ++ (leBytes 8 (price % 2 ^ 64).toNat ++ leBytes 4 qty)) ++
                (leBytes 2 2 ++ vbChunk t) from by
            simp [tradeBody, tradeOptBytes, List.append_assoc]]
          rw [sliceL_mkFrame _ _ _ _ _ _ (by simp) (by simp)]
        · simp only [Option.isSome_some, Option.isSome_none]
          decide
        · simp only [Option.isSome_some, Option.isSome_none]
          decide
      · rw [take_mkFrame _ _ _ _ rfl]
        exact hdec
    · have hhdr : tradeHeader seq (some s) none =
          FrameHeader.mk FRAME_MAGIC 1 1 TRADE_V1 seq 0 := by
        simp [tradeHeader, FrameHeader.new, FrameHeader.set_flag]
      rw [hhdr] at henc hdec
      have hok : ({FrameHeader.mk FRAME_MAGIC 1 1 TRADE_V1 seq 0 with
          len := (tradeBody ts_ns price qty (some s) none).length} :
          FrameHeader).validate = .ok () :=
        validate_mk_ok 1 TRADE_V1 seq (tradeBody ts_ns price qty (some s) none).length
          (by decide) (by unfold MAX_FRAME_SIZE at *; omega)
      have hhd : FrameDecoder.header
          ((mkFrame (FrameHeader.mk FRAME_MAGIC 1 1 TRADE_V1 seq 0)
            (tradeBody ts_ns price qty (some s) none) ++
            buf.drop (16 + (tradeBody ts_ns price qty (some s) none).length + 4)).take
            (16 + (tradeBody ts_ns price qty (some s) none).length + 4)) =
          .ok (FrameHeader.mk FRAME_MAGIC 1 1 TRADE_V1 seq
            (tradeBody ts_ns price qty (some s) none).length) := by
        rw [take_mkFrame _ _ _ _ rfl]
        unfold FrameDecoder.header
        have hd := decode_mkFrame (FrameHeader.mk FRAME_MAGIC 1 1 TRADE_V1 seq 0)
          (tradeBody ts_ns price qty (some s) none) []
          (show FRAME_MAGIC < 2 ^ 16 by decide) (show (1 : Nat) < 2 ^ 8 by decide)
          (show (1 : Nat) < 2 ^ 8 by decide) (show TRADE_V1 < 2 ^ 16 by decide) hseq hok
        simp only [List.append_nil] at hd
        rw [hd, MRes.ofExcept_ok]
      refine ⟨16 + (tradeBody ts_ns price qty (some s) none).length + 4,
        mkFrame (FrameHeader.mk FRAME_MAGIC 1 1 TRADE_V1 seq 0)
          (tradeBody ts_ns price qty (some s) none) ++
          buf.drop (16 + (tradeBody ts_ns price qty (some s) none).length + 4),
        FrameHeader.mk FRAME_MAGIC 1 1 TRADE_V1 seq
          (tradeBody ts_ns price qty (some s) none).length,
        1, henc, hhd, ?_, ?_, ?_⟩
      · rw [show (FrameHeader.mk FRAME_MAGIC 1 1 TRADE_V1 seq
          (tradeBody ts_ns price qty (some s) none).length).has_flag 0x01 = true from by
          simp only [FrameHeader.has_flag]
          decide]
        simp
      · intro hpres
        rw [take_mkFrame _ _ _ _ rfl]
        refine ⟨?_, ?_, ?_, testBit_lt_four 1 (by decide)⟩
        · rw [show tradeBody ts_ns price qty (some s) none =
              (leBytes 8 ts_ns ++ (leBytes 8 (price % 2 ^ 64).toNat ++ leBytes 4 qty)) ++
                (leBytes 2 1 ++ vbChunk s) from by
            simp [tradeBody, tradeOptBytes, List.append_assoc]]
          rw [sliceL_mkFrame _ _ _ _ _ _ (by simp) (by simp)]
        · simp only [Option.isSome_some, Option.isSome_none]
          decide
        · simp only [Option.isSome_some, Option.isSome_none]
          decide
      · rw [take_mkFrame _ _ _ _ rfl]
        exact hdec
    · have hhdr : tradeHeader seq (some s) (some t) =
          FrameHeader.mk FRAME_MAGIC 1 1 TRADE_V1 seq 0 := by
        simp [tradeHeader, FrameHeader.new, FrameHeader.set_flag]
      rw [hhdr] at henc hdec
      have hok : ({FrameHeader.mk FRAME_MAGIC 1 1 TRADE_V1 seq 0 with
          len := (tradeBody ts_ns price qty (some s) (some t)).length} :
          FrameHeader).validate = .ok () :=
        validate_mk_ok 1 TRADE_V1 seq (tradeBody ts_ns price qty (some s) (some t)).length
          (by decide) (by unfold MAX_FRAME_SIZE at *; omega)
      have hhd : FrameDecoder.header
          ((mkFrame (FrameHeader.mk FRAME_MAGIC 1 1 TRADE_V1 seq 0)
            (tradeBody ts_ns price qty (some s) (some t)) ++
            buf.drop (16 + (tradeBody ts_ns price qty (some s) (some t)).length + 4)).take
            (16 + (tradeBody ts_ns price qty (some s) (some t)).length + 4)) =
          .ok (FrameHeader.mk FRAME_MAGIC 1 1 TRADE_V1 seq
            (tradeBody ts_ns price qty (some s) (some t)).length) := by
        rw [take_mkFrame _ _ _ _ rfl]
        unfold FrameDecoder.header
        have hd := decode_mkFrame (FrameHeader.mk FRAME_MAGIC 1 1 TRADE_V1 seq 0)
          (tradeBody ts_ns price qty (some s) (some t)) []
          (show FRAME_MAGIC < 2 ^ 16 by decide) (show (1 : Nat) < 2 ^ 8 by decide)
          (show (1 : Nat) < 2 ^ 8 by decide) (show TRADE_V1 < 2 ^ 16 by decide) hseq hok
        simp only [List.append_nil] at hd
        rw [hd, MRes.ofExcept_ok]
      refine ⟨16 + (tradeBody ts_ns price qty (some s) (some t)).length + 4,
        mkFrame (FrameHeader.mk FRAME_MAGIC 1 1 TRADE_V1 seq 0)
          (tradeBody ts_ns price qty (some s) (some t)) ++
          buf.drop (16 + (tradeBody ts_ns price qty (some s) (some t)).length + 4),
        FrameHeader.mk FRAME_MAGIC 1 1 TRADE_V1 seq
          (tradeBody ts_ns price qty (some s) (some t)).length,
        3, henc, hhd, ?_, ?_, ?_⟩
      · rw [show (FrameHeader.mk FRAME_MAGIC 1 1 TRADE_V1 seq
          (tradeBody ts_ns price qty (some s) (some t)).length).has_flag 0x01 = true from by
          simp only [FrameHeader.has_flag]
          decide]
        simp
      · intro hpres
        rw [take_mkFrame _ _ _ _ rfl]
        refine ⟨?_, ?_, ?_, testBit_lt_four 3 (by decide)⟩
        · rw [show tradeBody ts_ns price qty (some s) (some t) =
              (leBytes 8 ts_ns ++ (leBytes 8 (price % 2 ^ 64).toNat ++ leBytes 4 qty)) ++
                (leBytes 2 3 ++ (vbChunk s ++ vbChunk t)) from by
            simp [tradeBody, tradeOptBytes, List.append_assoc]]
          rw [sliceL_mkFrame _ _ _ _ _ _ (by simp) (by simp)]
        · simp only [Option.isSome_some, Option.isSome_none]
          decide
        · simp only [Option.isSome_some, Option.isSome_none]
          decide
      · rw [take_mkFrame _ _ _ _ rfl]
        exact hdec
  · intro buf seq ts_ns bid ask level symbol hseq hts hb1 hb2 ha1 ha2 hlev hsym hcap
    have hsym' : ∀ s, symbol = some s → s.length < 256 := fun s h => by
      have := hsym s h
      omega
    have henc := quote_encode_eq buf seq ts_ns bid ask level symbol hsym' hcap
    have hbnd := quoteBody_len_le ts_ns bid ask level symbol hsym'
    have hdec := quote_decode_eq seq ts_ns bid ask level symbol [] []
      hseq hts hb1 hb2 ha1 ha2 hlev hsym'
      (by simp only [List.length_nil]; unfold MAX_FRAME_SIZE; omega)
    simp only [List.append_nil] at hdec
    rcases symbol with _ | s
    · have hhdr : quoteHeader seq none =
          FrameHeader.mk FRAME_MAGIC 1 0 QUOTE_V1 seq 0 := by
        simp [quoteHeader, FrameHeader.new, FrameHeader.set_flag]
      rw [hhdr] at henc hdec
      have hok : ({FrameHeader.mk FRAME_MAGIC 1 0 QUOTE_V1 seq 0 with
          len := (quoteBody ts_ns bid ask level none).length} :
          FrameHeader).validate = .ok () :=
        validate_mk_ok 0 QUOTE_V1 seq (quoteBody ts_ns bid ask level none).length
          (by decide) (by unfold MAX_FRAME_SIZE at *; omega)
      have hhd : FrameDecoder.header
          ((mkFrame (FrameHeader.mk FRAME_MAGIC 1 0 QUOTE_V1 seq 0)
            (quoteBody ts_ns bid ask level none) ++
            buf.drop (16 + (quoteBody ts_ns bid ask level none).length + 4)).take
            (16 + (quoteBody ts_ns bid ask level none).length + 4)) =
          .ok (FrameHeader.mk FRAME_MAGIC 1 0 QUOTE_V1 seq
            (quoteBody ts_ns bid ask level none).length) := by
        rw [take_mkFrame _ _ _ _ rfl]
        unfold FrameDecoder.header
        have hd := decode_mkFrame (FrameHeader.mk FRAME_MAGIC 1 0 QUOTE_V1 seq 0)
          (quoteBody ts_ns bid ask level none) []
          (show FRAME_MAGIC < 2 ^ 16 by decide) (show (1 : Nat) < 2 ^ 8 by decide)
          (show (0 : Nat) < 2 ^ 8 by decide) (show QUOTE_V1 < 2 ^ 16 by decide) hseq hok
        simp only [List.append_nil] at hd
        rw [hd, MRes.ofExcept_ok]
      refine ⟨16 + (quoteBody ts_ns bid ask level none).length + 4,
        mkFrame (FrameHeader.mk FRAME_MAGIC 1 0 QUOTE_V1 seq 0)
          (quoteBody ts_ns bid ask level none) ++
          buf.drop (16 + (quoteBody ts_ns bid ask level none).length + 4),
        FrameHeader.mk FRAME_MAGIC 1 0 QUOTE_V1 seq
          (quoteBody ts_ns bid ask level none).length,
        0, henc, hhd, ?_, ?_, ?_⟩
      · rw [show (FrameHeader.mk FRAME_MAGIC 1 0 QUOTE_V1 seq
          (quoteBody ts_ns bid ask level none).length).has_flag 0x01 = false from by
          simp only [FrameHeader.has_flag]
          decide]
        simp
      · intro hpres
        exact absurd hpres (by decide)
      · rw [take_mkFrame _ _ _ _ rfl]
        exact hdec
    · have hhdr : quoteHeader seq (some s) =
          FrameHeader.mk FRAME_MAGIC 1 1 QUOTE_V1 seq 0 := by
        simp [quoteHeader, FrameHeader.new, FrameHeader.set_flag]
      rw [hhdr] at henc hdec
      have hok : ({FrameHeader.mk FRAME_MAGIC 1 1 QUOTE_V1 seq 0 with
          len := (quoteBody ts_ns bid ask level (some s)).length} :
          FrameHeader).validate = .ok () :=
        validate_mk_ok 1 QUOTE_V1 seq (quoteBody ts_ns bid ask level (some s)).length
          (by decide) (by unfold MAX_FRAME_SIZE at *; omega)
      have hhd : FrameDecoder.header
          ((mkFrame (FrameHeader.mk FRAME_MAGIC 1 1 QUOTE_V1 seq 0)
            (quoteBody ts_ns bid ask level (some s)) ++
            buf.drop (16 + (quoteBody ts_ns bid ask level (some s)).length + 4)).take
            (16 + (quoteBody ts_ns bid ask level (some s)).length + 4)) =
          .ok (FrameHeader.mk FRAME_MAGIC 1 1 QUOTE_V1 seq
            (quoteBody ts_ns bid ask level (some s)).length) := by
        rw [take_mkFrame _ _ _ _ rfl]
        unfold FrameDecoder.header
        have hd := decode_mkFrame (FrameHeader.mk FRAME_MAGIC 1 1 QUOTE_V1 seq 0)
          (quoteBody ts_ns bid ask level (some s)) []
          (show FRAME_MAGIC < 2 ^ 16 by decide) (show (1 : Nat) < 2 ^ 8 by decide)
          (show (1 : Nat) < 2 ^ 8 by decide) (show QUOTE_V1 < 2 ^ 16 by decide) hseq hok
        simp only [List.append_nil] at hd
        rw [hd, MRes.ofExcept_ok]
      refine ⟨16 + (quoteBody ts_ns bid ask level (some s)).length + 4,
        mkFrame (FrameHeader.mk FRAME_MAGIC 1 1 QUOTE_V1 seq 0)
          (quoteBody ts_ns bid ask level (some s)) ++
          buf.drop (16 + (quoteBody ts_ns bid ask level (some s)).length + 4),
        FrameHeader.mk FRAME_MAGIC 1 1 QUOTE_V1 seq
          (quoteBody ts_ns bid ask level (some s)).length,
        1, henc, hhd, ?_, ?_, ?_⟩
      · rw [show (FrameHeader.mk FRAME_MAGIC 1 1 QUOTE_V1 seq
          (quoteBody ts_ns bid ask level (some s)).length).has_flag 0x01 = true from by
          simp only [FrameHeader.has_flag]
          decide]
        simp
      · intro hpres
        rw [take_mkFrame _ _ _ _ rfl]
        refine ⟨?_, ?_, testBit_lt_two 1 (by decide)⟩
        · rw [show quoteBody ts_ns bid ask level (some s) =
              (leBytes 8 ts_ns ++ (leBytes 8 (bid % 2 ^ 64).toNat ++
                (leBytes 8 (ask % 2 ^ 64).toNat ++ leBytes 1 level))) ++
                (leBytes 2 1 ++ vbChunk s) from by
            simp [quoteBody, quoteOptBytes, List.append_assoc]]
          rw [sliceL_mkFrame _ _ _ _ _ _ (by simp) (by simp)]
        · simp only [Option.isSome_some, Option.isSome_none]
          decide
      · rw [take_mkFrame _ _ _ _ rfl]
        exact hdec

/-- Witness for C5 at concrete inputs (trade with only `note` present,
quote with `symbol` present). -/
theorem claim_C5_witness :
    (∃ sz out hdr bm,
      trade.encode (List.replicate 64 0) 2 11 3 4 none (some [77]) = .ok (sz, out) ∧
      FrameDecoder.header (out.take sz) = .ok hdr ∧
      hdr.has_flag 0x01 = ((none : Option (List Nat)).isSome || (some [77]).isSome) ∧
      (((none : Option (List Nat)).isSome || (some [77]).isSome) = true →
        sliceL (out.take sz) 36 38 = leBytes 2 bm ∧
        bm.testBit 0 = (none : Option (List Nat)).isSome ∧
        bm.testBit 1 = (some [77]).isSome ∧
        (∀ i, 2 ≤ i → bm.testBit i = false)) ∧
      trade.decode (out.take sz) = .ok (hdr, 11, 3, 4, none, some [77])) ∧
    (∃ sz out hdr bm,
      quote.encode (List.replicate 64 0) 9 12 5 6 7 (some [88]) = .ok (sz, out) ∧
      FrameDecoder.header (out.take sz) = .ok hdr ∧
      hdr.has_flag 0x01 = (some [88]).isSome ∧
      ((some [88] : Option (List Nat)).isSome = true →
        sliceL (out.take sz) 41 43 = leBytes 2 bm ∧
        bm.testBit 0 = (some [88]).isSome ∧
        (∀ i, 1 ≤ i → bm.testBit i = false)) ∧
      quote.decode (out.take sz) = .ok (hdr, 12, 5, 6, 7, some [88])) :=
  ⟨claim_C5_presence_bitmap.1 (List.replicate 64 0) 2 11 3 4 none (some [77])
      (by decide) (by decide) (by decide) (by decide) (by decide)
      (by intro s h; cases h) (by intro s h; cases h; decide) (by decide),
   claim_C5_presence_bitmap.2 (List.replicate 64 0) 9 12 5 6 7 (some [88])
      (by decide) (by decide) (by decide) (by decide) (by decide) (by decide) (by decide)
      (by intro s h; cases h; decide) (by decide)⟩

/-! ## Claim C6 — CRC32C known values and single-bit-flip detection -/

theorem decode_flip_agree (P S : List Nat) (b b' : Nat) (h16 : 16 ≤ P.length) :
    FrameHeader.decode (P ++ b :: S) = FrameHeader.decode (P ++ b' :: S) := by
  unfold FrameHeader.decode
  rw [show (P ++ b :: S).length = (P ++ b' :: S).length from by simp]
  rw [sliceL_flip_agree P S b b' 0 2 (Or.inl (by omega)),
      sliceL_flip_agree P S b b' 4 6 (Or.inl (by omega)),
      sliceL_flip_agree P S b b' 6 10 (Or.inl (by omega)),
      sliceL_flip_agree P S b b' 10 14 (Or.inl (by omega)),
      getD_flip_agree P S b b' 2 (by omega),
      getD_flip_agree P S b b' 3 (by omega)]

/-- C6 counterexample to the frozen claim: a valid 28-byte trade-typed
frame whose `len` field is 8; flipping bit 3 of byte 10 (a header byte)
turns `len` into 0, and the truncated 20-byte frame happens to carry a
matching CRC for the shorter span, so `verify_crc32c` still returns
`Ok` — the flipped bit is not detected. -/
theorem claim_C6_counterexample :
    FrameDecoder.verify_crc32c
        ([237, 254, 1, 0, 1, 0, 0, 0, 0, 0] ++ 8 ::
          [0, 0, 0, 0, 0, 232, 70, 248, 41, 0, 0, 0, 0, 88, 245, 202, 39]) = .ok () ∧
    FrameDecoder.verify_crc32c
        ([237, 254, 1, 0, 1, 0, 0, 0, 0, 0] ++ (8 ^^^ 1 <<< 3) ::
          [0, 0, 0, 0, 0, 232, 70, 248, 41, 0, 0, 0, 0, 88, 245, 202, 39]) = .ok () := by
  constructor
  · decide
  · decide

set_option maxHeartbeats 2000000 in
/-- C6 (amended): `crc32c` has the stated known values, and flipping a
single bit of a valid frame anywhere *outside the `len` field* (bytes
10..14), within the frame extent, always makes `verify_crc32c` fail
with `CrcMismatch`.  (A flip inside the `len` field can change the
parsed frame extent and escape detection, as the counterexample
shows.) -/
theorem claim_C6_crc_detection :
    (crc32c [0x31, 0x32, 0x33, 0x34, 0x35, 0x36, 0x37, 0x38, 0x39] = 0xE3069283 ∧
     crc32c [] = 0) ∧
    ∀ (P S : List Nat) (b k : Nat) (h : FrameHeader),
      k < 8 →
      FrameHeader.decode (P ++ b :: S) = .ok h →
      P.length < h.total_size →
      FrameDecoder.verify_crc32c (P ++ b :: S) = .ok () →
      ¬ (10 ≤ P.length ∧ P.length < 14) →
      FrameDecoder.verify_crc32c (P ++ (b ^^^ 1 <<< k) :: S) = .err .crcMismatch := by
  refine ⟨⟨by decide, by decide⟩, ?_⟩
  intro P S b k h hk hdec hspan hver hnotlen
  obtain ⟨h16, hval, -, -, -, -, -, hlen2⟩ := decode_ok_inv hdec
  obtain ⟨-, -, -, hge, hle⟩ := validate_ok_inv hval
  have htot : h.total_size = 16 + h.len + 4 := rfl
  have hFlen : (P ++ b :: S).length = P.length + 1 + S.length := by
    simp
    omega
  have hFlen' : (P ++ (b ^^^ 1 <<< k) :: S).length = P.length + 1 + S.length := by
    simp
    omega
  have hverT : FrameDecoder.verifyWithTotal (P ++ b :: S) (.ok h) h.total_size = .ok () := by
    unfold FrameDecoder.verify_crc32c at hver
    rw [hdec] at hver
    exact hver
  have hlen1 : h.total_size ≤ (P ++ b :: S).length := by
    by_contra hcon
    push_neg at hcon
    unfold FrameDecoder.verifyWithTotal at hverT
    rw [if_pos hcon] at hverT
    exact absurd hverT (by simp)
  have h4 : 4 ≤ h.total_size := by rw [htot]; omega
  rw [verifyWithTotal_eq _ _ _ h4 hlen1] at hverT
  by_cases hcrc : crc32c (sliceL (P ++ b :: S) 0 (h.total_size - 4)) =
      leVal (sliceL (P ++ b :: S) (h.total_size - 4) h.total_size)
  case neg =>
    rw [if_neg hcrc] at hverT
    exact absurd hverT (by simp)
  have hd0 : (1 <<< k) ≠ 0 := by
    rw [Nat.shiftLeft_eq, one_mul]
    exact pow_ne_zero k (by norm_num)
  have hdlt : (1 <<< k) < 256 := by
    rw [Nat.shiftLeft_eq, one_mul]
    calc 2 ^ k < 2 ^ 8 := Nat.pow_lt_pow_right (by norm_num) hk
    _ = 256 := by norm_num
  have hbne : b ≠ b ^^^ 1 <<< k := by
    intro he
    apply hd0
    have h0 : b ^^^ (b ^^^ 1 <<< k) = 0 := by rw [← he, Nat.xor_self]
    rwa [← Nat.xor_assoc, Nat.xor_self, Nat.zero_xor] at h0
  rcases Nat.lt_or_ge P.length (h.total_size - 4) with hcase | hcase
  · -- flip inside the CRC-covered span
    have hcb : sliceL (P ++ (b ^^^ 1 <<< k) :: S) (h.total_size - 4) h.total_size =
        sliceL (P ++ b :: S) (h.total_size - 4) h.total_size :=
      (sliceL_flip_agree P S b (b ^^^ 1 <<< k) (h.total_size - 4) h.total_size
        (Or.inr hcase)).symm
    have htk : ∀ c : Nat, sliceL (P ++ c :: S) 0 (h.total_size - 4) =
        P ++ c :: S.take (h.total_size - 4 - P.length - 1) := by
      intro c
      unfold sliceL
      rw [List.drop_zero, Nat.sub_zero]
      rw [List.take_append_eq_append_take, List.take_of_length_le (by omega)]
      congr 1
      have hm : h.total_size - 4 - P.length = (h.total_size - 4 - P.length - 1) + 1 := by
        omega
      generalize hmm : h.total_size - 4 - P.length - 1 = m at hm ⊢
      rw [hm, List.take_succ_cons]
    have hne : ¬ (crc32c (sliceL (P ++ (b ^^^ 1 <<< k) :: S) 0 (h.total_size - 4)) =
        leVal (sliceL (P ++ (b ^^^ 1 <<< k) :: S) (h.total_size - 4) h.total_size)) := by
      rw [hcb, ← hcrc, htk b, htk (b ^^^ 1 <<< k)]
      exact (crc32c_flip_ne P _ b (1 <<< k) hd0 hdlt).symm ∘ Eq.symm ∘ Eq.symm
    have hlenslice : sliceL (P ++ (b ^^^ 1 <<< k) :: S) 10 14 =
        sliceL (P ++ b :: S) 10 14 := by
      have hor : (14 ≤ P.length ∨ P.length < 10) := by omega
      exact (sliceL_flip_agree P S b (b ^^^ 1 <<< k) 10 14 hor).symm
    cases hdec' : FrameHeader.decode (P ++ (b ^^^ 1 <<< k) :: S) with
    | ok h2 =>
        have hle2 : h2.len = h.len := by
          obtain ⟨-, -, -, -, -, -, -, hlen3⟩ := decode_ok_inv hdec'
          rw [hlen3, hlenslice, ← hlen2]
        have htot2 : h2.total_size = h.total_size := by
          rw [show h2.total_size = 16 + h2.len + 4 from rfl, hle2, htot]
        have hv' : FrameDecoder.verify_crc32c (P ++ (b ^^^ 1 <<< k) :: S) =
            FrameDecoder.verifyWithTotal (P ++ (b ^^^ 1 <<< k) :: S) (.ok h2)
              h2.total_size := by
          unfold FrameDecoder.verify_crc32c
          rw [hdec']
        rw [hv', htot2]
        rw [verifyWithTotal_eq _ _ _ h4 (by rw [hFlen', ← hFlen]; exact hlen1)]
        rw [if_neg hne]
    | error e =>
        have hv' : FrameDecoder.verify_crc32c (P ++ (b ^^^ 1 <<< k) :: S) =
            (if (P ++ (b ^^^ 1 <<< k) :: S).length < FrameHeader.SIZE then
              (.err .unexpectedEof : MRes Unit)
            else
              MRes.bind (sliceP (P ++ (b ^^^ 1 <<< k) :: S) 10 14) fun len_bytes =>
              if leVal len_bytes > MAX_FRAME_SIZE - FrameHeader.SIZE - 4 then .err e
              else FrameDecoder.verifyWithTotal (P ++ (b ^^^ 1 <<< k) :: S) (.error e)
                (FrameHeader.SIZE + leVal len_bytes + 4)) := by
          unfold FrameDecoder.verify_crc32c
          rw [hdec']
        rw [hv']
        rw [if_neg (by rw [hFlen']; unfold FrameHeader.SIZE; omega)]
        rw [sliceP_ok (by omega) (by rw [hFlen']; omega), MRes.bind_ok]
        rw [hlenslice, ← hlen2]
        rw [if_neg (show ¬ h.len > MAX_FRAME_SIZE - FrameHeader.SIZE - 4 from by
          unfold MAX_FRAME_SIZE FrameHeader.SIZE
          unfold MAX_FRAME_SIZE at hle
          omega)]
        rw [show FrameHeader.SIZE + h.len + 4 = h.total_size from rfl]
        rw [verifyWithTotal_eq _ _ _ h4 (by rw [hFlen', ← hFlen]; exact hlen1)]
        rw [if_neg hne]
  · -- flip inside the CRC trailer
    have hT16 : 16 ≤ h.total_size - 4 := by rw [htot]; omega
    have h16P : 16 ≤ P.length := le_trans hT16 hcase
    have hdec' : FrameHeader.decode (P ++ (b ^^^ 1 <<< k) :: S) = .ok h := by
      rw [decode_flip_agree P S (b ^^^ 1 <<< k) b h16P]
      exact hdec
    have hv' : FrameDecoder.verify_crc32c (P ++ (b ^^^ 1 <<< k) :: S) =
        FrameDecoder.verifyWithTotal (P ++ (b ^^^ 1 <<< k) :: S) (.ok h)
          h.total_size := by
      unfold FrameDecoder.verify_crc32c
      rw [hdec']
    rw [hv']
    rw [verifyWithTotal_eq _ _ _ h4 (by rw [hFlen', ← hFlen]; exact hlen1)]
    have hfd : sliceL (P ++ (b ^^^ 1 <<< k) :: S) 0 (h.total_size - 4) =
        sliceL (P ++ b :: S) 0 (h.total_size - 4) :=
      (sliceL_flip_agree P S b (b ^^^ 1 <<< k) 0 (h.total_size - 4) (Or.inl hcase)).symm
    have hdecomp : ∀ c : Nat, sliceL (P ++ c :: S) (h.total_size - 4) h.total_size =
        (P.drop (h.total_size - 4)) ++ c :: S.take (h.total_size - (P.length + 1)) := by
      intro c
      unfold sliceL
      rw [List.drop_append_of_le_length hcase]
      rw [show h.total_size - (h.total_size - 4) = 4 from by omega]
      rw [List.take_append_eq_append_take]
      rw [List.take_of_length_le (by simp; omega)]
      congr 1
      rw [show 4 - (P.drop (h.total_size - 4)).length =
          (h.total_size - (P.length + 1)) + 1 from by simp; omega]
      rw [List.take_succ_cons]
    have hcbne : leVal (sliceL (P ++ (b ^^^ 1 <<< k) :: S) (h.total_size - 4) h.total_size) ≠
        leVal (sliceL (P ++ b :: S) (h.total_size - 4) h.total_size) := by
      rw [hdecomp b, hdecomp (b ^^^ 1 <<< k)]
      exact leVal_flip_ne _ _ _ _ (fun he => hbne he.symm)
    rw [if_neg (by
      rw [hfd, hcrc]
      exact fun hx => hcbne hx.symm)]

/-- Witness for the amended C6 theorem: flipping bit 0 of the first
body byte of the valid 28-byte frame yields `CrcMismatch`. -/
theorem claim_C6_witness :
    FrameDecoder.verify_crc32c
        ([237, 254, 1, 0, 1, 0, 0, 0, 0, 0, 8, 0, 0, 0, 0, 0] ++ (232 ^^^ 1 <<< 0) ::
          [70, 248, 41, 0, 0, 0, 0, 88, 245, 202, 39]) = .err .crcMismatch :=
  claim_C6_crc_detection.2 [237, 254, 1, 0, 1, 0, 0, 0, 0, 0, 8, 0, 0, 0, 0, 0]
    [70, 248, 41, 0, 0, 0, 0, 88, 245, 202, 39] 232 0
    ⟨0xFEED, 1, 0, 1, 0, 8⟩ (by decide) (by decide) (by decide) (by decide) (by decide)

end Minibit
